import Mathlib

/-!
Storebook: the request-boundary subsystem of `src/app.js`.

A shallow embedding of the multipart parser, the session store, the upload
persistor and the request handler, together with the properties checked
against them.

Strings.  Every string the program inspects comes from a latin1 source (the
request body decoded with `toString('binary')`, request headers, the request
path), so a JavaScript string is modelled as the list of its characters,
`List Char`.  A `Buffer` is a list of bytes, `List (Fin 256)`.

Objects.  A plain JavaScript object used as a dictionary is modelled as the
association list of its own properties in insertion order; an assignment to
the key `__proto__` creates no own property.

Collaborators.  The data store, `JSON.parse`, `parseFloat`, the clock, the
random source and the file system are parameters of the handler (`Env`); the
effects of a request are returned as a list next to the response.
-/

namespace Storebook

/-- A JavaScript string: the list of its characters. -/
abbrev Str := List Char

/-- A Node `Buffer`: a list of bytes. -/
abbrev Buffer := List (Fin 256)

/-! ## String primitives used by `app.js` -/

/-- `buffer.toString('binary')`: every byte becomes the character with that code. -/
def toBinaryString (b : Buffer) : Str :=
  b.map (fun x => Char.ofNat x.val)

/-- `Buffer.from(s, 'binary')`: every character becomes its code modulo 256. -/
def bufferFromBinary (s : Str) : Buffer :=
  s.map (fun c => (⟨c.toNat % 256, Nat.mod_lt _ (by decide)⟩ : Fin 256))

/-- `s.indexOf(pat)`; `none` stands for `-1`. -/
def indexOf (pat : Str) : Str → Option Nat
  | [] => if pat.isPrefixOf [] then some 0 else none
  | c :: cs =>
    if pat.isPrefixOf (c :: cs) then some 0 else (indexOf pat cs).map (· + 1)

/-- `s.lastIndexOf(pat)`; `none` stands for `-1`. -/
def lastIndexOf (pat : Str) : Str → Option Nat
  | [] => if pat.isPrefixOf [] then some 0 else none
  | c :: cs =>
    match lastIndexOf pat cs with
    | some i => some (i + 1)
    | none => if pat.isPrefixOf (c :: cs) then some 0 else none

/-- `s.includes(pat)`. -/
def includes (pat s : Str) : Bool :=
  (indexOf pat s).isSome

/-- `s.substring(a, b)` for `a ≤ b` (the only way `app.js` calls it). -/
def substring (s : Str) (a b : Nat) : Str :=
  (s.drop a).take (b - a)

/-- Worker of `split`: `skip` counts the characters of a matched separator
still to be passed over, `acc` holds the current piece reversed. -/
def splitGo (sep : Str) : Nat → Str → Str → List Str
  | _, acc, [] => [acc.reverse]
  | skip + 1, acc, _ :: cs => splitGo sep skip acc cs
  | 0, acc, c :: cs =>
    if sep.isPrefixOf (c :: cs) then
      acc.reverse :: splitGo sep (sep.length - 1) [] cs
    else
      splitGo sep 0 (c :: acc) cs

/-- `s.split(sep)` for a non-empty separator: the pieces between the
successive leftmost, non-overlapping occurrences of `sep`. -/
def split (s sep : Str) : List Str :=
  splitGo sep 0 [] s

/-- One attempt of the regular expression `lit([^"]+)"` at the start of `s`:
the literal, then the longest run of characters other than `"` (which must
be non-empty), then a `"`.  The result is the captured run. -/
def matchQuotedAt (lit s : Str) : Option Str :=
  if lit.isPrefixOf s then
    let rest := s.drop lit.length
    let run := rest.takeWhile (fun c => c != '"')
    if !run.isEmpty && (rest.drop run.length).head? == some '"' then some run
    else none
  else none

/-- `s.match(/lit([^"]+)"/)`: the capture of the leftmost match, if any. -/
def regexQuoted (lit : Str) : Str → Option Str
  | [] => none
  | c :: cs =>
    match matchQuotedAt lit (c :: cs) with
    | some r => some r
    | none => regexQuoted lit cs

/-! ## Objects used as dictionaries -/

/-- Own-property update keeping the insertion position of an existing key. -/
def objSet {V : Type} : List (Str × V) → Str → V → List (Str × V)
  | [], k, v => [(k, v)]
  | (k', v') :: o, k, v =>
    if k' = k then (k', v) :: o else (k', v') :: objSet o k v

/-- Own-property lookup. -/
def objGet {V : Type} : List (Str × V) → Str → Option V
  | [], _ => none
  | (k', v') :: o, k => if k' = k then some v' else objGet o k

/-- The key that JavaScript reserves on plain objects. -/
def protoKey : Str := "__proto__".toList

/-- The assignment `obj[k] = v` on a plain object: it sets the own property
`k`, except for the key `__proto__`, where the inherited setter runs and no
own property is created. -/
def assignProp {V : Type} (o : List (Str × V)) (k : Str) (v : V) : List (Str × V) :=
  if k = protoKey then o else objSet o k v

/-! ## `parseMultipart` -/

/-- An entry of the `files` object: `{ filename, data }`. -/
structure FileEntry where
  filename : Str
  data : Buffer
deriving DecidableEq, Repr, Inhabited

/-- The value returned by `parseMultipart`: `{ fields, files }`. -/
structure Parsed where
  fields : List (Str × Str)
  files : List (Str × FileEntry)
deriving DecidableEq, Repr, Inhabited

def contentDisposition : Str := "Content-Disposition".toList
def nameLit : Str := "name=\"".toList
def filenameLit : Str := "filename=\"".toList
def crlf : Str := ['\r', '\n']
def crlfcrlf : Str := ['\r', '\n', '\r', '\n']

/-- The delimiter `--${boundary}`. -/
def delimiter (boundary : Str) : Str := '-' :: '-' :: boundary

/-- The body of the `for (const part of parts)` loop: every `continue`
leaves the two objects as they are. -/
def parsePart (acc : Parsed) (part : Str) : Parsed :=
  if !includes contentDisposition part then acc
  else
    match regexQuoted nameLit part with
    | none => acc
    | some fieldName =>
      match indexOf crlfcrlf part with
      | none => acc
      | some headerEndIndex =>
        let contentStart := headerEndIndex + 4
        match lastIndexOf crlf part with
        | none => acc
        | some contentEnd =>
          if contentEnd ≤ contentStart then acc
          else
            let content := substring part contentStart contentEnd
            match regexQuoted filenameLit part with
            | some filename =>
              if !filename.isEmpty then
                let fileBuffer := bufferFromBinary content
                { acc with files := assignProp acc.files fieldName ⟨filename, fileBuffer⟩ }
              else
                { acc with fields := assignProp acc.fields fieldName content }
            | none =>
              { acc with fields := assignProp acc.fields fieldName content }

/-- The function `parseMultipart(buffer, boundary)`. -/
def parseMultipart (buffer : Buffer) (boundary : Str) : Parsed :=
  (split (toBinaryString buffer) (delimiter boundary)).foldl parsePart ⟨[], []⟩

/-! ## Segment-wise reading of `parseMultipart` (from the specification) -/

/-- Merging entries into an object in order: a later entry overwrites an
earlier one with the same name. -/
def mergeEntries {V : Type} (o new : List (Str × V)) : List (Str × V) :=
  new.foldl (fun o e => objSet o e.1 e.2) o

/-- Merging the entries of a later result into an earlier one. -/
def Parsed.merge (a b : Parsed) : Parsed :=
  ⟨mergeEntries a.fields b.fields, mergeEntries a.files b.files⟩

/-- A segment that is skipped as malformed: no `Content-Disposition`, no
name, no blank line, or no content. -/
def malformed (part : Str) : Bool :=
  !includes contentDisposition part
    || (regexQuoted nameLit part).isNone
    || (match indexOf crlfcrlf part, lastIndexOf crlf part with
        | some headerEndIndex, some contentEnd => decide (contentEnd ≤ headerEndIndex + 4)
        | _, _ => true)

/-! ## The `multipart/form-data` encoding of a form (RFC 7578)

The encoder is not part of `app.js`; it is the format that browsers emit and
that `parseMultipart` is written to read.  Characters are written one byte
each. -/

/-- The header line shared by every part, up to the opening quote of the name. -/
def dispositionPrefix : Str := "Content-Disposition: form-data; name=\"".toList

/-- The text between the field name and the filename of a file part. -/
def filenameInfix : Str := "\"; filename=\"".toList

/-- The second header line of a file part, after the closing quote of the filename. -/
def contentTypeLine : Str := "\"\r\nContent-Type: application/octet-stream".toList

/-- The segment of a text field: the header line, a blank line, the value and
the framing CRLF. -/
def textPart (name value : Str) : Str :=
  crlf ++ (dispositionPrefix ++ (name ++ ('"' :: (crlfcrlf ++ (value ++ crlf)))))

/-- The segment of a file field: the two header lines, a blank line, the
payload and the framing CRLF. -/
def filePart (name filename : Str) (payload : Buffer) : Str :=
  crlf ++ (dispositionPrefix ++ (name ++ (filenameInfix ++ (filename ++
    (contentTypeLine ++ (crlfcrlf ++ (toBinaryString payload ++ crlf)))))))

/-- The closing delimiter follows the last part: `--boundary--` and CRLF. -/
def closing : Str := ['-', '-', '\r', '\n']

/-- The text of a form with the given text fields and one file. -/
def encodeText (boundary : Str) (fields : List (Str × Str))
    (fileField filename : Str) (payload : Buffer) : Str :=
  (fields.map (fun e => delimiter boundary ++ textPart e.1 e.2)).flatten
    ++ (delimiter boundary ++ (filePart fileField filename payload
    ++ (delimiter boundary ++ closing)))

/-- The body of a form with the given text fields and one file. -/
def encodeMultipart (boundary : Str) (fields : List (Str × Str))
    (fileField filename : Str) (payload : Buffer) : Buffer :=
  bufferFromBinary (encodeText boundary fields fileField filename payload)

/-- A boundary token: one-byte characters, no quote, no CR, no LF. -/
def legalBoundary (b : Str) : Bool :=
  b.all (fun c => c != '"' && c != '\r' && c != '\n' && decide (c.toNat < 256))

/-- A field name as it is written between quotes in a header line: not empty,
not the reserved key, one-byte characters, no quote, no `=`, no CR. -/
def legalName (n : Str) : Bool :=
  !n.isEmpty && n != protoKey
    && n.all (fun c => c != '"' && c != '=' && c != '\r' && decide (c.toNat < 256))

/-- A filename as it is written between quotes in a header line: not empty,
one-byte characters, no quote, no CR. -/
def legalFilename (f : Str) : Bool :=
  !f.isEmpty && f.all (fun c => c != '"' && c != '\r' && decide (c.toNat < 256))

/-- A text value that survives the round trip: not empty, one-byte
characters, and without a `filename="…"` pattern. -/
def legalValue (v : Str) : Bool :=
  !v.isEmpty && v.all (fun c => decide (c.toNat < 256))
    && (regexQuoted filenameLit v).isNone

/-- The text `s` does not contain the delimiter `--boundary`. -/
def delimiterFree (boundary s : Str) : Bool :=
  !includes (delimiter boundary) s

/-! ## Path functions of the platform (`path.posix`)

`path.join`, `path.extname` and `path.basename` belong to Node, not to this
repository; they are modelled from Node's documentation of their POSIX
behaviour. -/

/-- The step of `normalize` over the segments of a path: empty segments and
`.` are dropped, `..` removes the segment before it (and is kept only when
the path is relative and nothing is left to remove).  The stack is reversed. -/
def normalizeSegments (allowAboveRoot : Bool) : List Str → List Str → List Str
  | stack, [] => stack
  | stack, seg :: rest =>
    if seg = [] ∨ seg = ['.'] then normalizeSegments allowAboveRoot stack rest
    else if seg = ['.', '.'] then
      match stack with
      | top :: below =>
        if top = ['.', '.'] then normalizeSegments allowAboveRoot (seg :: stack) rest
        else normalizeSegments allowAboveRoot below rest
      | [] =>
        if allowAboveRoot then normalizeSegments allowAboveRoot [seg] rest
        else normalizeSegments allowAboveRoot [] rest
    else normalizeSegments allowAboveRoot (seg :: stack) rest

/-- Segments joined with `/`. -/
def joinSegments : List Str → Str
  | [] => []
  | [seg] => seg
  | seg :: rest => seg ++ '/' :: joinSegments rest

/-- `path.normalize(p)`. -/
def pathNormalize (p : Str) : Str :=
  if p.isEmpty then ['.']
  else
    let isAbsolute := p.head? == some '/'
    let trailingSeparator := p.getLast? == some '/'
    let body := joinSegments (normalizeSegments (!isAbsolute) [] (split p ['/'])).reverse
    if body.isEmpty then
      if isAbsolute then ['/'] else if trailingSeparator then ['.', '/'] else ['.']
    else
      (if isAbsolute then '/' :: body else body) ++ (if trailingSeparator then ['/'] else [])

/-- `path.join(...args)`: the non-empty arguments joined with `/`, normalized. -/
def pathJoin (args : List Str) : Str :=
  match args.filter (fun a => !a.isEmpty) with
  | [] => ['.']
  | parts => pathNormalize (joinSegments parts)

/-- The last component of a path, trailing slashes ignored. -/
def lastComponent (p : Str) : Str :=
  ((p.reverse.dropWhile (fun c => c == '/')).takeWhile (fun c => c != '/')).reverse

/-- `path.extname(p)`: from the last `.` of the last component to its end;
empty when there is no `.`, when the `.` opens the component, or when the
component is `..`. -/
def extname (p : Str) : Str :=
  let comp := lastComponent p
  match lastIndexOf ['.'] comp with
  | none => []
  | some d => if d = 0 ∨ comp = ['.', '.'] then [] else comp.drop d

/-- `path.basename(p, ext)` for a suffix `ext` no longer than the last
component (the case of `ext = path.extname(p)`): the last component without
the suffix, unless the suffix is the whole component. -/
def basename (p ext : Str) : Str :=
  let comp := lastComponent p
  if !ext.isEmpty && decide (ext.length ≤ p.length) then
    if ext = p then []
    else if ext.isSuffixOf comp && comp != ext then comp.take (comp.length - ext.length)
    else comp
  else comp

/-! ## `saveUploadedFile` -/

/-- The replacement `.replace(/[^a-zA-Z0-9]/g, '_')`. -/
def sanitize (s : Str) : Str :=
  s.map (fun c => if c.isAlphanum then c else '_')

/-- The text of a non-negative integer in a template literal: its decimal digits. -/
def decimal (n : Nat) : Str := Nat.toDigits 10 n

/-- What `saveUploadedFile` does to the file system. -/
inductive FsEffect where
  | mkdir (path : Str)
  | write (path : Str) (data : Buffer)
deriving DecidableEq, Repr

/-- The outcome of `saveUploadedFile`: the effects in order and the returned
public path. -/
structure Upload where
  effects : List FsEffect
  publicPath : Str
deriving DecidableEq, Repr

/-- The directory `path.join(__dirname, 'public', 'uploads', subfolder)`. -/
def uploadDir (dirname subfolder : Str) : Str :=
  pathJoin [dirname, "public".toList, "uploads".toList, subfolder]

/-- The name `${timestamp}_${baseName}${ext}`. -/
def newFilename (timestamp : Nat) (filename : Str) : Str :=
  let ext := extname filename
  let baseName := sanitize (basename filename ext)
  decimal timestamp ++ ('_' :: (baseName ++ ext))

/-- The path the file is written to. -/
def uploadPath (dirname : Str) (timestamp : Nat) (filename subfolder : Str) : Str :=
  pathJoin [uploadDir dirname subfolder, newFilename timestamp filename]

/-- The function `saveUploadedFile(fileBuffer, filename, subfolder)`, run in
the directory `dirname` at the time `timestamp`; `dirExists` answers
`fs.existsSync`. -/
def saveUploadedFile (dirname : Str) (dirExists : Str → Bool) (timestamp : Nat)
    (fileBuffer : Buffer) (filename subfolder : Str) : Upload :=
  let dir := uploadDir dirname subfolder
  let made := if !dirExists dir then [FsEffect.mkdir dir] else []
  let name := newFilename timestamp filename
  let filePath := pathJoin [dir, name]
  { effects := made ++ [FsEffect.write filePath fileBuffer]
    publicPath := "/uploads/".toList ++ (subfolder ++ ('/' :: name)) }

/-- The segments of a path. -/
def pathSegments (p : Str) : List Str :=
  (split p ['/']).filter (fun seg => !seg.isEmpty)

/-- The number written by a list of decimal digits. -/
def decimalValue : Str → Nat
  | [] => 0
  | c :: ds => (c.toNat - 48) * 10 ^ ds.length + decimalValue ds

/-- A path segment that `normalize` keeps as it is: not empty, not `.`, not
`..` and without `/`. -/
def plainSegment (seg : Str) : Bool :=
  !seg.isEmpty && seg != ['.'] && seg != ['.', '.'] && seg.all (fun c => c != '/')

/-- An absolute path written from its segments, with or without a trailing `/`. -/
def renderAbsolute (segs : List Str) (trailing : Bool) : Str :=
  if (joinSegments segs).isEmpty then ['/']
  else '/' :: joinSegments segs ++ (if trailing then ['/'] else [])

/-! ## The session store -/

/-- A primitive JavaScript value. -/
inductive Prim where
  | undefined
  | null
  | nan
  | num (n : Int)
  | str (s : Str)
deriving DecidableEq, Repr, Inhabited

/-- A value exchanged with the data store or read from a JSON body: a
primitive, a row (an object with primitive properties) or any other document
(an array, a nested object), kept as text. -/
inductive JsVal where
  | prim (p : Prim)
  | row (cols : List (Str × Prim))
  | doc (text : Str)
deriving DecidableEq, Repr, Inhabited

/-- A record of the `sessions` map: `{ userId, createdAt }`. -/
structure Session where
  userId : Prim
  createdAt : Nat
deriving DecidableEq, Repr, Inhabited

/-- The `sessions` map: token to record, in insertion order. -/
abbrev Sessions := List (Str × Session)

/-- `sessions.delete(id)`. -/
def sessionsDelete (sessions : Sessions) (id : Str) : Sessions :=
  sessions.filter (fun e => e.1 != id)

/-- The characters that `String.prototype.trim` removes. -/
def isJsWhitespace (c : Char) : Bool :=
  let n := c.toNat
  n == 9 || n == 10 || n == 11 || n == 12 || n == 13 || n == 32 || n == 160
    || n == 0x1680 || (decide (0x2000 ≤ n) && decide (n ≤ 0x200A)) || n == 0x2028
    || n == 0x2029 || n == 0x202F || n == 0x205F || n == 0x3000 || n == 0xFEFF

/-- `s.trim()`. -/
def trim (s : Str) : Str :=
  ((s.dropWhile isJsWhitespace).reverse.dropWhile isJsWhitespace).reverse

/-- The object built by `cookie.split(';').reduce(...)`: for every piece, the
text before the first `=` (trimmed at the left and right of the piece) is
assigned the text between the first and the second `=`, or `undefined`. -/
def parseCookies (cookie : Str) : List (Str × Option Str) :=
  (split cookie [';']).foldl
    (fun acc piece =>
      let kv := split (trim piece) ['=']
      assignProp acc (kv.headD []) (kv.get? 1))
    []

/-- The value `cookies?.sessionId`; `none` stands for `undefined`. -/
def cookieSessionId (cookieHeader : Option Str) : Option Str :=
  match cookieHeader with
  | none => none
  | some cookie =>
    match objGet (parseCookies cookie) "sessionId".toList with
    | some (some value) => some value
    | _ => none

/-- The function `getSession(req)`; `none` stands for `null` or `undefined`. -/
def getSession (sessions : Sessions) (cookieHeader : Option Str) : Option Session :=
  match cookieSessionId cookieHeader with
  | some sessionId => if !sessionId.isEmpty then objGet sessions sessionId else none
  | none => none

/-- The function `createSession(userId)`: `randomText` is the text of
`Math.random().toString(36)` and `now` the value of `Date.now()`.  It returns
the token and the updated map. -/
def createSession (sessions : Sessions) (randomText : Str) (now : Nat) (userId : Prim) :
    Str × Sessions :=
  let sessionId := randomText.drop 7
  (sessionId, objSet sessions sessionId ⟨userId, now⟩)

/-- A digit of base 36 as `toString(36)` writes it. -/
def isBase36Digit (c : Char) : Bool :=
  (decide ('0' ≤ c) && decide (c ≤ '9')) || (decide ('a' ≤ c) && decide (c ≤ 'z'))

/-- The texts `Math.random().toString(36)` can produce for a number of
`[0, 1)`: `0`, or `0.` followed by at least one digit of base 36. -/
def isRandomText (s : Str) : Bool :=
  s == ['0'] ||
    (['0', '.'].isPrefixOf s && !(s.drop 2).isEmpty && (s.drop 2).all isBase36Digit)

/-! ## The request handler -/

/-- A side effect of handling a request, other than on the session store: a
call of the data-store collaborator or a file-system write. -/
inductive Effect where
  | db (fn : Str) (args : List JsVal)
  | fs (e : FsEffect)
deriving DecidableEq, Repr

/-- The body of a response. -/
inductive Body where
  | message (text : Str)
  | value (v : JsVal)
  | userCreated (user : JsVal)
  | loginSuccessful (id name email : Prim)
  | text (s : Str)
  | file (data : Buffer)
deriving DecidableEq, Repr

/-- A response: status code, headers and body. -/
structure Response where
  status : Nat
  headers : List (Str × Str)
  body : Body
deriving DecidableEq, Repr

/-- The result of handling one request: the response, the effects in order
and the session store afterwards. -/
structure Outcome where
  response : Response
  effects : List Effect
  sessions : Sessions
deriving DecidableEq, Repr

/-- A request with its body fully buffered. -/
structure Request where
  method : Str
  pathname : Str
  queryLimit : Option Str
  cookie : Option Str
  contentType : Option Str
  body : Buffer
deriving DecidableEq, Repr

/-- The collaborators of the handler: the program directory, the clock, the
random source, the data store (a call either returns a value or throws an
error with a message), `JSON.parse` followed by property reads, `parseFloat`,
and the file system. -/
structure Env where
  dirname : Str
  now : Nat
  randomText : Str
  db : Str → List JsVal → Except Str JsVal
  parseJson : Buffer → Except Str (Str → JsVal)
  parseFloat : JsVal → JsVal
  readFile : Str → Option Buffer
  dirExists : Str → Bool
  writeError : Str → Option Str

/-- The code of a `try` block: it may throw an error message, and what it did
before throwing stays done. -/
abbrev Try := ExceptT Str (StateM (List Effect × Sessions))

/-- A call `await db.fn(...args)`. -/
def callDb (env : Env) (fn : String) (args : List JsVal) : Try JsVal := do
  modify (fun st => (st.1 ++ [Effect.db fn.toList args], st.2))
  match env.db fn.toList args with
  | .ok v => pure v
  | .error e => throw e

/-- A call of `saveUploadedFile` inside a `try` block; the write may throw. -/
def callSaveUploadedFile (env : Env) (data : Buffer) (filename subfolder : Str) : Try Str := do
  let dir := uploadDir env.dirname subfolder
  if !env.dirExists dir then
    modify (fun st => (st.1 ++ [Effect.fs (FsEffect.mkdir dir)], st.2))
  let filePath := uploadPath env.dirname env.now filename subfolder
  match env.writeError filePath with
  | some e => throw e
  | none =>
    modify (fun st => (st.1 ++ [Effect.fs (FsEffect.write filePath data)], st.2))
    pure (saveUploadedFile env.dirname env.dirExists env.now data filename subfolder).publicPath

/-- `sendJSON(res, statusCode, data)`. -/
def sendJSON (statusCode : Nat) (data : Body) : Response :=
  ⟨statusCode, [("Content-Type".toList, "application/json".toList)], data⟩

/-- Running a `try { ... } catch (error) { ... }` block. -/
def runTry (sessions : Sessions) (block : Try Response) (onError : Str → Response) : Outcome :=
  match block.run.run ([], sessions) with
  | (.ok response, st) => ⟨response, st.1, st.2⟩
  | (.error e, st) => ⟨onError e, st.1, st.2⟩

/-- The table `mimeTypes`. -/
def mimeTypes : List (Str × Str) :=
  [(".html".toList, "text/html".toList), (".css".toList, "text/css".toList),
   (".js".toList, "text/javascript".toList), (".json".toList, "application/json".toList),
   (".png".toList, "image/png".toList), (".jpg".toList, "image/jpeg".toList),
   (".jpeg".toList, "image/jpeg".toList), (".gif".toList, "image/gif".toList),
   (".svg".toList, "image/svg+xml".toList), (".ico".toList, "image/x-icon".toList)]

/-- The function `serveStaticFile(res, filePath)`. -/
def serveStaticFile (env : Env) (filePath : Str) : Response :=
  match env.readFile filePath with
  | none => ⟨404, [("Content-Type".toList, "text/plain".toList)], Body.text "File not found".toList⟩
  | some data =>
    let contentType := (objGet mimeTypes (extname filePath)).getD "text/plain".toList
    ⟨200, [("Content-Type".toList, contentType)], Body.file data⟩

/-- The page served for a path under `GET`, if any. -/
def htmlFile (pathname : Str) : Option Str :=
  if pathname = "/".toList then some "index.html".toList
  else if pathname = "/books".toList then some "books.html".toList
  else if pathname = "/add_book".toList then some "add_book.html".toList
  else if pathname = "/cart".toList then some "cart.html".toList
  else if pathname = "/wishlist".toList then some "wishlist.html".toList
  else if pathname = "/register".toList then some "register.html".toList
  else if pathname = "/login".toList then some "login.html".toList
  else if pathname = "/profile".toList then some "profile.html".toList
  else none

/-- `ToBoolean` on a primitive. -/
def Prim.truthy : Prim → Bool
  | .undefined => false
  | .null => false
  | .nan => false
  | .num n => n != 0
  | .str s => !s.isEmpty

/-- `ToBoolean` on a value. -/
def JsVal.truthy : JsVal → Bool
  | .prim p => p.truthy
  | .row _ => true
  | .doc _ => true

/-- A property read `v.key`. -/
def JsVal.get (v : JsVal) (key : String) : Prim :=
  match v with
  | .row cols => (objGet cols key.toList).getD Prim.undefined
  | _ => Prim.undefined

/-- The comparison `a !== b` of a stored property with a value of the request. -/
def strictNe (a : Prim) (b : JsVal) : Bool :=
  match b with
  | .prim p => a == Prim.nan || a != p
  | _ => true

/-- The value of a hexadecimal digit, if the character is one. -/
def hexDigit (c : Char) : Option Nat :=
  if '0' ≤ c ∧ c ≤ '9' then some (c.toNat - 48)
  else if 'a' ≤ c ∧ c ≤ 'f' then some (c.toNat - 87)
  else if 'A' ≤ c ∧ c ≤ 'F' then some (c.toNat - 55)
  else none

/-- `parseInt(s)`: optional white space and sign, then the digits (base 16
after `0x`, base 10 otherwise) up to the first other character; `NaN` when
there is no digit or no text.  Integers are exact (below `2^53`). -/
def parseInt (s : Option Str) : Prim :=
  match s with
  | none => Prim.nan
  | some t =>
    let u := t.dropWhile isJsWhitespace
    let (neg, v) := match u with
      | '-' :: r => (true, r)
      | '+' :: r => (false, r)
      | r => (false, r)
    let (base, w) := match v with
      | '0' :: 'x' :: r => (16, r)
      | '0' :: 'X' :: r => (16, r)
      | r => (10, r)
    let ds := w.takeWhile (fun c => match hexDigit c with
      | some d => decide (d < base)
      | none => false)
    if ds.isEmpty then Prim.nan
    else
      let n : Nat := ds.foldl (fun a c => base * a + (hexDigit c).getD 0) 0
      Prim.num (if neg then -(n : Int) else n)

/-- `contentType?.includes('multipart/form-data')`. -/
def isMultipart (contentType : Option Str) : Bool :=
  match contentType with
  | some c => includes "multipart/form-data".toList c
  | none => false

/-- `contentType.split('boundary=')[1]` inside the template literal of
`parseMultipart`; a missing piece reads `undefined`. -/
def boundaryOf (contentType : Option Str) : Str :=
  match contentType with
  | some c => ((split c "boundary=".toList).get? 1).getD "undefined".toList
  | none => "undefined".toList

/-- A property read `fields.key`. -/
def fieldValue (fields : List (Str × Str)) (key : String) : JsVal :=
  match objGet fields key.toList with
  | some v => JsVal.prim (Prim.str v)
  | none => JsVal.prim Prim.undefined

/-- The upload of the file field `key`, when it is present and not empty:
`if (files.key && files.key.data && files.key.data.length > 0)`. -/
def uploadOf (env : Env) (files : List (Str × FileEntry)) (key : String) (subfolder : String) :
    Try JsVal := do
  match objGet files key.toList with
  | some entry =>
    if entry.data.length > 0 then
      let publicPath ← callSaveUploadedFile env entry.data entry.filename subfolder.toList
      pure (JsVal.prim (Prim.str publicPath))
    else pure (JsVal.prim Prim.null)
  | none => pure (JsVal.prim Prim.null)

/-- `JSON.parse(buffer.toString())` inside a `try` block. -/
def readJson (env : Env) (body : Buffer) : Try (Str → JsVal) :=
  match env.parseJson body with
  | .ok data => pure data
  | .error e => throw e

/-- The title, author, price and image of a book request. -/
def readBook (env : Env) (req : Request) : Try (List JsVal) := do
  if isMultipart req.contentType then
    let parsed := parseMultipart req.body (boundaryOf req.contentType)
    let title := fieldValue parsed.fields "title"
    let author := fieldValue parsed.fields "author"
    let price := env.parseFloat (fieldValue parsed.fields "price")
    let image ← uploadOf env parsed.files "image" "books"
    pure [title, author, price, image]
  else
    let data ← readJson env req.body
    pure [data "title".toList, data "author".toList, env.parseFloat (data "price".toList),
      data "image".toList]

/-- The answer of a gated route to a request without session. -/
def notAuthenticated (sessions : Sessions) : Outcome :=
  ⟨sendJSON 401 (Body.message "Not authenticated".toList), [], sessions⟩

/-- The last piece of the path: `pathname.split('/').pop()`. -/
def lastPiece (pathname : Str) : Option Str :=
  (split pathname ['/']).getLast?

/-- The request listener of `http.createServer`, applied to a request whose
body is fully buffered. -/
def handle (env : Env) (sessions : Sessions) (req : Request) : Outcome :=
  let pathname := req.pathname
  let method := req.method
  if "/uploads/".toList.isPrefixOf pathname || "/css/".toList.isPrefixOf pathname
      || "/js/".toList.isPrefixOf pathname then
    ⟨serveStaticFile env (pathJoin [env.dirname, "public".toList, pathname]), [], sessions⟩
  else if method = "GET".toList ∧ (htmlFile pathname).isSome then
    ⟨serveStaticFile env (pathJoin [env.dirname, "views".toList, (htmlFile pathname).getD []]),
      [], sessions⟩
  else if pathname = "/api/books".toList ∧ method = "GET".toList then
    runTry sessions (do
        let limit := match req.queryLimit with
          | some l => if !l.isEmpty then JsVal.prim (parseInt (some l)) else JsVal.prim Prim.null
          | none => JsVal.prim Prim.null
        let books ← callDb env "getAllBooks" [limit]
        pure (sendJSON 200 (Body.value books)))
      (fun _ => sendJSON 500 (Body.message "Server error".toList))
  else if pathname = "/api/books".toList ∧ method = "POST".toList then
    runTry sessions (do
        let args ← readBook env req
        let book ← callDb env "createBook" args
        pure (sendJSON 201 (Body.value book)))
      (fun e => sendJSON 500 (Body.message ("Failed to create book: ".toList ++ e)))
  else if "/api/books/".toList.isPrefixOf pathname ∧ method = "PUT".toList then
    runTry sessions (do
        let bookId := parseInt ((split pathname ['/']).get? 3)
        let args ← readBook env req
        let book ← callDb env "updateBook" (JsVal.prim bookId :: args)
        pure (sendJSON 200 (Body.value book)))
      (fun e => sendJSON 500 (Body.message ("Failed to update book: ".toList ++ e)))
  else if "/api/books/".toList.isPrefixOf pathname ∧ method = "DELETE".toList then
    runTry sessions (do
        let bookId := parseInt (lastPiece pathname)
        let book ← callDb env "getBookById" [JsVal.prim bookId]
        if !book.truthy then
          pure (sendJSON 404 (Body.message "Book not found".toList))
        else
          let _ ← callDb env "deleteCartByBookId" [JsVal.prim bookId]
          let _ ← callDb env "deleteWishlistByBookId" [JsVal.prim bookId]
          let _ ← callDb env "deleteBook" [JsVal.prim bookId]
          pure (sendJSON 200 (Body.message "Book deleted successfully".toList)))
      (fun e => sendJSON 500 (Body.message ("Failed to delete book: ".toList ++ e)))
  else if pathname = "/api/users".toList ∧ method = "POST".toList then
    runTry sessions (do
        let args ← (do
          if isMultipart req.contentType then
            let parsed := parseMultipart req.body (boundaryOf req.contentType)
            let photo ← uploadOf env parsed.files "photo" "users"
            pure [fieldValue parsed.fields "name", fieldValue parsed.fields "email",
              fieldValue parsed.fields "password", photo]
          else
            let data ← readJson env req.body
            pure [data "name".toList, data "email".toList, data "password".toList,
              JsVal.prim Prim.null] : Try (List JsVal))
        let existing ← callDb env "getUserByEmail" [args.getD 1 (JsVal.prim Prim.undefined)]
        if existing.truthy then
          pure (sendJSON 400 (Body.message "Email already registered".toList))
        else
          let user ← callDb env "createUser" args
          pure (sendJSON 201 (Body.userCreated user)))
      (fun _ => sendJSON 500 (Body.message "Failed to create user".toList))
  else if pathname = "/api/login".toList ∧ method = "POST".toList then
    runTry sessions (do
        let data ← readJson env req.body
        let user ← callDb env "getUserByEmail" [data "email".toList]
        if !user.truthy || strictNe (user.get "password") (data "password".toList) then
          pure (sendJSON 401 (Body.message "Invalid email or password".toList))
        else
          let st ← get
          let created := createSession st.2 env.randomText env.now (user.get "id")
          set (st.1, created.2)
          pure ⟨200, [("Content-Type".toList, "application/json".toList),
              ("Set-Cookie".toList,
                "sessionId=".toList ++ (created.1 ++ "; HttpOnly; Path=/".toList))],
            Body.loginSuccessful (user.get "id") (user.get "name") (user.get "email")⟩)
      (fun _ => sendJSON 500 (Body.message "Server error".toList))
  else if pathname = "/api/logout".toList ∧ method = "POST".toList then
    let sessions' :=
      match getSession sessions req.cookie with
      | some _ =>
        match cookieSessionId req.cookie with
        | some sessionId =>
          if !sessionId.isEmpty then sessionsDelete sessions sessionId else sessions
        | none => sessions
      | none => sessions
    ⟨⟨200, [("Content-Type".toList, "application/json".toList),
        ("Set-Cookie".toList, "sessionId=; HttpOnly; Path=/; Max-Age=0".toList)],
      Body.message "Logged out".toList⟩, [], sessions'⟩
  else if pathname = "/api/profile".toList ∧ method = "GET".toList then
    match getSession sessions req.cookie with
    | none => notAuthenticated sessions
    | some session =>
      runTry sessions (do
          let user ← callDb env "getUserById" [JsVal.prim session.userId]
          pure (sendJSON 200 (Body.value user)))
        (fun _ => sendJSON 500 (Body.message "Server error".toList))
  else if pathname = "/api/profile".toList ∧ method = "PUT".toList then
    match getSession sessions req.cookie with
    | none => notAuthenticated sessions
    | some session =>
      runTry sessions (do
          let args ← (do
            if isMultipart req.contentType then
              let parsed := parseMultipart req.body (boundaryOf req.contentType)
              let photo ← uploadOf env parsed.files "photo" "users"
              pure [fieldValue parsed.fields "name", fieldValue parsed.fields "email", photo]
            else
              let data ← readJson env req.body
              pure [data "name".toList, data "email".toList, JsVal.prim Prim.null]
            : Try (List JsVal))
          let user ← callDb env "updateUser" (JsVal.prim session.userId :: args)
          pure (sendJSON 200 (Body.value user)))
        (fun _ => sendJSON 500 (Body.message "Failed to update profile".toList))
  else if pathname = "/api/cart".toList ∧ method = "GET".toList then
    match getSession sessions req.cookie with
    | none => notAuthenticated sessions
    | some session =>
      runTry sessions (do
          let cart ← callDb env "getCartByUserId" [JsVal.prim session.userId]
          pure (sendJSON 200 (Body.value cart)))
        (fun _ => sendJSON 500 (Body.message "Server error".toList))
  else if pathname = "/api/cart".toList ∧ method = "POST".toList then
    match getSession sessions req.cookie with
    | none => notAuthenticated sessions
    | some session =>
      runTry sessions (do
          let data ← readJson env req.body
          let cartItem ← callDb env "addToCart"
            [JsVal.prim session.userId, data "book_id".toList, data "quantity".toList]
          pure (sendJSON 201 (Body.value cartItem)))
        (fun _ => sendJSON 500 (Body.message "Server error".toList))
  else if "/api/cart/".toList.isPrefixOf pathname ∧ method = "PATCH".toList then
    match getSession sessions req.cookie with
    | none => notAuthenticated sessions
    | some _ =>
      runTry sessions (do
          let cartId := parseInt (lastPiece pathname)
          let data ← readJson env req.body
          let updated ← callDb env "updateCartQuantity"
            [JsVal.prim cartId, data "quantity".toList]
          pure (sendJSON 200 (Body.value updated)))
        (fun _ => sendJSON 500 (Body.message "Server error".toList))
  else if "/api/cart/".toList.isPrefixOf pathname ∧ method = "DELETE".toList then
    match getSession sessions req.cookie with
    | none => notAuthenticated sessions
    | some _ =>
      runTry sessions (do
          let cartId := parseInt (lastPiece pathname)
          let _ ← callDb env "removeFromCart" [JsVal.prim cartId]
          pure (sendJSON 200 (Body.message "Item removed from cart".toList)))
        (fun _ => sendJSON 500 (Body.message "Server error".toList))
  else if pathname = "/api/wishlist".toList ∧ method = "GET".toList then
    match getSession sessions req.cookie with
    | none => notAuthenticated sessions
    | some session =>
      runTry sessions (do
          let wishlist ← callDb env "getWishlistByUserId" [JsVal.prim session.userId]
          pure (sendJSON 200 (Body.value wishlist)))
        (fun _ => sendJSON 500 (Body.message "Server error".toList))
  else if pathname = "/api/wishlist".toList ∧ method = "POST".toList then
    match getSession sessions req.cookie with
    | none => notAuthenticated sessions
    | some session =>
      runTry sessions (do
          let data ← readJson env req.body
          let wishlistItem ← callDb env "addToWishlist"
            [JsVal.prim session.userId, data "book_id".toList]
          pure (sendJSON 201 (Body.value wishlistItem)))
        (fun _ => sendJSON 500 (Body.message "Server error".toList))
  else if "/api/wishlist/".toList.isPrefixOf pathname ∧ method = "DELETE".toList then
    match getSession sessions req.cookie with
    | none => notAuthenticated sessions
    | some _ =>
      runTry sessions (do
          let wishlistId := parseInt (lastPiece pathname)
          let _ ← callDb env "removeFromWishlist" [JsVal.prim wishlistId]
          pure (sendJSON 200 (Body.message "Item removed from wishlist".toList)))
        (fun _ => sendJSON 500 (Body.message "Server error".toList))
  else
    ⟨⟨404, [("Content-Type".toList, "text/plain".toList)], Body.text "404 - Not Found".toList⟩,
      [], sessions⟩

/-- The parameterized endpoints: `PUT`/`DELETE /api/books/{id}`,
`PATCH`/`DELETE /api/cart/{id}` and `DELETE /api/wishlist/{id}`. -/
def idRoute (method pathname : Str) : Bool :=
  ("/api/books/".toList.isPrefixOf pathname
      && (method == "PUT".toList || method == "DELETE".toList))
    || ("/api/cart/".toList.isPrefixOf pathname
      && (method == "PATCH".toList || method == "DELETE".toList))
    || ("/api/wishlist/".toList.isPrefixOf pathname && method == "DELETE".toList)

/-- The piece of the path that the endpoint reads its id from: the fourth
piece under `PUT /api/books/{id}`, the last piece on the other endpoints. -/
def idSegment (method pathname : Str) : Option Str :=
  if "/api/books/".toList.isPrefixOf pathname && method == "PUT".toList then
    (split pathname ['/']).get? 3
  else lastPiece pathname

/-- Every data-store call among the effects has `v` as its first argument. -/
def dbArgsStartWith (effects : List Effect) (v : JsVal) : Prop :=
  ∀ fn args, Effect.db fn args ∈ effects → args.head? = some v

/-- The response of `POST /api/logout`. -/
def loggedOut : Response :=
  ⟨200, [("Content-Type".toList, "application/json".toList),
      ("Set-Cookie".toList, "sessionId=; HttpOnly; Path=/; Max-Age=0".toList)],
    Body.message "Logged out".toList⟩

/-- The routes of the API that require a session. -/
def gatedRoute (method pathname : Str) : Bool :=
  (pathname == "/api/profile".toList && (method == "GET".toList || method == "PUT".toList))
    || (pathname == "/api/cart".toList && (method == "GET".toList || method == "POST".toList))
    || ("/api/cart/".toList.isPrefixOf pathname
          && (method == "PATCH".toList || method == "DELETE".toList))
    || (pathname == "/api/wishlist".toList
          && (method == "GET".toList || method == "POST".toList))
    || ("/api/wishlist/".toList.isPrefixOf pathname && method == "DELETE".toList)

/-! ## Concrete request bodies used as test inputs -/

/-- A test environment: an empty data store, no files, a clock at 0. -/
def testEnv : Env where
  dirname := "/srv/app".toList
  now := 0
  randomText := "0.4fzyo82mvyr".toList
  db := fun _ _ => .ok (JsVal.prim Prim.null)
  parseJson := fun _ => .error "Unexpected end of JSON input".toList
  parseFloat := fun v => v
  readFile := fun _ => none
  dirExists := fun _ => true
  writeError := fun _ => none

/-- An environment for login: the data store knows one user, whatever the
email asked for, and the body of the request reads `{ email: 'a@b', password: pw }`. -/
def loginEnv (pw : String) : Env :=
  { testEnv with
    db := fun _ _ => .ok (JsVal.row [("id".toList, Prim.num 7), ("name".toList, Prim.str "Ann".toList),
      ("email".toList, Prim.str "a@b".toList), ("password".toList, Prim.str "secret".toList)])
    parseJson := fun _ => .ok (fun key =>
      if key = "email".toList then JsVal.prim (Prim.str "a@b".toList)
      else if key = "password".toList then JsVal.prim (Prim.str pw.toList)
      else JsVal.prim Prim.undefined) }

/-- An environment whose program directory holds a file `.env` next to `public`. -/
def dotEnvEnv : Env :=
  { testEnv with
    readFile := fun path => if path = "/srv/app/.env".toList then some [83, 61, 49] else none }

/-- An environment whose data store throws an error with the given message on
every call, and whose requests carry an empty JSON object. -/
def failingEnv (message : String) : Env :=
  { testEnv with
    db := fun _ _ => .error message.toList
    parseJson := fun _ => .ok (fun _ => JsVal.prim Prim.undefined) }

/-- An environment whose data store answers every call with a row. -/
def answeringEnv : Env :=
  { testEnv with
    db := fun _ _ => .ok (JsVal.row [("id".toList, Prim.num 1)])
    parseJson := fun _ => .ok (fun _ => JsVal.prim Prim.undefined) }

/-- A session store with two sessions. -/
def twoSessions : Sessions :=
  [("abc".toList, ⟨Prim.num 1, 0⟩), ("xyz".toList, ⟨Prim.num 2, 0⟩)]


/-- A text part `name="a"` whose content is the text `filename="x"`. -/
def bodyTextWithFilenamePattern : Buffer :=
  bufferFromBinary
    "--X\r\nContent-Disposition: form-data; name=\"a\"\r\n\r\nfilename=\"x\"\r\n--X--\r\n".toList

/-- A file part `name="a"; filename=""` whose content is the text `filename="x"`. -/
def bodyEmptyFilenameWithPattern : Buffer :=
  bufferFromBinary
    "--X\r\nContent-Disposition: form-data; name=\"a\"; filename=\"\"\r\n\r\nfilename=\"x\"\r\n--X--\r\n".toList

/-- Two text parts with a segment without headers between them. -/
def bodyWithJunkSegment : Buffer :=
  bufferFromBinary
    "--X\r\nContent-Disposition: form-data; name=\"a\"\r\n\r\n1\r\n--X\r\njunk\r\n--X\r\nContent-Disposition: form-data; name=\"b\"\r\n\r\n2\r\n--X--\r\n".toList

/-- The segment of the text field `a` with value `1`. -/
def segmentA : Str := "\r\nContent-Disposition: form-data; name=\"a\"\r\n\r\n1\r\n".toList

/-- The segment of the text field `b` with value `2`. -/
def segmentB : Str := "\r\nContent-Disposition: form-data; name=\"b\"\r\n\r\n2\r\n".toList

/-! ## Lemmas: objects -/

theorem objGet_objSet {V : Type} (o : List (Str × V)) (k k' : Str) (v : V) :
    objGet (objSet o k v) k' = if k = k' then some v else objGet o k' := by
  induction o with
  | nil => simp [objSet, objGet]
  | cons e o ih =>
    obtain ⟨a, b⟩ := e
    by_cases h : a = k
    · subst h
      by_cases h' : a = k' <;> simp [objSet, objGet, h']
    · by_cases h' : a = k'
      · subst h'
        have : ¬ k = a := fun e => h e.symm
        simp [objSet, objGet, h, this]
      · simp [objSet, objGet, h, h', ih]

theorem mem_objSet {V : Type} (P : Str × V → Prop) (o : List (Str × V)) (k : Str) (v : V)
    (ho : ∀ e ∈ o, P e) (hv : ∀ k₀, P (k₀, v)) : ∀ e ∈ objSet o k v, P e := by
  induction o with
  | nil => intro e he; simp [objSet] at he; subst he; exact hv k
  | cons e₀ o ih =>
    obtain ⟨a, b⟩ := e₀
    intro e he
    by_cases h : a = k
    · simp [objSet, h] at he
      rcases he with he | he
      · subst he; exact hv k
      · exact ho e (by simp [he])
    · simp [objSet, h] at he
      rcases he with he | he
      · subst he; exact ho _ (by simp)
      · exact ih (fun e he => ho e (by simp [he])) e he

/-! ## Lemmas: searching and splitting -/

theorem indexOf_lt_length (pat : Str) : ∀ (s : Str) (i : Nat),
    indexOf pat s = some i → i + pat.length ≤ s.length ∧ pat <+: s.drop i := by
  intro s
  induction s with
  | nil =>
    intro i h
    by_cases hp : pat.isPrefixOf [] = true
    · simp [indexOf, hp] at h
      subst h
      have := List.isPrefixOf_iff_prefix.mp hp
      have h0 : pat = [] := List.prefix_nil.mp this
      simp [h0]
    · simp [indexOf, hp] at h
  | cons c cs ih =>
    intro i h
    by_cases hp : pat.isPrefixOf (c :: cs) = true
    · simp [indexOf, hp] at h
      subst h
      have := List.isPrefixOf_iff_prefix.mp hp
      exact ⟨by simpa using this.length_le, by simpa using this⟩
    · simp [indexOf, hp] at h
      obtain ⟨j, hj, rfl⟩ := h
      have := ih j hj
      exact ⟨by simp; omega, by simpa using this.2⟩

theorem isPrefixOf_false_of_short (pat s : Str) (h : s.length < pat.length) :
    pat.isPrefixOf s = false := by
  cases hp : pat.isPrefixOf s with
  | false => rfl
  | true =>
    have := (List.isPrefixOf_iff_prefix.mp hp).length_le
    omega

theorem indexOf_none_of_short (pat : Str) : ∀ s : Str, s.length < pat.length →
    indexOf pat s = none := by
  intro s
  induction s with
  | nil =>
    intro h
    simp [indexOf, isPrefixOf_false_of_short pat [] h]
  | cons c cs ih =>
    intro h
    have h1 : cs.length < pat.length := by simp at h; omega
    simp [indexOf, isPrefixOf_false_of_short pat (c :: cs) h, ih h1]

theorem indexOf_here (pat rest : Str) : indexOf pat (pat ++ rest) = some 0 := by
  have hp : pat.isPrefixOf (pat ++ rest) = true :=
    List.isPrefixOf_iff_prefix.mpr (List.prefix_append pat rest)
  cases h : pat ++ rest with
  | nil => rw [h] at hp; simp [indexOf, hp]
  | cons c cs => rw [h] at hp; simp [indexOf, hp]

theorem indexOf_skip (h c : Char) (t s : Str) (hc : c ≠ h) :
    indexOf (h :: t) (c :: s) = (indexOf (h :: t) s).map (· + 1) := by
  have : (h :: t).isPrefixOf (c :: s) = false := by
    simp [List.isPrefixOf, Ne.symm hc]
  simp [indexOf, this]

theorem indexOf_skip_append (h : Char) (t : Str) : ∀ (x s : Str), h ∉ x →
    indexOf (h :: t) (x ++ s) = (indexOf (h :: t) s).map (· + x.length) := by
  intro x
  induction x with
  | nil => intro s _; simp
  | cons c cs ih =>
    intro s hx
    have hc : c ≠ h := fun e => hx (by simp [e])
    have hcs : h ∉ cs := fun e => hx (by simp [e])
    rw [List.cons_append, indexOf_skip h c t _ hc, ih s hcs]
    cases indexOf (h :: t) s <;> simp
    omega

theorem lastIndexOf_none_of_short (pat : Str) : ∀ s : Str, s.length < pat.length →
    lastIndexOf pat s = none := by
  intro s
  induction s with
  | nil =>
    intro h
    simp [lastIndexOf, isPrefixOf_false_of_short pat [] h]
  | cons c cs ih =>
    intro h
    have h1 : cs.length < pat.length := by simp at h; omega
    simp [lastIndexOf, isPrefixOf_false_of_short pat (c :: cs) h, ih h1]

theorem lastIndexOf_bound (pat : Str) : ∀ (s : Str) (i : Nat),
    lastIndexOf pat s = some i → i + pat.length ≤ s.length := by
  intro s
  induction s with
  | nil =>
    intro i h
    by_cases hp : pat.isPrefixOf [] = true
    · simp [lastIndexOf, hp] at h
      subst h
      have h0 : pat = [] := List.prefix_nil.mp (List.isPrefixOf_iff_prefix.mp hp)
      simp [h0]
    · simp [lastIndexOf, hp] at h
  | cons c cs ih =>
    intro i h
    cases hl : lastIndexOf pat cs with
    | some j =>
      simp [lastIndexOf, hl] at h
      subst h
      have := ih j hl
      simp; omega
    | none =>
      by_cases hp : pat.isPrefixOf (c :: cs) = true
      · simp [lastIndexOf, hl, hp] at h
        subst h
        simpa using (List.isPrefixOf_iff_prefix.mp hp).length_le
      · simp [lastIndexOf, hl, hp] at h

theorem lastIndexOf_append_self (pat : Str) (hpat : pat ≠ []) : ∀ x : Str,
    lastIndexOf pat (x ++ pat) = some x.length := by
  intro x
  induction x with
  | nil =>
    cases pat with
    | nil => exact absurd rfl hpat
    | cons c cs =>
      have hn : lastIndexOf (c :: cs) cs = none :=
        lastIndexOf_none_of_short _ cs (by simp)
      have hp : (c :: cs).isPrefixOf (c :: cs) = true :=
        List.isPrefixOf_iff_prefix.mpr (List.prefix_refl _)
      simp only [List.nil_append, lastIndexOf, hn, hp]
      simp
  | cons c cs ih =>
    simp [lastIndexOf, ih]

theorem includes_iff_occurs (pat : Str) : ∀ s : Str, includes pat s = true ↔ pat <:+: s := by
  intro s
  induction s with
  | nil =>
    by_cases hp : pat.isPrefixOf [] = true
    · have h0 : pat = [] := List.prefix_nil.mp (List.isPrefixOf_iff_prefix.mp hp)
      simp [includes, indexOf, h0]
    · have h0 : pat ≠ [] := by
        intro e; subst e; simp at hp
      simp [includes, indexOf, hp, h0]
  | cons c cs ih =>
    by_cases hp : pat.isPrefixOf (c :: cs) = true
    · have := List.isPrefixOf_iff_prefix.mp hp
      simp [includes, indexOf, hp, this.isInfix]
    · have hnp : ¬ pat <+: c :: cs := fun e => hp (List.isPrefixOf_iff_prefix.mpr e)
      have e1 : includes pat (c :: cs) = includes pat cs := by
        simp [includes, indexOf, hp]
      rw [e1, ih, List.infix_cons_iff]
      simp [hnp]

theorem splitGo_skip (sep : Str) : ∀ (pre acc rest : Str),
    splitGo sep pre.length acc (pre ++ rest) = splitGo sep 0 acc rest := by
  intro pre
  induction pre with
  | nil => intro acc rest; simp
  | cons c cs ih => intro acc rest; simp [splitGo, ih]

theorem splitGo_match (sep : Str) (hsep : sep ≠ []) (acc rest : Str) :
    splitGo sep 0 acc (sep ++ rest) = acc.reverse :: splitGo sep 0 [] rest := by
  cases sep with
  | nil => exact absurd rfl hsep
  | cons c cs =>
    have hp : (c :: cs).isPrefixOf (c :: (cs ++ rest)) = true :=
      List.isPrefixOf_iff_prefix.mpr (List.prefix_append (c :: cs) rest)
    have := splitGo_skip (c :: cs) cs [] rest
    rw [List.cons_append]
    simp only [splitGo, hp, if_true, List.length_cons, Nat.add_sub_cancel]
    rw [this]

theorem splitGo_step (sep : Str) (acc : Str) (c : Char) (cs : Str)
    (h : ¬ sep <+: c :: cs) :
    splitGo sep 0 acc (c :: cs) = splitGo sep 0 (c :: acc) cs := by
  have hp : sep.isPrefixOf (c :: cs) = false := by
    cases hq : sep.isPrefixOf (c :: cs) with
    | false => rfl
    | true => exact absurd (List.isPrefixOf_iff_prefix.mp hq) h
  simp [splitGo, hp]

/-- Splitting passes over a piece in which the separator does not start. -/
theorem splitGo_piece (sep : Str) : ∀ (p acc tail : Str),
    (∀ i, i < p.length → ¬ sep <+: p.drop i ++ tail) →
    splitGo sep 0 acc (p ++ tail) = splitGo sep 0 (p.reverse ++ acc) tail := by
  intro p
  induction p with
  | nil => intro acc tail _; simp
  | cons c cs ih =>
    intro acc tail h
    have h0 : ¬ sep <+: c :: (cs ++ tail) := by simpa using h 0 (by simp)
    have hs : ∀ i, i < cs.length → ¬ sep <+: cs.drop i ++ tail := by
      intro i hi
      simpa using h (i + 1) (by simp; omega)
    rw [List.cons_append, splitGo_step sep acc c _ h0, ih (c :: acc) tail hs]
    simp

theorem splitGo_nil (sep acc : Str) : splitGo sep 0 acc [] = [acc.reverse] := by
  simp [splitGo]

/-- A string in which the separator does not occur is its own only piece. -/
theorem split_of_not_occurs (sep s : Str) (h : ¬ sep <:+: s) : split s sep = [s] := by
  have key : ∀ i, i < s.length → ¬ sep <+: s.drop i ++ [] := by
    intro i _ hp
    rw [List.append_nil] at hp
    exact h (hp.isInfix.trans (List.drop_suffix i s).isInfix)
  have := splitGo_piece sep s [] [] key
  simp only [List.append_nil] at this
  simp [split, this, splitGo_nil]

/-- The separator does not occur in a piece that ends with a character foreign
to the separator and is followed by the separator. -/
theorem no_early_of_last (sep q tail : Str) (c : Char) (hc : c ∉ sep)
    (hq : ¬ sep <:+: q ++ [c]) :
    ∀ i, i < (q ++ [c]).length → ¬ sep <+: (q ++ [c]).drop i ++ tail := by
  intro i hi hp
  have h2 : (q ++ [c]).drop i <+: (q ++ [c]).drop i ++ tail := List.prefix_append _ _
  rcases Nat.le_total sep.length ((q ++ [c]).drop i).length with hl | hl
  · have := List.prefix_of_prefix_length_le hp h2 hl
    exact hq (this.isInfix.trans (List.drop_suffix i _).isInfix)
  · have := List.prefix_of_prefix_length_le h2 hp hl
    have hmem : c ∈ (q ++ [c]).drop i := by
      have hsuf : [c] <:+ (q ++ [c]).drop i := by
        have hlen : i ≤ q.length := by simp at hi; omega
        rw [List.drop_append_of_le_length hlen]
        exact List.suffix_append _ _
      exact hsuf.subset (by simp)
    exact hc (this.subset hmem)

theorem split_cons_piece (sep : Str) (hsep : sep ≠ []) (p rest : Str)
    (h : ∀ i, i < p.length → ¬ sep <+: p.drop i ++ (sep ++ rest)) :
    splitGo sep 0 [] (p ++ (sep ++ rest)) = p :: splitGo sep 0 [] rest := by
  rw [splitGo_piece sep p [] (sep ++ rest) h, splitGo_match sep hsep]
  simp

theorem exists_drop_of_occurs (sep l : Str) (hsep : sep ≠ []) (h : sep <:+: l) :
    ∃ i, i < l.length ∧ sep <+: l.drop i := by
  obtain ⟨a, b, rfl⟩ := h
  refine ⟨a.length, ?_, ?_⟩
  · have : 0 < sep.length := List.length_pos.mpr hsep
    simp; omega
  · simp [List.append_assoc]

theorem not_infix_of_no_early (sep p tail : Str) (hsep : sep ≠ [])
    (h : ∀ i, i < p.length → ¬ sep <+: p.drop i ++ tail) : ¬ sep <:+: p := by
  intro hin
  obtain ⟨i, hi, hp⟩ := exists_drop_of_occurs sep p hsep hin
  exact h i hi (hp.trans (List.prefix_append _ _))

/-- No piece produced by `split` contains the separator. -/
theorem splitGo_pieces_free (sep : Str) (hsep : sep ≠ []) : ∀ (s : Str) (skip : Nat) (acc : Str),
    (skip = 0 → ∀ i, i < acc.length → ¬ sep <+: acc.reverse.drop i ++ s) →
    (skip ≠ 0 → acc = []) →
    ∀ p ∈ splitGo sep skip acc s, ¬ sep <:+: p := by
  intro s
  induction s with
  | nil =>
    intro skip acc h0 h1 p hp
    simp [splitGo] at hp
    subst hp
    by_cases hk : skip = 0
    · exact not_infix_of_no_early sep acc.reverse [] hsep (by simpa using h0 hk)
    · rw [h1 hk]
      intro hin
      exact hsep (List.infix_nil.mp hin)
  | cons c cs ih =>
    intro skip acc h0 h1 p hp
    cases skip with
    | succ k =>
      have hacc : acc = [] := h1 (by simp)
      subst hacc
      simp only [splitGo] at hp
      exact ih k [] (by intro _ i hi; simp at hi) (by intro _; rfl) p hp
    | zero =>
      have hne := h0 rfl
      by_cases hpre : sep.isPrefixOf (c :: cs) = true
      · simp only [splitGo, hpre, if_true, List.mem_cons] at hp
        rcases hp with hp | hp
        · subst hp
          exact not_infix_of_no_early sep acc.reverse (c :: cs) hsep (by simpa using hne)
        · exact ih _ [] (by intro _ i hi; simp at hi) (by intro _; rfl) p hp
      · have hnp : ¬ sep <+: c :: cs := fun e => hpre (List.isPrefixOf_iff_prefix.mpr e)
        simp only [splitGo, hpre] at hp
        refine ih 0 (c :: acc) ?_ (by intro h; exact absurd rfl h) p hp
        intro _ i hi
        simp only [List.reverse_cons, List.length_cons] at hi ⊢
        rcases Nat.lt_or_ge i acc.length with hlt | hge
        · have hlen : i ≤ acc.reverse.length := by simp; omega
          rw [List.drop_append_of_le_length hlen]
          simpa using hne i hlt
        · have hi' : i = acc.reverse.length := by simp; omega
          rw [hi', List.drop_left]
          simpa using hnp

theorem split_pieces_free (sep s : Str) (hsep : sep ≠ []) :
    ∀ p ∈ split s sep, ¬ sep <:+: p :=
  splitGo_pieces_free sep hsep s 0 [] (by intro _ i hi; simp at hi) (by intro h; exact absurd rfl h)

/-- Every character of a piece is a character of the split string. -/
theorem splitGo_pieces_mem (sep : Str) : ∀ (s : Str) (skip : Nat) (acc : Str),
    ∀ p ∈ splitGo sep skip acc s, ∀ x ∈ p, x ∈ acc ∨ x ∈ s := by
  intro s
  induction s with
  | nil =>
    intro skip acc p hp x hx
    simp [splitGo] at hp
    subst hp
    left; simpa using hx
  | cons c cs ih =>
    intro skip acc p hp x hx
    cases skip with
    | succ k =>
      simp only [splitGo] at hp
      rcases ih k acc p hp x hx with h | h
      · exact Or.inl h
      · exact Or.inr (by simp [h])
    | zero =>
      by_cases hpre : sep.isPrefixOf (c :: cs) = true
      · simp only [splitGo, hpre, if_true, List.mem_cons] at hp
        rcases hp with hp | hp
        · subst hp
          left; simpa using hx
        · rcases ih _ [] p hp x hx with h | h
          · simp at h
          · exact Or.inr (by simp [h])
      · simp only [splitGo, hpre] at hp
        rcases ih 0 (c :: acc) p hp x hx with h | h
        · simp only [List.mem_cons] at h
          rcases h with h | h
          · exact Or.inr (by simp [h])
          · exact Or.inl h
        · exact Or.inr (by simp [h])

theorem split_pieces_mem (sep s : Str) : ∀ p ∈ split s sep, ∀ x ∈ p, x ∈ s := by
  intro p hp x hx
  rcases splitGo_pieces_mem sep s 0 [] p hp x hx with h | h
  · simp at h
  · exact h

/-! ## Lemmas: the `binary` encoding -/

theorem toNat_ofNat_byte (n : Nat) (h : n < 256) : (Char.ofNat n).toNat = n := by
  have hv : n.isValidChar := Or.inl (by omega)
  simp [Char.ofNat, hv, Char.ofNatAux, Char.toNat, UInt32.toNat]

theorem bufferFromBinary_toBinaryString (b : Buffer) :
    bufferFromBinary (toBinaryString b) = b := by
  induction b with
  | nil => rfl
  | cons x xs ih =>
    have hx : (Char.ofNat x.val).toNat = x.val := toNat_ofNat_byte x.val x.isLt
    have hm : x.val % 256 = x.val := Nat.mod_eq_of_lt x.isLt
    simp only [toBinaryString, bufferFromBinary, List.map_cons, List.map_map] at ih ⊢
    rw [ih]
    congr 1
    apply Fin.ext
    simp [hx, hm]

theorem toBinaryString_bufferFromBinary (s : Str) (h : ∀ c ∈ s, c.toNat < 256) :
    toBinaryString (bufferFromBinary s) = s := by
  induction s with
  | nil => rfl
  | cons c cs ih =>
    have hc : c.toNat < 256 := h c (by simp)
    have hcs : ∀ x ∈ cs, x.toNat < 256 := fun x hx => h x (by simp [hx])
    have ih' := ih hcs
    simp only [toBinaryString, bufferFromBinary, List.map_cons, List.map_map] at ih' ⊢
    rw [ih']
    simp [Nat.mod_eq_of_lt hc]

theorem toBinaryString_lt (b : Buffer) : ∀ c ∈ toBinaryString b, c.toNat < 256 := by
  intro c hc
  simp only [toBinaryString, List.mem_map] at hc
  obtain ⟨x, _, rfl⟩ := hc
  rw [toNat_ofNat_byte x.val x.isLt]
  exact x.isLt

theorem length_bufferFromBinary (s : Str) : (bufferFromBinary s).length = s.length := by
  simp [bufferFromBinary]

/-! ## Lemmas: one segment -/

theorem mergeEntries_assign {V : Type} (o : List (Str × V)) (k : Str) (v : V) :
    mergeEntries o (assignProp [] k v) = assignProp o k v := by
  by_cases h : k = protoKey <;> simp [mergeEntries, assignProp, h, objSet]

theorem mergeEntries_nil {V : Type} (o : List (Str × V)) : mergeEntries o [] = o := rfl

/-- The effect of a segment on the two objects is the merge of the entries
the segment produces on its own. -/
theorem parsePart_merge (acc : Parsed) (part : Str) :
    parsePart acc part = acc.merge (parsePart ⟨[], []⟩ part) := by
  have hnil : acc.merge ⟨[], []⟩ = acc := by
    cases acc; simp [Parsed.merge, mergeEntries]
  cases hcd : includes contentDisposition part with
  | false => simp [parsePart, hcd, hnil]
  | true =>
  cases hname : regexQuoted nameLit part with
  | none => simp [parsePart, hcd, hname, hnil]
  | some fieldName =>
  cases hidx : indexOf crlfcrlf part with
  | none => simp [parsePart, hcd, hname, hidx, hnil]
  | some headerEndIndex =>
  cases hlast : lastIndexOf crlf part with
  | none => simp [parsePart, hcd, hname, hidx, hlast, hnil]
  | some contentEnd =>
  by_cases hle : contentEnd ≤ headerEndIndex + 4
  · simp [parsePart, hcd, hname, hidx, hlast, hle, hnil]
  · cases hfn : regexQuoted filenameLit part with
    | none =>
      simp [parsePart, hcd, hname, hidx, hlast, hle, hfn, Parsed.merge, mergeEntries_assign,
        mergeEntries_nil]
    | some filename =>
      cases hemp : filename.isEmpty <;>
      simp [parsePart, hcd, hname, hidx, hlast, hle, hfn, hemp, Parsed.merge,
        mergeEntries_assign, mergeEntries_nil]

theorem parsePart_of_malformed (acc : Parsed) (part : Str) (h : malformed part = true) :
    parsePart acc part = acc := by
  cases hcd : includes contentDisposition part with
  | false => simp [parsePart, hcd]
  | true =>
  cases hname : regexQuoted nameLit part with
  | none => simp [parsePart, hcd, hname]
  | some fieldName =>
  cases hidx : indexOf crlfcrlf part with
  | none => simp [parsePart, hcd, hname, hidx]
  | some headerEndIndex =>
  cases hlast : lastIndexOf crlf part with
  | none => simp [parsePart, hcd, hname, hidx, hlast]
  | some contentEnd =>
  by_cases hle : contentEnd ≤ headerEndIndex + 4
  · simp [parsePart, hcd, hname, hidx, hlast, hle]
  · simp [malformed, hcd, hname, hidx, hlast, hle] at h

theorem parsePart_nil_of_malformed (part : Str) (h : malformed part = true) :
    parsePart ⟨[], []⟩ part = ⟨[], []⟩ :=
  parsePart_of_malformed _ part h

/-- A segment of a binary body, parsed on its own, is one run of the loop body. -/
theorem parseMultipart_segment (buffer : Buffer) (boundary seg : Str)
    (hseg : seg ∈ split (toBinaryString buffer) (delimiter boundary)) :
    parseMultipart (bufferFromBinary seg) boundary = parsePart ⟨[], []⟩ seg := by
  have hsep : delimiter boundary ≠ [] := by simp [delimiter]
  have hlt : ∀ c ∈ seg, c.toNat < 256 := fun c hc =>
    toBinaryString_lt buffer c (split_pieces_mem _ _ seg hseg c hc)
  have hfree := split_pieces_free (delimiter boundary) (toBinaryString buffer) hsep seg hseg
  simp [parseMultipart, toBinaryString_bufferFromBinary seg hlt,
    split_of_not_occurs _ seg hfree]

theorem foldl_parsePart_segments (buffer : Buffer) (boundary : Str) :
    ∀ (l : List Str), (∀ seg ∈ l, seg ∈ split (toBinaryString buffer) (delimiter boundary)) →
    ∀ acc : Parsed, l.foldl parsePart acc =
      l.foldl (fun acc seg => acc.merge (parseMultipart (bufferFromBinary seg) boundary)) acc := by
  intro l
  induction l with
  | nil => intro _ acc; rfl
  | cons seg l ih =>
    intro h acc
    have h1 := parseMultipart_segment buffer boundary seg (h seg (by simp))
    simp only [List.foldl_cons]
    rw [h1, ← parsePart_merge]
    exact ih (fun s hs => h s (by simp [hs])) _

/-! ## Lemmas: the files invariant -/

theorem length_substring (s : Str) (a b : Nat) (hb : b ≤ s.length) :
    (substring s a b).length = b - a := by
  simp [substring]
  omega

theorem parsePart_files_ok (acc : Parsed) (part : Str)
    (h : ∀ e ∈ acc.files, e.2.filename ≠ [] ∧ 1 ≤ e.2.data.length) :
    ∀ e ∈ (parsePart acc part).files, e.2.filename ≠ [] ∧ 1 ≤ e.2.data.length := by
  cases hcd : includes contentDisposition part with
  | false => simpa [parsePart, hcd] using h
  | true =>
  cases hname : regexQuoted nameLit part with
  | none => simpa [parsePart, hcd, hname] using h
  | some fieldName =>
  cases hidx : indexOf crlfcrlf part with
  | none => simpa [parsePart, hcd, hname, hidx] using h
  | some headerEndIndex =>
  cases hlast : lastIndexOf crlf part with
  | none => simpa [parsePart, hcd, hname, hidx, hlast] using h
  | some contentEnd =>
  by_cases hle : contentEnd ≤ headerEndIndex + 4
  · simpa [parsePart, hcd, hname, hidx, hlast, hle] using h
  · cases hfn : regexQuoted filenameLit part with
    | none => simpa [parsePart, hcd, hname, hidx, hlast, hle, hfn] using h
    | some filename =>
      cases hemp : filename.isEmpty with
      | true => simpa [parsePart, hcd, hname, hidx, hlast, hle, hfn, hemp] using h
      | false =>
        have hb := lastIndexOf_bound crlf part contentEnd hlast
        have hlen : (substring part (headerEndIndex + 4) contentEnd).length
            = contentEnd - (headerEndIndex + 4) :=
          length_substring part _ _ (by omega)
        have hne : filename ≠ [] := by
          intro e; subst e; simp at hemp
        simp only [parsePart, hcd, hname, hidx, hlast, hle, hfn, hemp, Bool.not_true,
          Bool.not_false, if_true, if_false, Bool.false_eq_true]
        by_cases hk : fieldName = protoKey
        · simpa [assignProp, hk] using h
        · simp only [assignProp, hk, if_false]
          apply mem_objSet _ _ _ _ h
          intro k₀
          refine ⟨hne, ?_⟩
          simp only [length_bufferFromBinary, hlen]
          omega

theorem foldl_parsePart_files_ok : ∀ (l : List Str) (acc : Parsed),
    (∀ e ∈ acc.files, e.2.filename ≠ [] ∧ 1 ≤ e.2.data.length) →
    ∀ e ∈ (l.foldl parsePart acc).files, e.2.filename ≠ [] ∧ 1 ≤ e.2.data.length := by
  intro l
  induction l with
  | nil => intro acc h; simpa using h
  | cons p l ih =>
    intro acc h
    simp only [List.foldl_cons]
    exact ih _ (parsePart_files_ok acc p h)


/-! ## Lemmas: the quoted-attribute pattern -/

theorem takeWhile_notQuote_stop : ∀ (a b : Str), '"' ∉ a →
    List.takeWhile (fun c => c != '"') (a ++ '"' :: b) = a := by
  intro a
  induction a with
  | nil => intro b _; simp
  | cons c cs ih =>
    intro b h
    have hc : c ≠ '"' := fun e => h (by simp [e])
    have hcs : '"' ∉ cs := fun e => h (by simp [e])
    have hb : (c != '"') = true := by simpa using hc
    rw [List.cons_append, List.takeWhile_cons, hb, if_pos rfl, ih b hcs]

theorem takeWhile_notQuote_all : ∀ (a : Str), '"' ∉ a →
    List.takeWhile (fun c => c != '"') a = a := by
  intro a
  induction a with
  | nil => intro _; simp
  | cons c cs ih =>
    intro h
    have hc : c ≠ '"' := fun e => h (by simp [e])
    have hcs : '"' ∉ cs := fun e => h (by simp [e])
    have hb : (c != '"') = true := by simpa using hc
    rw [List.takeWhile_cons, hb, if_pos rfl, ih hcs]

theorem matchQuotedAt_of_not_starts (lit s : Str) (h : ¬ lit <+: s) :
    matchQuotedAt lit s = none := by
  have hp : lit.isPrefixOf s = false := by
    cases hq : lit.isPrefixOf s with
    | false => rfl
    | true => exact absurd (List.isPrefixOf_iff_prefix.mp hq) h
  simp [matchQuotedAt, hp]

theorem matchQuotedAt_append (lit r : Str) :
    matchQuotedAt lit (lit ++ r) =
      if !(r.takeWhile (fun c => c != '"')).isEmpty
          && ((r.drop (r.takeWhile (fun c => c != '"')).length).head? == some '"')
      then some (r.takeWhile (fun c => c != '"')) else none := by
  have hp : lit.isPrefixOf (lit ++ r) = true :=
    List.isPrefixOf_iff_prefix.mpr (List.prefix_append lit r)
  simp [matchQuotedAt, hp]

theorem matchQuotedAt_here (lit run rest : Str) (hrun : run ≠ []) (hq : '"' ∉ run) :
    matchQuotedAt lit (lit ++ (run ++ '"' :: rest)) = some run := by
  rw [matchQuotedAt_append, takeWhile_notQuote_stop run rest hq]
  cases run with
  | nil => exact absurd rfl hrun
  | cons c cs => simp

theorem regexQuoted_of_match (lit s r : Str) (h : matchQuotedAt lit s = some r) :
    regexQuoted lit s = some r := by
  cases s with
  | nil => simp [matchQuotedAt] at h
  | cons c cs => simp [regexQuoted, h]

theorem regexQuoted_skip (lit : Str) (c : Char) (s : Str) (h : ¬ lit <+: c :: s) :
    regexQuoted lit (c :: s) = regexQuoted lit s := by
  simp [regexQuoted, matchQuotedAt_of_not_starts lit (c :: s) h]

/-- The pattern does not start inside a name that has neither a quote nor `=`. -/
theorem regexQuoted_skip_name (body : Str) (hb : '=' ∈ body) (hbq : '"' ∉ body) :
    ∀ (n rest : Str), '"' ∉ n → '=' ∉ n →
    regexQuoted (body ++ ['"']) (n ++ '"' :: rest) = regexQuoted (body ++ ['"']) ('"' :: rest) := by
  intro n
  induction n with
  | nil => intro rest _ _; simp
  | cons c cs ih =>
    intro rest hq he
    have hcs : '"' ∉ cs := fun e => hq (by simp [e])
    have hes : '=' ∉ cs := fun e => he (by simp [e])
    have hnp : ¬ (body ++ ['"']) <+: c :: (cs ++ '"' :: rest) := by
      intro hp
      obtain ⟨t, ht⟩ := hp
      have h1 : List.takeWhile (fun c => c != '"') ((c :: cs) ++ '"' :: rest) = c :: cs :=
        takeWhile_notQuote_stop (c :: cs) rest hq
      have h2 : List.takeWhile (fun c => c != '"') (body ++ '"' :: t) = body :=
        takeWhile_notQuote_stop body t hbq
      have h3 : body ++ '"' :: t = (c :: cs) ++ '"' :: rest := by
        rw [List.cons_append, ← ht]; simp
      rw [h3, h1] at h2
      rw [← h2] at hb
      exact he hb
    rw [List.cons_append, regexQuoted_skip _ c _ hnp]
    exact ih rest hcs hes

theorem regexQuoted_none_of_no_quote (lit : Str) (hl : '"' ∈ lit) : ∀ w : Str, '"' ∉ w →
    regexQuoted lit w = none := by
  intro w
  induction w with
  | nil => intro _; rfl
  | cons c cs ih =>
    intro h
    have hcs : '"' ∉ cs := fun e => h (by simp [e])
    have hnp : ¬ lit <+: c :: cs := fun hp => h (hp.subset hl)
    rw [regexQuoted_skip lit c cs hnp]
    exact ih hcs

theorem matchQuotedAt_append_right (body t w : Str) (hw : '"' ∉ w)
    (h : matchQuotedAt (body ++ ['"']) t = none) :
    matchQuotedAt (body ++ ['"']) (t ++ w) = none := by
  by_cases hp : (body ++ ['"']) <+: t
  · obtain ⟨r, rfl⟩ := hp
    rw [matchQuotedAt_append] at h
    rw [List.append_assoc, matchQuotedAt_append]
    by_cases hr : '"' ∈ r
    · obtain ⟨a, b, rfl, ha⟩ := List.eq_append_cons_of_mem hr
      have e1 := takeWhile_notQuote_stop a b ha
      have e2 := takeWhile_notQuote_stop a (b ++ w) ha
      rw [e1] at h
      rw [List.append_assoc, List.cons_append, e2]
      simp only [List.drop_left] at h ⊢
      simpa using h
    · have hrw : '"' ∉ r ++ w := by
        intro e
        rcases List.mem_append.mp e with e | e
        · exact hr e
        · exact hw e
      rw [takeWhile_notQuote_all (r ++ w) hrw]
      simp
  · have hnp : ¬ (body ++ ['"']) <+: t ++ w := by
      intro hq
      have h2 : t <+: t ++ w := List.prefix_append _ _
      rcases Nat.le_total (body ++ ['"']).length t.length with hl | hl
      · exact hp (List.prefix_of_prefix_length_le hq h2 hl)
      · have h3 := List.prefix_of_prefix_length_le h2 hq hl
        obtain ⟨x, hx⟩ := h3
        obtain ⟨y, hy⟩ := hq
        have hxne : x ≠ [] := by
          intro e
          subst e
          rw [List.append_nil] at hx
          exact hp (hx ▸ List.prefix_refl _)
        have hxw : x <+: w := by
          have : t ++ (x ++ y) = t ++ w := by rw [← List.append_assoc, hx, hy]
          exact ⟨y, List.append_cancel_left this⟩
        have hlast : '"' ∈ x := by
          have hsuf : x <:+ body ++ ['"'] := ⟨t, hx⟩
          have := List.getLast_mem hxne
          have h4 : x.getLast hxne = (body ++ ['"']).getLast (by simp) :=
            List.IsSuffix.getLast hsuf hxne
          rw [h4] at this
          simpa using this
        exact hw (hxw.subset hlast)
    exact matchQuotedAt_of_not_starts _ _ hnp

theorem regexQuoted_append_right (body : Str) (w : Str) (hw : '"' ∉ w) : ∀ v : Str,
    regexQuoted (body ++ ['"']) v = none → regexQuoted (body ++ ['"']) (v ++ w) = none := by
  intro v
  induction v with
  | nil =>
    intro _
    exact regexQuoted_none_of_no_quote _ (by simp) w hw
  | cons c cs ih =>
    intro h
    cases hm : matchQuotedAt (body ++ ['"']) (c :: cs) with
    | some r => simp [regexQuoted, hm] at h
    | none =>
      have h1 : regexQuoted (body ++ ['"']) cs = none := by simpa [regexQuoted, hm] using h
      have h2 := matchQuotedAt_append_right body (c :: cs) w hw hm
      rw [List.cons_append] at h2 ⊢
      simp [regexQuoted, h2, ih h1]

/-! ## Lemmas: a segment with a blank line, a content and the framing CRLF -/

theorem substring_content (h content tail : Str) :
    substring (h ++ (crlfcrlf ++ (content ++ tail))) (h.length + 4)
      ((h ++ (crlfcrlf ++ content)).length) = content := by
  have e1 : h ++ (crlfcrlf ++ (content ++ tail)) = (h ++ crlfcrlf) ++ (content ++ tail) := by
    simp
  have e2 : (h ++ crlfcrlf).length = h.length + 4 := by simp [crlfcrlf]
  unfold substring
  rw [e1, ← e2, List.drop_left]
  have e3 : (h ++ (crlfcrlf ++ content)).length - (h ++ crlfcrlf).length = content.length := by
    simp only [List.length_append]
    omega
  rw [e3, List.take_left]

/-- The loop body on a segment made of a header block, the first blank line,
a non-empty content and the framing CRLF. -/
theorem parsePart_shape (acc : Parsed) (h content n : Str)
    (hcd : includes contentDisposition (h ++ (crlfcrlf ++ (content ++ crlf))) = true)
    (hname : regexQuoted nameLit (h ++ (crlfcrlf ++ (content ++ crlf))) = some n)
    (hidx : indexOf crlfcrlf (h ++ (crlfcrlf ++ (content ++ crlf))) = some h.length)
    (hc : content ≠ []) :
    parsePart acc (h ++ (crlfcrlf ++ (content ++ crlf))) =
      match regexQuoted filenameLit (h ++ (crlfcrlf ++ (content ++ crlf))) with
      | some filename =>
        if !filename.isEmpty then
          { acc with files := assignProp acc.files n ⟨filename, bufferFromBinary content⟩ }
        else { acc with fields := assignProp acc.fields n content }
      | none => { acc with fields := assignProp acc.fields n content } := by
  have hlast : lastIndexOf crlf (h ++ (crlfcrlf ++ (content ++ crlf)))
      = some (h ++ (crlfcrlf ++ content)).length := by
    have := lastIndexOf_append_self crlf (by simp [crlf]) (h ++ (crlfcrlf ++ content))
    simpa [List.append_assoc] using this
  have hlen : 0 < content.length := List.length_pos.mpr hc
  have hlen' : (h ++ (crlfcrlf ++ content)).length = h.length + 4 + content.length := by
    simp only [List.length_append, crlfcrlf, List.length_cons, List.length_nil]
    omega
  have hle : ¬ (h ++ (crlfcrlf ++ content)).length ≤ h.length + 4 := by
    omega
  have hsub := substring_content h content crlf
  unfold parsePart
  simp only [hcd, hname, hidx, hlast, hle, hsub, Bool.not_true, Bool.false_eq_true, if_false]

/-! ## Lemmas: the encoded parts -/

theorem regexQuoted_nameLit_head (t : Str) :
    regexQuoted nameLit (crlf ++ (dispositionPrefix ++ t)) = regexQuoted nameLit (nameLit ++ t) := by
  simp [regexQuoted, matchQuotedAt, nameLit, crlf, dispositionPrefix, List.isPrefixOf]

theorem regexQuoted_filenameLit_head (t : Str) :
    regexQuoted filenameLit (crlf ++ (dispositionPrefix ++ t)) = regexQuoted filenameLit t := by
  simp [regexQuoted, matchQuotedAt, filenameLit, crlf, dispositionPrefix, List.isPrefixOf]

theorem legalName_spec (n : Str) (h : legalName n = true) :
    n ≠ [] ∧ n ≠ protoKey ∧ '"' ∉ n ∧ '=' ∉ n ∧ '\r' ∉ n ∧ ∀ c ∈ n, c.toNat < 256 := by
  simp only [legalName, Bool.and_eq_true, Bool.not_eq_true', List.all_eq_true, bne_iff_ne,
    ne_eq, decide_eq_true_eq] at h
  obtain ⟨⟨h1, h2⟩, h3⟩ := h
  refine ⟨?_, h2, ?_, ?_, ?_, ?_⟩
  · intro e; subst e; simp at h1
  · intro e; exact (h3 _ e).1.1.1 rfl
  · intro e; exact (h3 _ e).1.1.2 rfl
  · intro e; exact (h3 _ e).1.2 rfl
  · intro c hc; exact (h3 c hc).2

theorem legalFilename_spec (f : Str) (h : legalFilename f = true) :
    f ≠ [] ∧ '"' ∉ f ∧ '\r' ∉ f ∧ ∀ c ∈ f, c.toNat < 256 := by
  simp only [legalFilename, Bool.and_eq_true, Bool.not_eq_true', List.all_eq_true, bne_iff_ne,
    ne_eq, decide_eq_true_eq] at h
  obtain ⟨h1, h3⟩ := h
  refine ⟨?_, ?_, ?_, ?_⟩
  · intro e; subst e; simp at h1
  · intro e; exact (h3 _ e).1.1 rfl
  · intro e; exact (h3 _ e).1.2 rfl
  · intro c hc; exact (h3 c hc).2

theorem legalBoundary_spec (b : Str) (h : legalBoundary b = true) :
    '"' ∉ b ∧ '\r' ∉ b ∧ '\n' ∉ b ∧ ∀ c ∈ b, c.toNat < 256 := by
  simp only [legalBoundary, Bool.and_eq_true, List.all_eq_true, bne_iff_ne,
    ne_eq, decide_eq_true_eq] at h
  refine ⟨?_, ?_, ?_, ?_⟩
  · intro e; exact (h _ e).1.1.1 rfl
  · intro e; exact (h _ e).1.1.2 rfl
  · intro e; exact (h _ e).1.2 rfl
  · intro c hc; exact (h c hc).2

theorem indexOf_cons_of_not_starts (pat : Str) (c : Char) (s : Str) (h : ¬ pat <+: c :: s) :
    indexOf pat (c :: s) = (indexOf pat s).map (· + 1) := by
  have hp : pat.isPrefixOf (c :: s) = false := by
    cases hq : pat.isPrefixOf (c :: s) with
    | false => rfl
    | true => exact absurd (List.isPrefixOf_iff_prefix.mp hq) h
  simp [indexOf, hp]

/-- The header block of a text part. -/
theorem textPart_eq (n v : Str) :
    textPart n v = (crlf ++ (dispositionPrefix ++ (n ++ ['"']))) ++ (crlfcrlf ++ (v ++ crlf)) := by
  simp [textPart]

theorem includes_textPart (n v : Str) : includes contentDisposition (textPart n v) = true := by
  rw [includes_iff_occurs]
  refine ⟨crlf, ": form-data; name=\"".toList ++ (n ++ ('"' :: (crlfcrlf ++ (v ++ crlf)))), ?_⟩
  simp [textPart, contentDisposition, dispositionPrefix]

theorem regexQuoted_name_textPart (n v : Str) (hn : n ≠ []) (hq : '"' ∉ n) :
    regexQuoted nameLit (textPart n v) = some n := by
  unfold textPart
  rw [regexQuoted_nameLit_head]
  exact regexQuoted_of_match _ _ _ (matchQuotedAt_here nameLit n _ hn hq)

theorem indexOf_blank_textPart (n v : Str) (hr : '\r' ∉ n) :
    indexOf crlfcrlf (textPart n v) = some (crlf ++ (dispositionPrefix ++ (n ++ ['"']))).length := by
  have hx : '\r' ∉ '\n' :: (dispositionPrefix ++ (n ++ ['"'])) := by
    simp [dispositionPrefix, hr]
  have h1 : indexOf crlfcrlf ('\n' :: (dispositionPrefix ++ (n ++ ['"']))
      ++ (crlfcrlf ++ (v ++ crlf)))
      = (indexOf crlfcrlf (crlfcrlf ++ (v ++ crlf))).map
          (· + ('\n' :: (dispositionPrefix ++ (n ++ ['"']))).length) :=
    indexOf_skip_append '\r' ['\n', '\r', '\n']
      ('\n' :: (dispositionPrefix ++ (n ++ ['"']))) (crlfcrlf ++ (v ++ crlf)) hx
  have h0 : ¬ crlfcrlf <+: '\r' :: ('\n' :: (dispositionPrefix ++ (n ++ ['"']))
      ++ (crlfcrlf ++ (v ++ crlf))) := by
    intro hp
    have := List.isPrefixOf_iff_prefix.mpr hp
    simp [crlfcrlf, dispositionPrefix, List.isPrefixOf] at this
  have e : textPart n v = '\r' :: ('\n' :: (dispositionPrefix ++ (n ++ ['"']))
      ++ (crlfcrlf ++ (v ++ crlf))) := by
    simp [textPart, crlf]
  rw [e, indexOf_cons_of_not_starts _ _ _ h0]
  have h2 : indexOf crlfcrlf (crlfcrlf ++ (v ++ crlf)) = some 0 := indexOf_here _ _
  rw [h1, h2]
  simp [crlf]

theorem regexQuoted_filename_textPart (n v : Str) (hq : '"' ∉ n) (he : '=' ∉ n)
    (hv : regexQuoted filenameLit v = none) :
    regexQuoted filenameLit (textPart n v) = none := by
  unfold textPart
  rw [regexQuoted_filenameLit_head]
  have hlit : filenameLit = "filename=".toList ++ ['"'] := by decide
  rw [hlit, regexQuoted_skip_name "filename=".toList (by decide) (by decide) n _ hq he]
  have h2 := regexQuoted_append_right "filename=".toList crlf (by decide) v (hlit ▸ hv)
  have h3 : regexQuoted ("filename=".toList ++ ['"']) ('"' :: (crlfcrlf ++ (v ++ crlf)))
      = regexQuoted ("filename=".toList ++ ['"']) (v ++ crlf) := by
    simp [regexQuoted, matchQuotedAt, crlfcrlf, List.isPrefixOf]
  rw [h3, h2]

/-- The loop body on the segment of a text field. -/
theorem parsePart_textPart (acc : Parsed) (n v : Str)
    (hn : n ≠ []) (hq : '"' ∉ n) (he : '=' ∉ n) (hr : '\r' ∉ n)
    (hv : v ≠ []) (hvf : regexQuoted filenameLit v = none) :
    parsePart acc (textPart n v) = { acc with fields := assignProp acc.fields n v } := by
  have h1 := includes_textPart n v
  have h2 := regexQuoted_name_textPart n v hn hq
  have h3 := indexOf_blank_textPart n v hr
  have h4 := regexQuoted_filename_textPart n v hq he hvf
  rw [textPart_eq] at h1 h2 h3 h4 ⊢
  rw [parsePart_shape acc _ v n h1 h2 h3 hv, h4]

/-- The header block of a file part. -/
theorem filePart_eq (n f : Str) (p : Buffer) :
    filePart n f p = (crlf ++ (dispositionPrefix ++ (n ++ (filenameInfix ++ (f ++ contentTypeLine)))))
      ++ (crlfcrlf ++ (toBinaryString p ++ crlf)) := by
  simp [filePart]

theorem includes_filePart (n f : Str) (p : Buffer) :
    includes contentDisposition (filePart n f p) = true := by
  rw [includes_iff_occurs]
  refine ⟨crlf, ": form-data; name=\"".toList ++ (n ++ (filenameInfix ++ (f ++
    (contentTypeLine ++ (crlfcrlf ++ (toBinaryString p ++ crlf)))))), ?_⟩
  simp [filePart, contentDisposition, dispositionPrefix]

theorem filenameInfix_append (x : Str) :
    filenameInfix ++ x = '"' :: (';' :: ' ' :: (filenameLit ++ x)) := by
  simp [filenameInfix, filenameLit]

theorem contentTypeLine_append (x : Str) :
    contentTypeLine ++ x = '"' :: ('\r' :: ("\nContent-Type: application/octet-stream".toList ++ x)) := by
  simp [contentTypeLine]

theorem regexQuoted_name_filePart (n f : Str) (p : Buffer) (hn : n ≠ []) (hq : '"' ∉ n) :
    regexQuoted nameLit (filePart n f p) = some n := by
  unfold filePart
  rw [regexQuoted_nameLit_head, filenameInfix_append]
  exact regexQuoted_of_match _ _ _ (matchQuotedAt_here nameLit n _ hn hq)

theorem regexQuoted_filename_filePart (n f : Str) (p : Buffer) (hq : '"' ∉ n) (he : '=' ∉ n)
    (hf : f ≠ []) (hfq : '"' ∉ f) :
    regexQuoted filenameLit (filePart n f p) = some f := by
  unfold filePart
  rw [regexQuoted_filenameLit_head, filenameInfix_append]
  have hlit : filenameLit = "filename=".toList ++ ['"'] := by decide
  have h1 := regexQuoted_skip_name "filename=".toList (by decide) (by decide) n
    (';' :: ' ' :: (filenameLit ++ (f ++ (contentTypeLine ++ (crlfcrlf ++
      (toBinaryString p ++ crlf)))))) hq he
  rw [← hlit] at h1
  rw [h1, contentTypeLine_append]
  have h2 : ∀ t : Str, regexQuoted filenameLit ('"' :: ';' :: ' ' :: t) = regexQuoted filenameLit t := by
    intro t
    simp [regexQuoted, matchQuotedAt, filenameLit, List.isPrefixOf]
  rw [h2]
  exact regexQuoted_of_match _ _ _ (matchQuotedAt_here filenameLit f _ hf hfq)

theorem indexOf_blank_filePart (n f : Str) (p : Buffer) (hr : '\r' ∉ n) (hfr : '\r' ∉ f) :
    indexOf crlfcrlf (filePart n f p)
      = some (crlf ++ (dispositionPrefix ++ (n ++ (filenameInfix ++ (f ++ contentTypeLine))))).length := by
  have hx : '\r' ∉ '\n' :: (dispositionPrefix ++ (n ++ (filenameInfix ++ (f ++ ['"'])))) := by
    simp [dispositionPrefix, filenameInfix, hr, hfr]
  have hy : '\r' ∉ "\nContent-Type: application/octet-stream".toList := by decide
  have e : filePart n f p = '\r' :: ('\n' :: (dispositionPrefix ++ (n ++ (filenameInfix ++ (f ++ ['"']))))
      ++ ('\r' :: ("\nContent-Type: application/octet-stream".toList
      ++ (crlfcrlf ++ (toBinaryString p ++ crlf))))) := by
    simp [filePart, crlf, contentTypeLine]
  have h0 : ¬ crlfcrlf <+: '\r' :: ('\n' :: (dispositionPrefix ++ (n ++ (filenameInfix ++ (f ++ ['"']))))
      ++ ('\r' :: ("\nContent-Type: application/octet-stream".toList
      ++ (crlfcrlf ++ (toBinaryString p ++ crlf))))) := by
    intro hp
    have := List.isPrefixOf_iff_prefix.mpr hp
    simp [crlfcrlf, dispositionPrefix, List.isPrefixOf] at this
  have h0' : ¬ crlfcrlf <+: '\r' :: ("\nContent-Type: application/octet-stream".toList
      ++ (crlfcrlf ++ (toBinaryString p ++ crlf))) := by
    intro hp
    have := List.isPrefixOf_iff_prefix.mpr hp
    simp [crlfcrlf, List.isPrefixOf] at this
  have h1 : ∀ t : Str, indexOf crlfcrlf ('\n' :: (dispositionPrefix ++ (n ++ (filenameInfix ++ (f ++ ['"']))))
      ++ t) = (indexOf crlfcrlf t).map
          (· + ('\n' :: (dispositionPrefix ++ (n ++ (filenameInfix ++ (f ++ ['"']))))).length) :=
    fun t => indexOf_skip_append '\r' ['\n', '\r', '\n'] _ t hx
  have h2 : ∀ t : Str, indexOf crlfcrlf ("\nContent-Type: application/octet-stream".toList ++ t)
      = (indexOf crlfcrlf t).map (· + "\nContent-Type: application/octet-stream".toList.length) :=
    fun t => indexOf_skip_append '\r' ['\n', '\r', '\n'] _ t hy
  have h3 : indexOf crlfcrlf (crlfcrlf ++ (toBinaryString p ++ crlf)) = some 0 := indexOf_here _ _
  rw [e, indexOf_cons_of_not_starts _ _ _ h0, h1, indexOf_cons_of_not_starts _ _ _ h0', h2, h3]
  simp [crlf, contentTypeLine]
  omega

/-- The loop body on the segment of a file field. -/
theorem parsePart_filePart (acc : Parsed) (n f : Str) (p : Buffer)
    (hn : n ≠ []) (hq : '"' ∉ n) (he : '=' ∉ n) (hr : '\r' ∉ n)
    (hf : f ≠ []) (hfq : '"' ∉ f) (hfr : '\r' ∉ f) (hp : p ≠ []) :
    parsePart acc (filePart n f p) = { acc with files := assignProp acc.files n ⟨f, p⟩ } := by
  have h1 := includes_filePart n f p
  have h2 := regexQuoted_name_filePart n f p hn hq
  have h3 := indexOf_blank_filePart n f p hr hfr
  have h4 := regexQuoted_filename_filePart n f p hq he hf hfq
  have hc : toBinaryString p ≠ [] := by
    cases p with
    | nil => exact absurd rfl hp
    | cons x xs => simp [toBinaryString]
  have hemp : f.isEmpty = false := by
    cases f with
    | nil => exact absurd rfl hf
    | cons x xs => rfl
  rw [filePart_eq] at h1 h2 h3 h4 ⊢
  rw [parsePart_shape acc _ (toBinaryString p) n h1 h2 h3 hc, h4]
  simp [hemp, bufferFromBinary_toBinaryString]

theorem legalValue_spec (v : Str) (h : legalValue v = true) :
    v ≠ [] ∧ (∀ c ∈ v, c.toNat < 256) ∧ regexQuoted filenameLit v = none := by
  simp only [legalValue, Bool.and_eq_true, Bool.not_eq_true', List.all_eq_true,
    decide_eq_true_eq, Option.isNone_iff_eq_none] at h
  obtain ⟨⟨h1, h2⟩, h3⟩ := h
  refine ⟨?_, h2, h3⟩
  intro e; subst e; simp at h1

theorem delimiterFree_spec (b s : Str) (h : delimiterFree b s = true) :
    ¬ delimiter b <:+: s := by
  intro hin
  have := (includes_iff_occurs _ _).mpr hin
  simp [delimiterFree, this] at h

/-! ## Lemmas: the delimiter inside an encoded part -/

theorem not_infix_nil (sep : Str) (hsep : sep ≠ []) : ¬ sep <:+: [] :=
  fun h => hsep (List.infix_nil.mp h)

/-- An occurrence of the separator cannot straddle a character foreign to it. -/
theorem not_infix_append_cons (sep : Str) (c : Char) (hc : c ∉ sep) : ∀ (a b : Str),
    ¬ sep <:+: a → ¬ sep <:+: b → ¬ sep <:+: a ++ c :: b := by
  intro a
  induction a with
  | nil =>
    intro b ha hb h
    rw [List.nil_append, List.infix_cons_iff] at h
    rcases h with h | h
    · rcases List.prefix_cons_iff.mp h with h | ⟨t, ht, _⟩
      · exact ha (h ▸ List.nil_infix)
      · exact hc (by simp [ht])
    · exact hb h
  | cons x a ih =>
    intro b ha hb h
    have ha' : ¬ sep <:+: a := fun e => ha (e.trans (List.suffix_cons x a).isInfix)
    rw [List.cons_append, List.infix_cons_iff] at h
    rcases h with h | h
    · have h2 : (x :: a) ++ [c] <+: x :: (a ++ c :: b) := by
        refine ⟨b, ?_⟩
        simp
      rcases Nat.le_total sep.length ((x :: a) ++ [c]).length with hl | hl
      · have h3 := List.prefix_of_prefix_length_le h h2 hl
        rcases Nat.lt_or_ge (x :: a).length sep.length with hlt | hge
        · have hlen : sep.length = ((x :: a) ++ [c]).length := by
            simp at hl hlt ⊢; omega
          have := List.IsPrefix.eq_of_length h3 hlen
          exact hc (by rw [this]; simp)
        · have h4 : x :: a <+: (x :: a) ++ [c] := List.prefix_append _ _
          exact ha (List.prefix_of_prefix_length_le h3 h4 hge).isInfix
      · have h3 := List.prefix_of_prefix_length_le h2 h hl
        exact hc (h3.subset (by simp))
    · exact ih b ha' hb h

theorem not_infix_of_dashes (b x : Str) (h : includes ['-', '-'] x = false) :
    ¬ delimiter b <:+: x := by
  intro hin
  have h1 : ['-', '-'] <+: delimiter b := ⟨b, by simp [delimiter]⟩
  have := (includes_iff_occurs _ _).mpr (h1.isInfix.trans hin)
  simp [this] at h

theorem delimiter_ne_nil (b : Str) : delimiter b ≠ [] := by simp [delimiter]

theorem delimiter_mem (b : Str) (c : Char) (hc : c ≠ '-') (hb : c ∉ b) : c ∉ delimiter b := by
  simp [delimiter, hc, hb]

theorem textPart_free (b n v : Str) (hq : '"' ∉ b) (hr : '\r' ∉ b) (hl : '\n' ∉ b)
    (hn : ¬ delimiter b <:+: n) (hv : ¬ delimiter b <:+: v) :
    ¬ delimiter b <:+: textPart n v := by
  have q := delimiter_mem b '"' (by decide) hq
  have r := delimiter_mem b '\r' (by decide) hr
  have l := delimiter_mem b '\n' (by decide) hl
  have z := not_infix_nil (delimiter b) (delimiter_ne_nil b)
  have hP : ¬ delimiter b <:+: "Content-Disposition: form-data; name=".toList :=
    not_infix_of_dashes b _ (by decide)
  have e : textPart n v = [] ++ '\r' :: ([] ++ '\n' ::
      ("Content-Disposition: form-data; name=".toList ++ '"' :: (n ++ '"' :: ([] ++ '\r' ::
      ([] ++ '\n' :: ([] ++ '\r' :: ([] ++ '\n' :: (v ++ '\r' :: ([] ++ '\n' :: []))))))))) := by
    simp [textPart, crlf, crlfcrlf, dispositionPrefix]
  rw [e]
  apply not_infix_append_cons _ _ r _ _ z
  apply not_infix_append_cons _ _ l _ _ z
  apply not_infix_append_cons _ _ q _ _ hP
  apply not_infix_append_cons _ _ q _ _ hn
  apply not_infix_append_cons _ _ r _ _ z
  apply not_infix_append_cons _ _ l _ _ z
  apply not_infix_append_cons _ _ r _ _ z
  apply not_infix_append_cons _ _ l _ _ z
  apply not_infix_append_cons _ _ r _ _ hv
  apply not_infix_append_cons _ _ l _ _ z
  exact z

theorem filePart_free (b n f : Str) (p : Buffer) (hq : '"' ∉ b) (hr : '\r' ∉ b) (hl : '\n' ∉ b)
    (hn : ¬ delimiter b <:+: n) (hf : ¬ delimiter b <:+: f)
    (hp : ¬ delimiter b <:+: toBinaryString p) :
    ¬ delimiter b <:+: filePart n f p := by
  have q := delimiter_mem b '"' (by decide) hq
  have r := delimiter_mem b '\r' (by decide) hr
  have l := delimiter_mem b '\n' (by decide) hl
  have z := not_infix_nil (delimiter b) (delimiter_ne_nil b)
  have hP : ¬ delimiter b <:+: "Content-Disposition: form-data; name=".toList :=
    not_infix_of_dashes b _ (by decide)
  have hI : ¬ delimiter b <:+: "; filename=".toList :=
    not_infix_of_dashes b _ (by decide)
  have hT : ¬ delimiter b <:+: "Content-Type: application/octet-stream".toList :=
    not_infix_of_dashes b _ (by decide)
  have e : filePart n f p = [] ++ '\r' :: ([] ++ '\n' ::
      ("Content-Disposition: form-data; name=".toList ++ '"' :: (n ++ '"' ::
      ("; filename=".toList ++ '"' :: (f ++ '"' :: ([] ++ '\r' :: ([] ++ '\n' ::
      ("Content-Type: application/octet-stream".toList ++ '\r' ::
      ([] ++ '\n' :: ([] ++ '\r' :: ([] ++ '\n' :: (toBinaryString p ++ '\r' ::
      ([] ++ '\n' :: []))))))))))))) := by
    simp [filePart, crlf, crlfcrlf, dispositionPrefix, filenameInfix, contentTypeLine]
  rw [e]
  apply not_infix_append_cons _ _ r _ _ z
  apply not_infix_append_cons _ _ l _ _ z
  apply not_infix_append_cons _ _ q _ _ hP
  apply not_infix_append_cons _ _ q _ _ hn
  apply not_infix_append_cons _ _ q _ _ hI
  apply not_infix_append_cons _ _ q _ _ hf
  apply not_infix_append_cons _ _ r _ _ z
  apply not_infix_append_cons _ _ l _ _ z
  apply not_infix_append_cons _ _ r _ _ hT
  apply not_infix_append_cons _ _ l _ _ z
  apply not_infix_append_cons _ _ r _ _ z
  apply not_infix_append_cons _ _ l _ _ z
  apply not_infix_append_cons _ _ r _ _ hp
  apply not_infix_append_cons _ _ l _ _ z
  exact z

/-- A part that ends with the framing CRLF and is followed by the delimiter is
one piece of the split. -/
theorem splitGo_part (b part rest : Str) (hl : '\n' ∉ b)
    (hend : ∃ q, part = q ++ ['\n']) (hfree : ¬ delimiter b <:+: part) :
    splitGo (delimiter b) 0 [] (part ++ (delimiter b ++ rest))
      = part :: splitGo (delimiter b) 0 [] rest := by
  obtain ⟨q, rfl⟩ := hend
  have l := delimiter_mem b '\n' (by decide) hl
  exact split_cons_piece (delimiter b) (delimiter_ne_nil b) _ rest
    (no_early_of_last (delimiter b) q _ '\n' l hfree)

theorem textPart_ends (n v : Str) : ∃ q, textPart n v = q ++ ['\n'] :=
  ⟨crlf ++ (dispositionPrefix ++ (n ++ ('"' :: (crlfcrlf ++ (v ++ ['\r']))))), by
    simp [textPart, crlf]⟩

theorem filePart_ends (n f : Str) (p : Buffer) : ∃ q, filePart n f p = q ++ ['\n'] :=
  ⟨crlf ++ (dispositionPrefix ++ (n ++ (filenameInfix ++ (f ++
    (contentTypeLine ++ (crlfcrlf ++ (toBinaryString p ++ ['\r']))))))), by
    simp [filePart, crlf]⟩

/-! ## Lemmas: splitting and parsing an encoded form -/

theorem flatten_shift (sep : Str) (parts : List Str) (y : Str) :
    (parts.map (fun q => sep ++ q)).flatten ++ (sep ++ y)
      = sep ++ ((parts.map (fun q => q ++ sep)).flatten ++ y) := by
  induction parts with
  | nil => simp
  | cons q qs ih =>
    simp only [List.map_cons, List.flatten_cons, List.append_assoc]
    rw [ih]

theorem splitGo_parts (b : Str) (hl : '\n' ∉ b) : ∀ (parts : List Str) (x : Str),
    (∀ q ∈ parts, (∃ q', q = q' ++ ['\n']) ∧ ¬ delimiter b <:+: q) →
    splitGo (delimiter b) 0 [] ((parts.map (fun q => q ++ delimiter b)).flatten ++ x)
      = parts ++ splitGo (delimiter b) 0 [] x := by
  intro parts
  induction parts with
  | nil => intro x _; simp
  | cons q qs ih =>
    intro x h
    have hq := h q (by simp)
    have hqs : ∀ q ∈ qs, (∃ q', q = q' ++ ['\n']) ∧ ¬ delimiter b <:+: q :=
      fun q' hq' => h q' (by simp [hq'])
    simp only [List.map_cons, List.flatten_cons, List.append_assoc, List.cons_append]
    rw [splitGo_part b q _ hl hq.1 hq.2, ih x hqs]

theorem parsePart_nil (acc : Parsed) : parsePart acc [] = acc :=
  parsePart_of_malformed acc [] (by decide)

theorem foldl_parsePart_skip : ∀ (l : List Str) (acc : Parsed),
    (∀ q ∈ l, includes contentDisposition q = false) → l.foldl parsePart acc = acc := by
  intro l
  induction l with
  | nil => intro acc _; rfl
  | cons q l ih =>
    intro acc h
    have hq : parsePart acc q = acc :=
      parsePart_of_malformed acc q (by simp [malformed, h q (by simp)])
    simp only [List.foldl_cons, hq]
    exact ih acc (fun q' hq' => h q' (by simp [hq']))

theorem foldl_parsePart_closing (b : Str) (acc : Parsed) :
    (splitGo (delimiter b) 0 [] closing).foldl parsePart acc = acc := by
  apply foldl_parsePart_skip
  intro q hq
  cases hi : includes contentDisposition q with
  | false => rfl
  | true =>
    have hin : contentDisposition <:+: q := (includes_iff_occurs _ _).mp hi
    have hC : 'C' ∈ q := hin.subset (by decide)
    have := split_pieces_mem (delimiter b) closing q hq 'C' hC
    simp [closing] at this

theorem foldl_parsePart_textParts : ∀ (fields : List (Str × Str)) (acc : Parsed),
    (∀ e ∈ fields, legalName e.1 = true ∧ legalValue e.2 = true) →
    (fields.map (fun e => textPart e.1 e.2)).foldl parsePart acc
      = ⟨mergeEntries acc.fields fields, acc.files⟩ := by
  intro fields
  induction fields with
  | nil => intro acc _; rfl
  | cons e es ih =>
    intro acc h
    obtain ⟨hn, hv⟩ := h e (by simp)
    obtain ⟨n1, n2, n3, n4, n5, _⟩ := legalName_spec e.1 hn
    obtain ⟨v1, _, v3⟩ := legalValue_spec e.2 hv
    have hstep := parsePart_textPart acc e.1 e.2 n1 n3 n4 n5 v1 v3
    simp only [List.map_cons, List.foldl_cons, hstep]
    rw [ih _ (fun e' he' => h e' (by simp [he']))]
    simp [mergeEntries, assignProp, n2]

theorem encodeText_eq (b : Str) (fields : List (Str × Str)) (nf f : Str) (p : Buffer) :
    encodeText b fields nf f p = delimiter b ++
      (((fields.map (fun e => textPart e.1 e.2)).map (fun q => q ++ delimiter b)).flatten
        ++ (filePart nf f p ++ (delimiter b ++ closing))) := by
  unfold encodeText
  have := flatten_shift (delimiter b) (fields.map (fun e => textPart e.1 e.2))
    (filePart nf f p ++ (delimiter b ++ closing))
  simpa [List.map_map, Function.comp_def] using this

theorem split_encodeText (b : Str) (fields : List (Str × Str)) (nf f : Str) (p : Buffer)
    (hb : legalBoundary b = true)
    (hfields : ∀ e ∈ fields, delimiterFree b e.1 = true ∧ delimiterFree b e.2 = true)
    (hnf : delimiterFree b nf = true) (hf : delimiterFree b f = true)
    (hp : delimiterFree b (toBinaryString p) = true) :
    split (encodeText b fields nf f p) (delimiter b)
      = [] :: (fields.map (fun e => textPart e.1 e.2)
          ++ filePart nf f p :: splitGo (delimiter b) 0 [] closing) := by
  obtain ⟨bq, br, bl, _⟩ := legalBoundary_spec b hb
  have hparts : ∀ q ∈ fields.map (fun e => textPart e.1 e.2),
      (∃ q', q = q' ++ ['\n']) ∧ ¬ delimiter b <:+: q := by
    intro q hq
    obtain ⟨e, he, rfl⟩ := List.mem_map.mp hq
    obtain ⟨h1, h2⟩ := hfields e he
    exact ⟨textPart_ends e.1 e.2, textPart_free b e.1 e.2 bq br bl
      (delimiterFree_spec b _ h1) (delimiterFree_spec b _ h2)⟩
  have hfile := filePart_free b nf f p bq br bl (delimiterFree_spec b _ hnf)
    (delimiterFree_spec b _ hf) (delimiterFree_spec b _ hp)
  unfold split
  rw [encodeText_eq, splitGo_match _ (delimiter_ne_nil b), splitGo_parts b bl _ _ hparts,
    splitGo_part b _ _ bl (filePart_ends nf f p) hfile]
  simp

theorem encodeText_latin1 (b : Str) (fields : List (Str × Str)) (nf f : Str) (p : Buffer)
    (hb : ∀ c ∈ b, c.toNat < 256)
    (hfields : ∀ e ∈ fields, (∀ c ∈ e.1, c.toNat < 256) ∧ (∀ c ∈ e.2, c.toNat < 256))
    (hnf : ∀ c ∈ nf, c.toNat < 256) (hf : ∀ c ∈ f, c.toNat < 256) :
    ∀ c ∈ encodeText b fields nf f p, c.toNat < 256 := by
  have hd : ∀ c ∈ delimiter b, c.toNat < 256 := by
    intro c hc
    simp only [delimiter, List.mem_cons] at hc
    rcases hc with rfl | rfl | hc
    · decide
    · decide
    · exact hb c hc
  have hP : ∀ c ∈ dispositionPrefix, c.toNat < 256 := by decide
  have hI : ∀ c ∈ filenameInfix, c.toNat < 256 := by decide
  have hT : ∀ c ∈ contentTypeLine, c.toNat < 256 := by decide
  have hcr : ∀ c ∈ crlf, c.toNat < 256 := by decide
  have hcc : ∀ c ∈ crlfcrlf, c.toNat < 256 := by decide
  have hcl : ∀ c ∈ closing, c.toNat < 256 := by decide
  have hpl := toBinaryString_lt p
  intro c hc
  simp only [encodeText, List.mem_append, List.mem_flatten, List.mem_map] at hc
  rcases hc with ⟨l, ⟨e, he, rfl⟩, hc⟩ | hc | hc | hc | hc
  · obtain ⟨h1, h2⟩ := hfields e he
    simp only [textPart, List.mem_append, List.mem_cons] at hc
    rcases hc with hc | hc | hc | hc | hc | hc | hc | hc
    · exact hd c hc
    · exact hcr c hc
    · exact hP c hc
    · exact h1 c hc
    · subst hc; decide
    · exact hcc c hc
    · exact h2 c hc
    · exact hcr c hc
  · exact hd c hc
  · simp only [filePart, List.mem_append] at hc
    rcases hc with hc | hc | hc | hc | hc | hc | hc | hc | hc
    · exact hcr c hc
    · exact hP c hc
    · exact hnf c hc
    · exact hI c hc
    · exact hf c hc
    · exact hT c hc
    · exact hcc c hc
    · exact hpl c hc
    · exact hcr c hc
  · exact hd c hc
  · exact hcl c hc

/-- Parsing the encoding of a form gives back its text fields and its file. -/
theorem parseMultipart_encode (b : Str) (fields : List (Str × Str)) (nf f : Str) (p : Buffer)
    (hb : legalBoundary b = true)
    (hfields : ∀ e ∈ fields, legalName e.1 = true ∧ legalValue e.2 = true
      ∧ delimiterFree b e.1 = true ∧ delimiterFree b e.2 = true)
    (hnf : legalName nf = true ∧ delimiterFree b nf = true)
    (hf : legalFilename f = true ∧ delimiterFree b f = true)
    (hp : p ≠ [] ∧ delimiterFree b (toBinaryString p) = true) :
    parseMultipart (encodeMultipart b fields nf f p) b
      = ⟨mergeEntries [] fields, [(nf, ⟨f, p⟩)]⟩ := by
  obtain ⟨_, _, _, bl⟩ := legalBoundary_spec b hb
  obtain ⟨n1, n2, n3, n4, n5, n6⟩ := legalName_spec nf hnf.1
  obtain ⟨f1, f2, f3, f4⟩ := legalFilename_spec f hf.1
  have hlat := encodeText_latin1 b fields nf f p bl
    (fun e he => ⟨(legalName_spec e.1 (hfields e he).1).2.2.2.2.2,
      (legalValue_spec e.2 (hfields e he).2.1).2.1⟩) n6 f4
  have hsplit := split_encodeText b fields nf f p hb
    (fun e he => ⟨(hfields e he).2.2.1, (hfields e he).2.2.2⟩) hnf.2 hf.2 hp.2
  unfold parseMultipart encodeMultipart
  rw [toBinaryString_bufferFromBinary _ hlat, hsplit]
  simp only [List.foldl_cons, List.foldl_append, parsePart_nil]
  rw [foldl_parsePart_textParts fields _ (fun e he => ⟨(hfields e he).1, (hfields e he).2.1⟩),
    parsePart_filePart _ nf f p n1 n3 n4 n5 f1 f2 f3 hp.1, foldl_parsePart_closing]
  simp [assignProp, n2, objSet]

/-! ## The claims about `parseMultipart` -/

set_option maxRecDepth 100000

/-- C1 (as amended). Round trip: for a boundary without quote, CR or LF, text
fields whose names are legal and whose values are non-empty, one byte per
character and free of `filename="…"` patterns, and a file with a legal field
name, a legal filename and a non-empty payload, none of them containing the
delimiter, parsing the encoded body returns exactly the original fields (a
repeated name keeping its last value) and the original file bytes. -/
theorem parseMultipart_round_trip (b : Str) (fields : List (Str × Str)) (nf f : Str)
    (p : Buffer)
    (hb : legalBoundary b = true)
    (hfields : ∀ e ∈ fields, legalName e.1 = true ∧ legalValue e.2 = true
      ∧ delimiterFree b e.1 = true ∧ delimiterFree b e.2 = true)
    (hnf : legalName nf = true ∧ delimiterFree b nf = true)
    (hf : legalFilename f = true ∧ delimiterFree b f = true)
    (hp : p ≠ [] ∧ delimiterFree b (toBinaryString p) = true) :
    (parseMultipart (encodeMultipart b fields nf f p) b).fields = mergeEntries [] fields
      ∧ (parseMultipart (encodeMultipart b fields nf f p) b).files = [(nf, ⟨f, p⟩)] := by
  rw [parseMultipart_encode b fields nf f p hb hfields hnf hf hp]
  exact ⟨rfl, rfl⟩

/-- C1, witness: the form with fields `a = 1`, `b = 2` and a two-byte file. -/
theorem parseMultipart_round_trip_witness :
    (parseMultipart (encodeMultipart "X".toList
        [("a".toList, "1".toList), ("b".toList, "2".toList)] "f".toList "x.bin".toList
        [0, 255]) "X".toList).fields
      = mergeEntries [] [("a".toList, "1".toList), ("b".toList, "2".toList)]
    ∧ (parseMultipart (encodeMultipart "X".toList
        [("a".toList, "1".toList), ("b".toList, "2".toList)] "f".toList "x.bin".toList
        [0, 255]) "X".toList).files = [("f".toList, ⟨"x.bin".toList, [0, 255]⟩)] :=
  parseMultipart_round_trip "X".toList [("a".toList, "1".toList), ("b".toList, "2".toList)]
    "f".toList "x.bin".toList [0, 255] (by decide) (by decide) (by decide) (by decide)
    (by decide)

/-- C1, counterexample: a text field with the empty value does not come back,
although nothing in the form contains the delimiter. -/
theorem parseMultipart_round_trip_counterexample :
    delimiterFree "X".toList "a".toList = true ∧ delimiterFree "X".toList [] = true
    ∧ delimiterFree "X".toList "f".toList = true ∧ delimiterFree "X".toList "x".toList = true
    ∧ delimiterFree "X".toList (toBinaryString [1]) = true
    ∧ objGet (mergeEntries [] [("a".toList, ([] : Str))]) "a".toList = some []
    ∧ objGet (parseMultipart (encodeMultipart "X".toList [("a".toList, [])] "f".toList
        "x".toList [1]) "X".toList).fields "a".toList = none := by
  decide

/-- C2 (as amended). Binary-safe file payload: for a boundary without quote,
CR or LF, a legal field name and a legal filename that do not contain the
delimiter, and every non-empty payload that does not contain the delimiter,
parsing the body that holds this one file part gives `files[n]` with that
filename and with exactly the payload bytes. -/
theorem file_payload_binary_safe (b n f : Str) (p : Buffer)
    (hb : legalBoundary b = true)
    (hn : legalName n = true ∧ delimiterFree b n = true)
    (hf : legalFilename f = true ∧ delimiterFree b f = true)
    (hp : p ≠ []) (hfree : delimiterFree b (toBinaryString p) = true) :
    objGet (parseMultipart (encodeMultipart b [] n f p) b).files n = some ⟨f, p⟩ := by
  rw [parseMultipart_encode b [] n f p hb (by simp) hn hf ⟨hp, hfree⟩]
  simp [objGet]

/-- C2, witness: a payload made of CR, LF, a zero byte, `-` and bytes above 0x7f. -/
theorem file_payload_binary_safe_witness :
    objGet (parseMultipart (encodeMultipart "X".toList [] "image".toList "a.png".toList
        [13, 10, 0, 45, 45, 128, 255]) "X".toList).files "image".toList
      = some ⟨"a.png".toList, [13, 10, 0, 45, 45, 128, 255]⟩ :=
  file_payload_binary_safe "X".toList "image".toList "a.png".toList
    [13, 10, 0, 45, 45, 128, 255] (by decide) (by decide) (by decide) (by decide) (by decide)

/-- C2, counterexample: for the field name `filename=` the pattern
`filename="…"` matches inside the name attribute, and the entry stored under
that name carries the filename `; filename=` instead of `a.bin`. -/
theorem file_payload_binary_safe_counterexample :
    delimiterFree "X".toList (toBinaryString [255]) = true
    ∧ objGet (parseMultipart (encodeMultipart "X".toList [] "filename=".toList "a.bin".toList
        [255]) "X".toList).files "filename=".toList
      = some ⟨"; filename=".toList, [255]⟩ := by
  decide

/-- C3 (as amended). The attributes are read from the whole segment: for a
segment with `Content-Disposition`, made of a header block up to its first
blank line, a non-empty content and the framing CRLF, whose leftmost
`name="…"` pattern captures `n` (not `__proto__`) and which has no
`filename="…"` pattern anywhere, headers or content, the loop body stores the
content under `fields[n]` and leaves `files` as it is; and a segment without
any `name="…"` pattern, headers or content, is skipped. -/
theorem segment_attributes (acc : Parsed) (h content n : Str)
    (hcd : includes contentDisposition (h ++ (crlfcrlf ++ (content ++ crlf))) = true)
    (hidx : indexOf crlfcrlf (h ++ (crlfcrlf ++ (content ++ crlf))) = some h.length)
    (hname : regexQuoted nameLit (h ++ (crlfcrlf ++ (content ++ crlf))) = some n)
    (hproto : n ≠ protoKey)
    (hfile : regexQuoted filenameLit (h ++ (crlfcrlf ++ (content ++ crlf))) = none)
    (hc : content ≠ []) :
    parsePart acc (h ++ (crlfcrlf ++ (content ++ crlf)))
        = ⟨objSet acc.fields n content, acc.files⟩
      ∧ ∀ (acc' : Parsed) (seg : Str), regexQuoted nameLit seg = none →
          parsePart acc' seg = acc' := by
  constructor
  · rw [parsePart_shape acc h content n hcd hname hidx hc, hfile]
    simp [assignProp, hproto]
  · intro acc' seg hseg
    exact parsePart_of_malformed acc' seg (by simp [malformed, hseg])

/-- C3, witness: the segment of the text field `a` with the content `1`. -/
theorem segment_attributes_witness :
    parsePart ⟨[], []⟩ ("\r\nContent-Disposition: form-data; name=\"a\"".toList
        ++ (crlfcrlf ++ ("1".toList ++ crlf)))
        = ⟨objSet [] "a".toList "1".toList, []⟩
      ∧ ∀ (acc' : Parsed) (seg : Str), regexQuoted nameLit seg = none →
          parsePart acc' seg = acc' :=
  segment_attributes ⟨[], []⟩ "\r\nContent-Disposition: form-data; name=\"a\"".toList
    "1".toList "a".toList (by decide) (by decide) (by decide) (by decide) (by decide)
    (by decide)

/-- C3, counterexample: the headers carry `name="a"` and no filename, the
content is the text `filename="x"`; the part is stored as a file and no text
field is produced. -/
theorem segment_attributes_counterexample :
    objGet (parseMultipart bodyTextWithFilenamePattern "X".toList).fields "a".toList = none
    ∧ objGet (parseMultipart bodyTextWithFilenamePattern "X".toList).files "a".toList
      = some ⟨"x".toList, bufferFromBinary "filename=\"x\"".toList⟩ := by
  decide

/-- C4. Segment isolation: the result of `parseMultipart` is the merge, in
order and with the last write winning, of what each delimited segment gives
when parsed on its own; a segment skipped as malformed can be removed from
the list without changing the result.  `parseMultipart` is a total function:
it returns a result for every buffer and boundary. -/
theorem parseMultipart_segment_isolation (buffer : Buffer) (boundary : Str) :
    parseMultipart buffer boundary
        = (split (toBinaryString buffer) (delimiter boundary)).foldl
            (fun acc seg => acc.merge (parseMultipart (bufferFromBinary seg) boundary)) ⟨[], []⟩
      ∧ ∀ (pre : List Str) (seg : Str) (post : List Str),
          split (toBinaryString buffer) (delimiter boundary) = pre ++ seg :: post →
          malformed seg = true →
          parseMultipart buffer boundary
            = (pre ++ post).foldl
                (fun acc seg => acc.merge (parseMultipart (bufferFromBinary seg) boundary))
                ⟨[], []⟩ := by
  have hall := foldl_parsePart_segments buffer boundary
    (split (toBinaryString buffer) (delimiter boundary)) (fun _ h => h) ⟨[], []⟩
  refine ⟨hall, ?_⟩
  intro pre seg post hsplit hmal
  have hmem : ∀ s ∈ pre ++ post, s ∈ split (toBinaryString buffer) (delimiter boundary) := by
    intro s hs
    rw [hsplit]
    rcases List.mem_append.mp hs with h | h
    · exact List.mem_append.mpr (Or.inl h)
    · exact List.mem_append.mpr (Or.inr (List.mem_cons_of_mem _ h))
  rw [← foldl_parsePart_segments buffer boundary (pre ++ post) hmem ⟨[], []⟩]
  unfold parseMultipart
  rw [hsplit, List.foldl_append, List.foldl_cons, parsePart_of_malformed _ seg hmal,
    List.foldl_append]

/-- C4, witness: a body with the fields `a` and `b` and a segment without
headers between them. -/
theorem parseMultipart_segment_isolation_witness :
    parseMultipart bodyWithJunkSegment "X".toList
      = ([[], segmentA] ++ [segmentB, closing]).foldl
          (fun acc seg => acc.merge (parseMultipart (bufferFromBinary seg) "X".toList))
          ⟨[], []⟩ :=
  (parseMultipart_segment_isolation bodyWithJunkSegment "X".toList).2
    [[], segmentA] "\r\njunk\r\n".toList [segmentB, closing] (by decide) (by decide)

/-- C5 (as amended). Empty-file policy: every entry of the `files` object
returned by `parseMultipart` has a non-empty filename and at least one byte
of payload; a part whose content between the first blank line and the framing
CRLF is empty produces no entry at all; and a part that has no
`filename="…"` pattern with a non-empty value anywhere, headers or content,
produces no `files` entry. -/
theorem files_entries_nonempty (buffer : Buffer) (boundary : Str) :
    (∀ e ∈ (parseMultipart buffer boundary).files,
        e.2.filename ≠ [] ∧ 1 ≤ e.2.data.length)
      ∧ (∀ (acc : Parsed) (h : Str),
          indexOf crlfcrlf (h ++ (crlfcrlf ++ crlf)) = some h.length →
          parsePart acc (h ++ (crlfcrlf ++ crlf)) = acc)
      ∧ (∀ (acc : Parsed) (part : Str), regexQuoted filenameLit part = none →
          (parsePart acc part).files = acc.files) := by
  refine ⟨?_, ?_, ?_⟩
  · exact foldl_parsePart_files_ok _ ⟨[], []⟩ (by simp)
  · intro acc h hidx
    have hlast : lastIndexOf crlf (h ++ (crlfcrlf ++ crlf)) = some (h ++ crlfcrlf).length := by
      have := lastIndexOf_append_self crlf (by simp [crlf]) (h ++ crlfcrlf)
      simpa [List.append_assoc] using this
    have hlen : (h ++ crlfcrlf).length ≤ h.length + 4 := by simp [crlfcrlf]
    apply parsePart_of_malformed
    unfold malformed
    rw [hidx, hlast]
    simp [crlfcrlf]
  · intro acc part hfn
    cases hcd : includes contentDisposition part with
    | false => simp [parsePart, hcd]
    | true =>
    cases hname : regexQuoted nameLit part with
    | none => simp [parsePart, hcd, hname]
    | some fieldName =>
    cases hidx : indexOf crlfcrlf part with
    | none => simp [parsePart, hcd, hname, hidx]
    | some headerEndIndex =>
    cases hlast : lastIndexOf crlf part with
    | none => simp [parsePart, hcd, hname, hidx, hlast]
    | some contentEnd =>
    by_cases hle : contentEnd ≤ headerEndIndex + 4
    · simp [parsePart, hcd, hname, hidx, hlast, hle]
    · simp [parsePart, hcd, hname, hidx, hlast, hle, hfn]

/-- C5, witness: the file part `name="a"; filename=""` with an empty content
produces no entry. -/
theorem files_entries_nonempty_witness :
    parsePart ⟨[], []⟩ ("\r\nContent-Disposition: form-data; name=\"a\"; filename=\"\"".toList
        ++ (crlfcrlf ++ crlf)) = ⟨[], []⟩ :=
  (files_entries_nonempty [] []).2.1 ⟨[], []⟩
    "\r\nContent-Disposition: form-data; name=\"a\"; filename=\"\"".toList (by decide)

/-- C5, counterexample: the part `name="a"; filename=""` whose content is the
text `filename="x"` produces a `files` entry for its field `a`. -/
theorem files_entries_nonempty_counterexample :
    objGet (parseMultipart bodyEmptyFilenameWithPattern "X".toList).files "a".toList
      = some ⟨"x".toList, bufferFromBinary "filename=\"x\"".toList⟩ := by
  decide

/-! ## Lemmas: the gated routes -/

theorem handle_profile_get (env : Env) (sessions : Sessions) (ql cookie ct : Option Str)
    (body : Buffer) (hsession : getSession sessions cookie = none) :
    handle env sessions ⟨"GET".toList, "/api/profile".toList, ql, cookie, ct, body⟩
      = notAuthenticated sessions := by
  simp [handle, htmlFile, hsession]

theorem handle_profile_put (env : Env) (sessions : Sessions) (ql cookie ct : Option Str)
    (body : Buffer) (hsession : getSession sessions cookie = none) :
    handle env sessions ⟨"PUT".toList, "/api/profile".toList, ql, cookie, ct, body⟩
      = notAuthenticated sessions := by
  simp [handle, htmlFile, hsession]

theorem handle_cart_get (env : Env) (sessions : Sessions) (ql cookie ct : Option Str)
    (body : Buffer) (hsession : getSession sessions cookie = none) :
    handle env sessions ⟨"GET".toList, "/api/cart".toList, ql, cookie, ct, body⟩
      = notAuthenticated sessions := by
  simp [handle, htmlFile, hsession]

theorem handle_cart_post (env : Env) (sessions : Sessions) (ql cookie ct : Option Str)
    (body : Buffer) (hsession : getSession sessions cookie = none) :
    handle env sessions ⟨"POST".toList, "/api/cart".toList, ql, cookie, ct, body⟩
      = notAuthenticated sessions := by
  simp [handle, htmlFile, hsession]

theorem handle_cart_patch (env : Env) (sessions : Sessions) (rest : Str)
    (ql cookie ct : Option Str) (body : Buffer)
    (hsession : getSession sessions cookie = none) :
    handle env sessions ⟨"PATCH".toList, "/api/cart/".toList ++ rest, ql, cookie, ct, body⟩
      = notAuthenticated sessions := by
  simp [handle, htmlFile, hsession, List.isPrefixOf]

theorem handle_cart_delete (env : Env) (sessions : Sessions) (rest : Str)
    (ql cookie ct : Option Str) (body : Buffer)
    (hsession : getSession sessions cookie = none) :
    handle env sessions ⟨"DELETE".toList, "/api/cart/".toList ++ rest, ql, cookie, ct, body⟩
      = notAuthenticated sessions := by
  simp [handle, htmlFile, hsession, List.isPrefixOf]

theorem handle_wishlist_get (env : Env) (sessions : Sessions) (ql cookie ct : Option Str)
    (body : Buffer) (hsession : getSession sessions cookie = none) :
    handle env sessions ⟨"GET".toList, "/api/wishlist".toList, ql, cookie, ct, body⟩
      = notAuthenticated sessions := by
  simp [handle, htmlFile, hsession]

theorem handle_wishlist_post (env : Env) (sessions : Sessions) (ql cookie ct : Option Str)
    (body : Buffer) (hsession : getSession sessions cookie = none) :
    handle env sessions ⟨"POST".toList, "/api/wishlist".toList, ql, cookie, ct, body⟩
      = notAuthenticated sessions := by
  simp [handle, htmlFile, hsession]

theorem handle_wishlist_delete (env : Env) (sessions : Sessions) (rest : Str)
    (ql cookie ct : Option Str) (body : Buffer)
    (hsession : getSession sessions cookie = none) :
    handle env sessions ⟨"DELETE".toList, "/api/wishlist/".toList ++ rest, ql, cookie, ct, body⟩
      = notAuthenticated sessions := by
  simp [handle, htmlFile, hsession, List.isPrefixOf]

theorem eq_append_of_isPrefixOf (pre s : Str) (h : pre.isPrefixOf s = true) :
    ∃ rest, s = pre ++ rest := by
  obtain ⟨rest, hrest⟩ := List.isPrefixOf_iff_prefix.mp h
  exact ⟨rest, hrest.symm⟩

theorem handle_gated (env : Env) (sessions : Sessions) (req : Request)
    (hroute : gatedRoute req.method req.pathname = true)
    (hsession : getSession sessions req.cookie = none) :
    handle env sessions req = notAuthenticated sessions := by
  obtain ⟨method, pathname, queryLimit, cookie, contentType, body⟩ := req
  simp only at hroute hsession
  simp only [gatedRoute, Bool.or_eq_true, Bool.and_eq_true, beq_iff_eq] at hroute
  rcases hroute with (((⟨hp, hm | hm⟩ | ⟨hp, hm | hm⟩) | ⟨hp, hm | hm⟩) | ⟨hp, hm | hm⟩) | ⟨hp, hm⟩
  · subst hp hm; exact handle_profile_get env sessions _ _ _ _ hsession
  · subst hp hm; exact handle_profile_put env sessions _ _ _ _ hsession
  · subst hp hm; exact handle_cart_get env sessions _ _ _ _ hsession
  · subst hp hm; exact handle_cart_post env sessions _ _ _ _ hsession
  · obtain ⟨rest, rfl⟩ := eq_append_of_isPrefixOf _ _ hp
    subst hm; exact handle_cart_patch env sessions rest _ _ _ _ hsession
  · obtain ⟨rest, rfl⟩ := eq_append_of_isPrefixOf _ _ hp
    subst hm; exact handle_cart_delete env sessions rest _ _ _ _ hsession
  · subst hp hm; exact handle_wishlist_get env sessions _ _ _ _ hsession
  · subst hp hm; exact handle_wishlist_post env sessions _ _ _ _ hsession
  · obtain ⟨rest, rfl⟩ := eq_append_of_isPrefixOf _ _ hp
    subst hm; exact handle_wishlist_delete env sessions rest _ _ _ _ hsession

/-! ## Lemmas: logout -/

theorem objGet_sessionsDelete (sessions : Sessions) (id k : Str) :
    objGet (sessionsDelete sessions id) k = if k = id then none else objGet sessions k := by
  induction sessions with
  | nil => simp [sessionsDelete, objGet]
  | cons e rest ih =>
    obtain ⟨a, b⟩ := e
    simp only [sessionsDelete] at ih
    by_cases ha : a = id
    · subst ha
      have hf : ((a, b) :: rest).filter (fun e => e.1 != a) = rest.filter (fun e => e.1 != a) := by
        simp [List.filter_cons]
      by_cases hk : k = a
      · subst hk
        simpa [sessionsDelete, hf, objGet] using ih
      · have hk' : ¬ a = k := fun e => hk e.symm
        simpa [sessionsDelete, hf, objGet, hk, hk'] using ih
    · have hf : ((a, b) :: rest).filter (fun e => e.1 != id)
          = (a, b) :: rest.filter (fun e => e.1 != id) := by
        simp [List.filter_cons, ha]
      by_cases hk : a = k
      · subst hk
        simp [sessionsDelete, hf, objGet, ha]
      · simpa [sessionsDelete, hf, objGet, hk] using ih

theorem handle_logout (env : Env) (sessions : Sessions) (ql cookie ct : Option Str)
    (body : Buffer) :
    handle env sessions ⟨"POST".toList, "/api/logout".toList, ql, cookie, ct, body⟩
      = ⟨loggedOut, [],
          match getSession sessions cookie with
          | some _ =>
            match cookieSessionId cookie with
            | some sessionId =>
              if !sessionId.isEmpty then sessionsDelete sessions sessionId else sessions
            | none => sessions
          | none => sessions⟩ := by
  simp [handle, htmlFile, loggedOut]

theorem getSession_some (sessions : Sessions) (cookie : Option Str) (s : Session)
    (h : getSession sessions cookie = some s) :
    ∃ token, cookieSessionId cookie = some token ∧ token ≠ [] ∧ objGet sessions token = some s := by
  unfold getSession at h
  cases hc : cookieSessionId cookie with
  | none => simp [hc] at h
  | some token =>
    cases ht : token.isEmpty with
    | true => simp [hc, ht] at h
    | false =>
      refine ⟨token, rfl, ?_, ?_⟩
      · intro e; subst e; simp at ht
      · simpa [hc, ht] using h

/-! ## The claims about sessions -/

/-- C6. Auth gating: on every gated route, a request whose cookie resolves to
no session is answered 401 with the JSON object `{ message: 'Not
authenticated' }`; no data-store call and no file write take place and the
session store is left as it was. -/
theorem gated_routes_require_session (env : Env) (sessions : Sessions) (req : Request)
    (hroute : gatedRoute req.method req.pathname = true)
    (hsession : getSession sessions req.cookie = none) :
    (handle env sessions req).response
        = sendJSON 401 (Body.message "Not authenticated".toList)
      ∧ (handle env sessions req).effects = []
      ∧ (handle env sessions req).sessions = sessions := by
  rw [handle_gated env sessions req hroute hsession]
  exact ⟨rfl, rfl, rfl⟩

/-- C6, witness: `DELETE /api/cart/7` with the cookie of an unknown session. -/
theorem gated_routes_require_session_witness :
    (handle testEnv twoSessions ⟨"DELETE".toList, "/api/cart/7".toList, none,
        some "sessionId=nope".toList, none, []⟩).response
        = sendJSON 401 (Body.message "Not authenticated".toList)
      ∧ (handle testEnv twoSessions ⟨"DELETE".toList, "/api/cart/7".toList, none,
        some "sessionId=nope".toList, none, []⟩).effects = []
      ∧ (handle testEnv twoSessions ⟨"DELETE".toList, "/api/cart/7".toList, none,
        some "sessionId=nope".toList, none, []⟩).sessions = twoSessions :=
  gated_routes_require_session testEnv twoSessions
    ⟨"DELETE".toList, "/api/cart/7".toList, none, some "sessionId=nope".toList, none, []⟩
    (by decide) (by decide)

/-- C7, the failing input. When `Math.random()` returns 0.5, whose text in
base 36 is `0.i`, the token returned by `createSession` is the empty string,
and `getSession` on the cookie `sessionId=` followed by that token finds no
session. -/
theorem createSession_empty_token :
    isRandomText "0.i".toList = true
      ∧ (createSession [] "0.i".toList 0 (Prim.num 1)).1 = []
      ∧ getSession (createSession [] "0.i".toList 0 (Prim.num 1)).2
          (some ("sessionId=".toList ++ (createSession [] "0.i".toList 0 (Prim.num 1)).1))
        = none := by
  decide

/-- C8. Logout: when the cookie of the request resolves to a session, after
`POST /api/logout` the store has no entry for the token of the cookie and
`getSession` with the same cookie finds nothing, the entry of every other
token is unchanged; and the response is 200 with the clearing `Set-Cookie`
header for every store and every cookie. -/
theorem logout_deletes_session (env : Env) (sessions : Sessions) (ql cookie ct : Option Str)
    (body : Buffer) (s : Session) (h : getSession sessions cookie = some s) :
    (∃ token, cookieSessionId cookie = some token
        ∧ objGet (handle env sessions
            ⟨"POST".toList, "/api/logout".toList, ql, cookie, ct, body⟩).sessions token = none
        ∧ ∀ other, other ≠ token →
            objGet (handle env sessions
              ⟨"POST".toList, "/api/logout".toList, ql, cookie, ct, body⟩).sessions other
              = objGet sessions other)
      ∧ getSession (handle env sessions
          ⟨"POST".toList, "/api/logout".toList, ql, cookie, ct, body⟩).sessions cookie = none
      ∧ ∀ (sessions' : Sessions) (cookie' : Option Str),
          (handle env sessions'
            ⟨"POST".toList, "/api/logout".toList, ql, cookie', ct, body⟩).response
            = ⟨200, [("Content-Type".toList, "application/json".toList),
                ("Set-Cookie".toList, "sessionId=; HttpOnly; Path=/; Max-Age=0".toList)],
              Body.message "Logged out".toList⟩ := by
  obtain ⟨token, htok, hne, hget⟩ := getSession_some sessions cookie s h
  have hemp : token.isEmpty = false := by
    cases token with
    | nil => exact absurd rfl hne
    | cons c cs => rfl
  have hs : (handle env sessions
      ⟨"POST".toList, "/api/logout".toList, ql, cookie, ct, body⟩).sessions
      = sessionsDelete sessions token := by
    rw [handle_logout]
    simp [h, htok, hemp]
  refine ⟨⟨token, htok, ?_, ?_⟩, ?_, ?_⟩
  · rw [hs, objGet_sessionsDelete]; simp
  · intro other hother
    rw [hs, objGet_sessionsDelete]; simp [hother]
  · rw [hs]
    unfold getSession
    rw [htok]
    simp [hemp, objGet_sessionsDelete]
  · intro sessions' cookie'
    rw [handle_logout]
    rfl

/-- C8, witness: logging out the session `abc` of a store that also holds `xyz`. -/
theorem logout_deletes_session_witness :
    getSession (handle testEnv twoSessions ⟨"POST".toList, "/api/logout".toList, none,
        some "sessionId=abc".toList, none, []⟩).sessions (some "sessionId=abc".toList) = none :=
  (logout_deletes_session testEnv twoSessions none (some "sessionId=abc".toList) none []
    ⟨Prim.num 1, 0⟩ (by decide)).2.1

/-! ## Lemmas: the generated file name -/

theorem length_sanitize (s : Str) : (sanitize s).length = s.length := by
  simp [sanitize]

theorem mem_sanitize (s : Str) : ∀ c ∈ sanitize s, c.isAlphanum = true ∨ c = '_' := by
  intro c hc
  simp only [sanitize, List.mem_map] at hc
  obtain ⟨x, _, rfl⟩ := hc
  by_cases hx : x.isAlphanum = true
  · simp [hx]
  · simp [hx]

theorem slash_not_mem_sanitize (s : Str) : '/' ∉ sanitize s := by
  intro h
  rcases mem_sanitize s '/' h with h | h
  · revert h; decide
  · revert h; decide

theorem digitChar_isDigit : ∀ k, k < 10 → (Nat.digitChar k).isDigit = true := by
  decide

theorem digitChar_value : ∀ k, k < 10 → (Nat.digitChar k).toNat - 48 = k := by
  decide

theorem mem_toDigitsCore : ∀ (fuel n : Nat) (ds : Str) (c : Char),
    c ∈ Nat.toDigitsCore 10 fuel n ds → c ∈ ds ∨ c.isDigit = true := by
  intro fuel
  induction fuel with
  | zero => intro n ds c h; exact Or.inl (by simpa [Nat.toDigitsCore] using h)
  | succ f ih =>
    intro n ds c h
    have hd := digitChar_isDigit (n % 10) (Nat.mod_lt _ (by decide))
    simp only [Nat.toDigitsCore] at h
    split at h
    · rcases List.mem_cons.mp h with h | h
      · exact Or.inr (h ▸ hd)
      · exact Or.inl h
    · rcases ih _ _ c h with h | h
      · rcases List.mem_cons.mp h with h | h
        · exact Or.inr (h ▸ hd)
        · exact Or.inl h
      · exact Or.inr h

theorem mem_decimal (n : Nat) : ∀ c ∈ decimal n, c.isDigit = true := by
  intro c hc
  rcases mem_toDigitsCore (n + 1) n [] c hc with h | h
  · simp at h
  · exact h

theorem decimalValue_toDigitsCore : ∀ (fuel n : Nat) (ds : Str), n < fuel →
    decimalValue (Nat.toDigitsCore 10 fuel n ds) = n * 10 ^ ds.length + decimalValue ds := by
  intro fuel
  induction fuel with
  | zero => intro n ds h; omega
  | succ f ih =>
    intro n ds h
    have hv := digitChar_value (n % 10) (Nat.mod_lt _ (by decide))
    simp only [Nat.toDigitsCore]
    split
    · rename_i h0
      have hn : n % 10 = n := by
        have := Nat.div_add_mod n 10
        omega
      rw [hn] at hv ⊢
      simp only [decimalValue, hv]
    · rename_i h0
      have hlt : n / 10 < f := by
        have : n / 10 < n := Nat.div_lt_self (by omega) (by decide)
        omega
      rw [ih (n / 10) _ hlt]
      simp only [decimalValue, hv, List.length_cons, Nat.pow_succ]
      have := Nat.div_add_mod n 10
      generalize 10 ^ ds.length = k
      calc n / 10 * (k * 10) + (n % 10 * k + decimalValue ds)
          = (10 * (n / 10) + n % 10) * k + decimalValue ds := by ring
        _ = n * k + decimalValue ds := by rw [this]

theorem decimalValue_decimal (n : Nat) : decimalValue (decimal n) = n := by
  have := decimalValue_toDigitsCore (n + 1) n [] (by omega)
  simpa [decimal, Nat.toDigits, decimalValue] using this

theorem decimal_injective (a b : Nat) (h : decimal a = decimal b) : a = b := by
  have := congrArg decimalValue h
  rwa [decimalValue_decimal, decimalValue_decimal] at this

theorem slash_not_mem_lastComponent (p : Str) : '/' ∉ lastComponent p := by
  intro h
  simp only [lastComponent, List.mem_reverse] at h
  have := List.mem_takeWhile_imp h
  simp at this

theorem slash_not_mem_extname (p : Str) : '/' ∉ extname p := by
  intro h
  unfold extname at h
  simp only at h
  split at h
  · simp at h
  · split at h
    · simp at h
    · exact slash_not_mem_lastComponent p (List.mem_of_mem_drop h)

theorem slash_not_mem_decimal (n : Nat) : '/' ∉ decimal n := by
  intro h
  have := mem_decimal n '/' h
  revert this
  decide

theorem slash_not_mem_newFilename (ts : Nat) (filename : Str) :
    '/' ∉ newFilename ts filename := by
  intro h
  simp only [newFilename, List.mem_append, List.mem_cons] at h
  rcases h with h | h | h | h
  · exact slash_not_mem_decimal ts h
  · revert h; decide
  · exact slash_not_mem_sanitize _ h
  · exact slash_not_mem_extname _ h

theorem underscore_mem_newFilename (ts : Nat) (filename : Str) :
    '_' ∈ newFilename ts filename := by
  simp [newFilename]

theorem plainSegment_newFilename (ts : Nat) (filename : Str) :
    plainSegment (newFilename ts filename) = true := by
  have h1 := slash_not_mem_newFilename ts filename
  have h2 := underscore_mem_newFilename ts filename
  have hne : newFilename ts filename ≠ [] := fun e => by rw [e] at h2; simp at h2
  have hd : newFilename ts filename ≠ ['.'] := fun e => by
    rw [e] at h2; revert h2; decide
  have hdd : newFilename ts filename ≠ ['.', '.'] := fun e => by
    rw [e] at h2; revert h2; decide
  simp only [plainSegment, Bool.and_eq_true, Bool.not_eq_true', bne_iff_ne, ne_eq,
    List.all_eq_true]
  refine ⟨⟨⟨?_, hd⟩, hdd⟩, ?_⟩
  · cases hc : newFilename ts filename with
    | nil => exact absurd hc hne
    | cons c cs => rfl
  · intro c hc e
    exact h1 (e ▸ hc)

theorem plainSegment_spec (seg : Str) (h : plainSegment seg = true) :
    seg ≠ [] ∧ seg ≠ ['.'] ∧ seg ≠ ['.', '.'] ∧ '/' ∉ seg := by
  simp only [plainSegment, Bool.and_eq_true, Bool.not_eq_true', bne_iff_ne, ne_eq,
    List.all_eq_true] at h
  obtain ⟨⟨⟨h1, h2⟩, h3⟩, h4⟩ := h
  refine ⟨?_, h2, h3, ?_⟩
  · intro e; subst e; simp at h1
  · intro e
    exact h4 _ e rfl

/-! ## Lemmas: paths -/

theorem slash_not_occurs (p : Str) (h : '/' ∉ p) : ¬ ['/'] <:+: p := by
  intro hin
  exact h (hin.subset (by simp))

theorem splitGo_slash (p rest : Str) (h : '/' ∉ p) :
    splitGo ['/'] 0 [] (p ++ '/' :: rest) = p :: splitGo ['/'] 0 [] rest := by
  have := split_cons_piece ['/'] (by simp) p rest (by
    intro i hi hp
    have hd : p.drop i ≠ [] := by
      intro e
      have := congrArg List.length e
      simp at this
      omega
    cases hq : p.drop i with
    | nil => exact hd hq
    | cons c cs =>
      rw [hq] at hp
      have hc : c ∈ p := List.mem_of_mem_drop (by rw [hq]; simp)
      rcases List.prefix_cons_iff.mp hp with h0 | ⟨t, ht, _⟩
      · simp at h0
      · simp only [List.cons_append, List.cons.injEq] at ht
        exact h (ht.1 ▸ hc))
  simpa using this

theorem pathSegments_nil : pathSegments [] = [] := by decide

theorem pathSegments_slash (p rest : Str) (h : '/' ∉ p) :
    pathSegments (p ++ '/' :: rest) = (if p.isEmpty then [] else [p]) ++ pathSegments rest := by
  unfold pathSegments split
  rw [splitGo_slash p rest h]
  cases p <;> simp [List.filter_cons]

theorem pathSegments_plain (p : Str) (hne : p ≠ []) (h : '/' ∉ p) : pathSegments p = [p] := by
  unfold pathSegments
  rw [split_of_not_occurs ['/'] p (slash_not_occurs p h)]
  cases p with
  | nil => exact absurd rfl hne
  | cons c cs => simp [List.filter_cons]

theorem joinSegments_cons_cons (a b : Str) (l : List Str) :
    joinSegments (a :: b :: l) = a ++ '/' :: joinSegments (b :: l) := rfl

theorem joinSegments_ne_nil (a : Str) (l : List Str) (ha : a ≠ []) :
    joinSegments (a :: l) ≠ [] := by
  cases l with
  | nil => simpa [joinSegments] using ha
  | cons b l => simp [joinSegments_cons_cons, ha]

theorem pathSegments_joinSegments : ∀ (segs : List Str) (tail : Str),
    segs ≠ [] → (∀ seg ∈ segs, plainSegment seg = true) →
    (tail = [] ∨ ∃ r, tail = '/' :: r) →
    pathSegments (joinSegments segs ++ tail) = segs ++ pathSegments tail := by
  intro segs
  induction segs with
  | nil => intro tail h; exact absurd rfl h
  | cons a l ih =>
    intro tail _ hall htail
    obtain ⟨a1, _, _, a4⟩ := plainSegment_spec a (hall a (by simp))
    have hemp : a.isEmpty = false := by
      cases a with
      | nil => exact absurd rfl a1
      | cons c cs => rfl
    cases l with
    | nil =>
      rcases htail with rfl | ⟨r, rfl⟩
      · simp [joinSegments, pathSegments_plain a a1 a4, pathSegments_nil]
      · have h1 := pathSegments_slash a r a4
        have h2 := pathSegments_slash [] r (by simp)
        simp only [List.nil_append] at h2
        simp [joinSegments, h1, h2, hemp]
    | cons b l =>
      have hrest := ih tail (by simp) (fun seg hs => hall seg (by simp [hs])) htail
      rw [joinSegments_cons_cons, List.append_assoc, List.cons_append,
        pathSegments_slash a _ a4, hrest]
      simp [hemp]

theorem normalizeSegments_filter (allow : Bool) : ∀ (segs stack : List Str),
    normalizeSegments allow stack (segs.filter (fun seg => !seg.isEmpty))
      = normalizeSegments allow stack segs := by
  intro segs
  induction segs with
  | nil => intro stack; rfl
  | cons seg rest ih =>
    intro stack
    cases seg with
    | nil => simp [List.filter_cons, normalizeSegments, ih]
    | cons c cs =>
      simp only [List.filter_cons, List.isEmpty_cons, Bool.not_false, if_true]
      unfold normalizeSegments
      split
      · exact ih stack
      · split
        · cases stack with
          | nil => cases allow <;> simp [ih]
          | cons top below => simp only []; split <;> exact ih _
        · exact ih _

theorem normalizeSegments_plain : ∀ (segs stack : List Str),
    (∀ seg ∈ segs, plainSegment seg = true) →
    normalizeSegments false stack segs = segs.reverse ++ stack := by
  intro segs
  induction segs with
  | nil => intro stack _; rfl
  | cons seg rest ih =>
    intro stack h
    obtain ⟨h1, h2, h3, _⟩ := plainSegment_spec seg (h seg (by simp))
    have hrest := ih (seg :: stack) (fun s hs => h s (by simp [hs]))
    unfold normalizeSegments
    simp [h1, h2, h3, hrest]

theorem normalizeSegments_all_plain : ∀ (segs stack : List Str),
    (∀ seg ∈ segs, '/' ∉ seg) → (∀ seg ∈ stack, plainSegment seg = true) →
    ∀ seg ∈ normalizeSegments false stack segs, plainSegment seg = true := by
  intro segs
  induction segs with
  | nil => intro stack _ hs; simpa [normalizeSegments] using hs
  | cons seg rest ih =>
    intro stack h hs
    have hrest : ∀ s ∈ rest, '/' ∉ s := fun s hm => h s (by simp [hm])
    have hseg : '/' ∉ seg := h seg (by simp)
    unfold normalizeSegments
    split
    · exact ih stack hrest hs
    · rename_i hne
      split
      · cases stack with
        | nil => simpa using ih [] hrest (by simp)
        | cons top below =>
          simp only []
          have htop := plainSegment_spec top (hs top (by simp))
          simp only [htop.2.2.1, if_false]
          exact ih below hrest (fun s hm => hs s (by simp [hm]))
      · rename_i hdd
        apply ih (seg :: stack) hrest
        intro s hm
        rcases List.mem_cons.mp hm with rfl | hm
        · simp only [not_or] at hne
          simp only [plainSegment, Bool.and_eq_true, Bool.not_eq_true', bne_iff_ne, ne_eq,
            List.all_eq_true]
          refine ⟨⟨⟨?_, hne.2⟩, hdd⟩, ?_⟩
          · cases s with
            | nil => exact absurd rfl hne.1
            | cons c cs => rfl
          · intro c hc e
            exact hseg (e ▸ hc)
        · exact hs s hm

theorem split_pieces_no_sep_char (c : Char) (s : Str) : ∀ p ∈ split s [c], c ∉ p := by
  intro p hp hc
  have hfree := split_pieces_free [c] s (by simp) p hp
  obtain ⟨a, b, hab⟩ := List.append_of_mem hc
  exact hfree ⟨a, b, by simp [hab]⟩

/-- The segments that `normalize` keeps of an absolute path. -/
theorem pathNormalize_absolute (j : Str) (c : Char) (cs : Str) (hj : j = '/' :: cs ++ [c]) :
    ∃ segs, (∀ seg ∈ segs, plainSegment seg = true)
      ∧ segs = (normalizeSegments false [] (pathSegments j)).reverse
      ∧ pathNormalize j = renderAbsolute segs (c == '/') := by
  refine ⟨(normalizeSegments false [] (pathSegments j)).reverse, ?_, rfl, ?_⟩
  · intro seg hseg
    rw [List.mem_reverse] at hseg
    unfold pathSegments at hseg
    rw [normalizeSegments_filter] at hseg
    exact normalizeSegments_all_plain _ [] (fun s hs => split_pieces_no_sep_char '/' j s hs)
      (by simp) seg hseg
  · unfold pathSegments
    rw [normalizeSegments_filter]
    subst hj
    have hl : ('/' :: (cs ++ [c])).getLast? = some c := by
      rw [← List.cons_append, List.getLast?_concat]
    simp [pathNormalize, renderAbsolute, hl]

theorem renderAbsolute_nil (t : Bool) : renderAbsolute [] t = ['/'] := by
  simp [renderAbsolute, joinSegments]

theorem renderAbsolute_cons (a : Str) (l : List Str) (t : Bool) (ha : a ≠ []) :
    renderAbsolute (a :: l) t
      = '/' :: (joinSegments (a :: l) ++ (if t then ['/'] else [])) := by
  have := joinSegments_ne_nil a l ha
  simp [renderAbsolute, this]

/-- The segments of an absolute path written from plain segments. -/
theorem pathSegments_renderAbsolute (segs : List Str) (t : Bool)
    (h : ∀ seg ∈ segs, plainSegment seg = true) :
    pathSegments (renderAbsolute segs t) = segs := by
  cases segs with
  | nil => rw [renderAbsolute_nil]; decide
  | cons a l =>
    have ha := (plainSegment_spec a (h a (by simp))).1
    rw [renderAbsolute_cons a l t ha]
    have h0 := pathSegments_slash [] (joinSegments (a :: l) ++ (if t then ['/'] else []))
      (by simp)
    simp only [List.nil_append, List.isEmpty_nil, if_true] at h0
    rw [h0, pathSegments_joinSegments (a :: l) _ (by simp) h (by cases t <;> simp)]
    cases t
    · simp [pathSegments_nil]
    · have : pathSegments ['/'] = [] := by decide
      simp [this]

/-- The segments of an absolute directory followed by `/` and a plain name. -/
theorem pathSegments_renderAbsolute_append (segs : List Str) (t : Bool) (name : Str)
    (h : ∀ seg ∈ segs, plainSegment seg = true) (hn : plainSegment name = true) :
    pathSegments (renderAbsolute segs t ++ '/' :: name) = segs ++ [name] := by
  obtain ⟨n1, _, _, n4⟩ := plainSegment_spec name hn
  have hname : pathSegments ('/' :: name) = [name] := by
    have := pathSegments_slash [] name (by simp)
    simpa [pathSegments_plain name n1 n4] using this
  have hname2 : pathSegments ('/' :: '/' :: name) = [name] := by
    have := pathSegments_slash [] ('/' :: name) (by simp)
    simpa [hname] using this
  cases segs with
  | nil =>
    rw [renderAbsolute_nil]
    simpa using hname2
  | cons a l =>
    have ha := (plainSegment_spec a (h a (by simp))).1
    rw [renderAbsolute_cons a l t ha]
    have h0 := pathSegments_slash []
      (joinSegments (a :: l) ++ ((if t then ['/'] else []) ++ '/' :: name)) (by simp)
    simp only [List.nil_append, List.isEmpty_nil, if_true] at h0
    rw [List.cons_append, List.append_assoc, h0,
      pathSegments_joinSegments (a :: l) _ (by simp) h (by cases t <;> simp)]
    cases t
    · simp [hname]
    · simp [hname2]

/-- Joining a plain name to an absolute directory appends one segment. -/
theorem pathJoin_renderAbsolute (segs : List Str) (t : Bool) (name : Str)
    (h : ∀ seg ∈ segs, plainSegment seg = true) (hn : plainSegment name = true) :
    pathJoin [renderAbsolute segs t, name] = renderAbsolute (segs ++ [name]) false := by
  obtain ⟨n1, _, _, n4⟩ := plainSegment_spec name hn
  obtain ⟨body, c, hname⟩ : ∃ body c, name = body ++ [c] :=
    ⟨name.dropLast, name.getLast n1, (List.dropLast_append_getLast n1).symm⟩
  have hc : c ≠ '/' := by
    intro e
    exact n4 (by rw [hname, e]; simp)
  obtain ⟨r, hr⟩ : ∃ r, renderAbsolute segs t = '/' :: r := by
    unfold renderAbsolute
    split
    · exact ⟨[], rfl⟩
    · exact ⟨_, rfl⟩
  have hj : joinSegments [renderAbsolute segs t, name] = '/' :: (r ++ '/' :: body) ++ [c] := by
    simp [joinSegments, hr, hname]
  have hfilter : [renderAbsolute segs t, name].filter (fun a => !a.isEmpty)
      = [renderAbsolute segs t, name] := by
    rw [hr]
    cases name with
    | nil => exact absurd rfl n1
    | cons x xs => simp [List.filter_cons]
  obtain ⟨segs', _, hsegs', hnorm⟩ := pathNormalize_absolute _ c (r ++ '/' :: body) hj
  have hseg2 : pathSegments (joinSegments [renderAbsolute segs t, name]) = segs ++ [name] := by
    have := pathSegments_renderAbsolute_append segs t name h hn
    simpa [joinSegments] using this
  have hplain : ∀ seg ∈ segs ++ [name], plainSegment seg = true := by
    intro seg hs
    rcases List.mem_append.mp hs with hs | hs
    · exact h seg hs
    · simp only [List.mem_singleton] at hs
      exact hs ▸ hn
  rw [hseg2, normalizeSegments_plain _ [] hplain] at hsegs'
  simp only [List.append_nil, List.reverse_reverse] at hsegs'
  have hcf : (c == '/') = false := by simpa using hc
  unfold pathJoin
  rw [hfilter]
  simp only []
  rw [hnorm, hsegs', hcf]

theorem pathNormalize_of_absolute (j : Str) (hj : j.head? = some '/') :
    ∃ segs t, (∀ seg ∈ segs, plainSegment seg = true)
      ∧ pathNormalize j = renderAbsolute segs t := by
  cases j with
  | nil => simp at hj
  | cons x rest =>
    simp only [List.head?_cons, Option.some.injEq] at hj
    subst hj
    cases hrest : rest with
    | nil => exact ⟨[], false, by simp, by decide⟩
    | cons y ys =>
      have hne : rest ≠ [] := by rw [hrest]; simp
      have hdec : '/' :: rest = '/' :: rest.dropLast ++ [rest.getLast hne] := by
        rw [List.cons_append, List.dropLast_append_getLast hne]
      obtain ⟨segs, hplain, _, hnorm⟩ :=
        pathNormalize_absolute ('/' :: rest) (rest.getLast hne) rest.dropLast hdec
      rw [← hrest]
      exact ⟨segs, _, hplain, hnorm⟩

theorem head?_joinSegments (a : Str) (l : List Str) (ha : a ≠ []) :
    (joinSegments (a :: l)).head? = a.head? := by
  cases l with
  | nil => rfl
  | cons b l =>
    rw [joinSegments_cons_cons]
    cases a with
    | nil => exact absurd rfl ha
    | cons c cs => rfl

theorem pathJoin_of_absolute (a : Str) (rest : List Str) (ha : a.head? = some '/') :
    ∃ segs t, (∀ seg ∈ segs, plainSegment seg = true)
      ∧ pathJoin (a :: rest) = renderAbsolute segs t := by
  have hne : a ≠ [] := by
    intro e; subst e; simp at ha
  have hemp : a.isEmpty = false := by
    cases a with
    | nil => exact absurd rfl hne
    | cons c cs => rfl
  have hfilter : (a :: rest).filter (fun x => !x.isEmpty)
      = a :: rest.filter (fun x => !x.isEmpty) := by
    simp [List.filter_cons, hemp]
  have hhead := head?_joinSegments a (rest.filter (fun x => !x.isEmpty)) hne
  rw [ha] at hhead
  obtain ⟨segs, t, hplain, hnorm⟩ := pathNormalize_of_absolute _ hhead
  refine ⟨segs, t, hplain, ?_⟩
  unfold pathJoin
  rw [hfilter]
  exact hnorm

/-- The file is written directly inside the upload directory: its path has
the segments of the directory followed by the generated name. -/
theorem pathSegments_uploadPath (dirname : Str) (ts : Nat) (filename subfolder : Str)
    (habs : dirname.head? = some '/') :
    pathSegments (uploadPath dirname ts filename subfolder)
      = pathSegments (uploadDir dirname subfolder) ++ [newFilename ts filename] := by
  obtain ⟨segs, t, hplain, hdir⟩ := pathJoin_of_absolute dirname
    ["public".toList, "uploads".toList, subfolder] habs
  have hn := plainSegment_newFilename ts filename
  have hplain' : ∀ seg ∈ segs ++ [newFilename ts filename], plainSegment seg = true := by
    intro seg hs
    rcases List.mem_append.mp hs with hs | hs
    · exact hplain seg hs
    · simp only [List.mem_singleton] at hs
      exact hs ▸ hn
  unfold uploadPath uploadDir
  rw [hdir, pathJoin_renderAbsolute segs t _ hplain hn,
    pathSegments_renderAbsolute _ _ hplain', pathSegments_renderAbsolute _ _ hplain]

theorem saveUploadedFile_effects (dirname : Str) (dirExists : Str → Bool) (ts : Nat)
    (fileBuffer : Buffer) (filename subfolder : Str) :
    (saveUploadedFile dirname dirExists ts fileBuffer filename subfolder).effects.getLast?
      = some (FsEffect.write (uploadPath dirname ts filename subfolder) fileBuffer) := by
  simp [saveUploadedFile, uploadPath]

theorem uploadPath_injective (dirname : Str) (ts₁ ts₂ : Nat) (filename subfolder : Str)
    (habs : dirname.head? = some '/')
    (h : uploadPath dirname ts₁ filename subfolder = uploadPath dirname ts₂ filename subfolder) :
    ts₁ = ts₂ := by
  have h1 := pathSegments_uploadPath dirname ts₁ filename subfolder habs
  have h2 := pathSegments_uploadPath dirname ts₂ filename subfolder habs
  rw [h, h2] at h1
  have h3 := List.append_cancel_left h1
  simp only [List.cons.injEq, and_true] at h3
  unfold newFilename at h3
  exact (decimal_injective _ _ (List.append_cancel_right h3)).symm

/-! ## The claims about uploads -/

/-- C9. Upload naming: `saveUploadedFile`, run in an absolute program
directory, writes the payload to the file named `ts_base'ext`, where `ext` is
the extension of the original filename and `base'` its base name with every
character outside `[A-Za-z0-9]` replaced by `_` (same length, only characters
of `[A-Za-z0-9_]`); the name has no `/` and is neither `.` nor `..`; the
written path has the segments of the upload directory followed by that name;
and the returned public path is `/uploads/` + subfolder + `/` + name. -/
theorem saveUploadedFile_naming (dirname : Str) (dirExists : Str → Bool) (ts : Nat)
    (fileBuffer : Buffer) (filename subfolder : Str) (habs : dirname.head? = some '/') :
    (saveUploadedFile dirname dirExists ts fileBuffer filename subfolder).effects.getLast?
        = some (FsEffect.write
            (pathJoin [uploadDir dirname subfolder,
              decimal ts ++ ('_' :: (sanitize (basename filename (extname filename))
                ++ extname filename))])
            fileBuffer)
      ∧ (∀ e ∈ (saveUploadedFile dirname dirExists ts fileBuffer filename subfolder).effects,
          e = FsEffect.mkdir (uploadDir dirname subfolder)
          ∨ e = FsEffect.write (uploadPath dirname ts filename subfolder) fileBuffer)
      ∧ sanitize (basename filename (extname filename))
          = (basename filename (extname filename)).map
              (fun c => if c.isAlphanum then c else '_')
      ∧ (sanitize (basename filename (extname filename))).length
          = (basename filename (extname filename)).length
      ∧ (∀ c ∈ sanitize (basename filename (extname filename)),
          c.isAlphanum = true ∨ c = '_')
      ∧ '/' ∉ newFilename ts filename
      ∧ newFilename ts filename ≠ ['.']
      ∧ newFilename ts filename ≠ ['.', '.']
      ∧ pathSegments (uploadPath dirname ts filename subfolder)
          = pathSegments (uploadDir dirname subfolder) ++ [newFilename ts filename]
      ∧ (saveUploadedFile dirname dirExists ts fileBuffer filename subfolder).publicPath
          = "/uploads/".toList ++ (subfolder ++ ('/' :: newFilename ts filename)) := by
  obtain ⟨_, p2, p3, _⟩ := plainSegment_spec _ (plainSegment_newFilename ts filename)
  refine ⟨saveUploadedFile_effects _ _ _ _ _ _, ?_, rfl, length_sanitize _, mem_sanitize _,
    slash_not_mem_newFilename ts filename, p2, p3,
    pathSegments_uploadPath dirname ts filename subfolder habs, rfl⟩
  intro e he
  simp only [saveUploadedFile, List.mem_append, List.mem_singleton] at he
  rcases he with he | he
  · left
    split at he
    · simpa using he
    · simp at he
  · right
    exact he

/-- C9, witness: the upload of `../my photo.v2.PNG` into `books`. -/
theorem saveUploadedFile_naming_witness :
    (saveUploadedFile "/srv/app".toList (fun _ => false) 1700000000000 [1, 2]
        "../my photo.v2.PNG".toList "books".toList).publicPath
      = "/uploads/".toList ++ ("books".toList
          ++ ('/' :: newFilename 1700000000000 "../my photo.v2.PNG".toList)) :=
  (saveUploadedFile_naming "/srv/app".toList (fun _ => false) 1700000000000 [1, 2]
    "../my photo.v2.PNG".toList "books".toList (by decide)).2.2.2.2.2.2.2.2.2

/-- C10 (as amended). For two calls of `saveUploadedFile` with the same
original filename and the same subfolder, whatever the two payloads, each
call writes to the path given by its timestamp, and the two paths are equal
exactly when the two millisecond timestamps are equal. -/
theorem upload_paths_differ_iff (dirname : Str) (dirExists : Str → Bool) (ts₁ ts₂ : Nat)
    (payload₁ payload₂ : Buffer) (filename subfolder : Str)
    (habs : dirname.head? = some '/') :
    (saveUploadedFile dirname dirExists ts₁ payload₁ filename subfolder).effects.getLast?
        = some (FsEffect.write (uploadPath dirname ts₁ filename subfolder) payload₁)
      ∧ (saveUploadedFile dirname dirExists ts₂ payload₂ filename subfolder).effects.getLast?
        = some (FsEffect.write (uploadPath dirname ts₂ filename subfolder) payload₂)
      ∧ (uploadPath dirname ts₁ filename subfolder = uploadPath dirname ts₂ filename subfolder
          ↔ ts₁ = ts₂) := by
  refine ⟨saveUploadedFile_effects _ _ _ _ _ _, saveUploadedFile_effects _ _ _ _ _ _, ?_, ?_⟩
  · exact uploadPath_injective dirname ts₁ ts₂ filename subfolder habs
  · intro h; rw [h]

/-- C10, witness: two uploads of `a.png` one millisecond apart go to different paths. -/
theorem upload_paths_differ_iff_witness :
    (uploadPath "/srv/app".toList 5 "a.png".toList "books".toList
        = uploadPath "/srv/app".toList 6 "a.png".toList "books".toList ↔ 5 = 6) :=
  (upload_paths_differ_iff "/srv/app".toList (fun _ => true) 5 6 [1] [2] "a.png".toList
    "books".toList (by decide)).2.2

/-- C10, counterexample: two different payloads stored under the same
original filename, in the same subfolder and in the same millisecond are
written to the same path. -/
theorem upload_collision_counterexample :
    ([1] : Buffer) ≠ [2]
      ∧ (saveUploadedFile "/srv/app".toList (fun _ => true) 5 [1] "a.png".toList
          "books".toList).effects
        = [FsEffect.write "/srv/app/public/uploads/books/5_a.png".toList [1]]
      ∧ (saveUploadedFile "/srv/app".toList (fun _ => true) 5 [2] "a.png".toList
          "books".toList).effects
        = [FsEffect.write "/srv/app/public/uploads/books/5_a.png".toList [2]] := by
  decide

/-! ## Lemmas: a session that was created is found -/

theorem splitGo_char (c : Char) (p rest : Str) (h : c ∉ p) :
    splitGo [c] 0 [] (p ++ c :: rest) = p :: splitGo [c] 0 [] rest := by
  have := split_cons_piece [c] (by simp) p rest (by
    intro i hi hp
    cases hq : p.drop i with
    | nil =>
      have := congrArg List.length hq
      simp at this
      omega
    | cons x xs =>
      rw [hq] at hp
      have hx : x ∈ p := List.mem_of_mem_drop (by rw [hq]; simp)
      rcases List.prefix_cons_iff.mp hp with h0 | ⟨t, ht, _⟩
      · simp at h0
      · simp only [List.cons_append, List.cons.injEq] at ht
        exact h (ht.1 ▸ hx))
  simpa using this

theorem split_char_none (c : Char) (p : Str) (h : c ∉ p) : split p [c] = [p] :=
  split_of_not_occurs [c] p (fun hin => h (hin.subset (by simp)))

theorem not_whitespace_of_base36 (c : Char) (h : isBase36Digit c = true) :
    isJsWhitespace c = false := by
  cases hw : isJsWhitespace c with
  | false => rfl
  | true =>
    exfalso
    have hc : c = Char.ofNat c.toNat := (Char.ofNat_toNat c).symm
    simp only [isJsWhitespace, Bool.or_eq_true, beq_iff_eq, Bool.and_eq_true,
      decide_eq_true_eq] at hw
    have key : ∀ k : Nat, c.toNat = k → isBase36Digit (Char.ofNat k) = false → False := by
      intro k hk hf
      rw [hc, hk, hf] at h
      exact absurd h (by simp)
    rcases hw with ((((((((((((((hw | hw) | hw) | hw) | hw) | hw) | hw) | hw) | hw) | hw) | hw)
      | hw) | hw) | hw) | hw)
    all_goals first
      | exact key _ hw (by decide)
      | (obtain ⟨h1, h2⟩ := hw
         generalize hk : c.toNat = k at h1 h2
         interval_cases k <;> exact key _ hk (by decide))

theorem trim_eq_self (s : Str) (x y : Char) (body : Str) (hs : s = x :: (body ++ [y]))
    (hx : isJsWhitespace x = false) (hy : isJsWhitespace y = false) : trim s = s := by
  subst hs
  have h1 : (x :: (body ++ [y])).dropWhile isJsWhitespace = x :: (body ++ [y]) := by
    simp [List.dropWhile_cons, hx]
  have h2 : (x :: (body ++ [y])).reverse = y :: (x :: body).reverse := by simp
  unfold trim
  rw [h1, h2]
  simp [List.dropWhile_cons, hy]

/-- A created session whose token is not empty is found from its cookie. -/
theorem getSession_createSession (sessions : Sessions) (randomText : Str) (now : Nat)
    (userId : Prim) (hrandom : isRandomText randomText = true)
    (htoken : (createSession sessions randomText now userId).1 ≠ []) :
    getSession (createSession sessions randomText now userId).2
        (some ("sessionId=".toList ++ (createSession sessions randomText now userId).1))
      = some ⟨userId, now⟩ := by
  simp only [createSession] at htoken ⊢
  generalize ht : randomText.drop 7 = t at htoken ⊢
  have hdigits : ∀ c ∈ t, isBase36Digit c = true := by
    simp only [isRandomText, Bool.or_eq_true, Bool.and_eq_true, beq_iff_eq,
      List.all_eq_true] at hrandom
    rcases hrandom with h | ⟨_, h⟩
    · subst h
      simp at ht
      exact absurd ht.symm (fun e => htoken e.symm)
    · intro c hc
      apply h c
      have : t = (randomText.drop 2).drop 5 := by rw [List.drop_drop, ← ht]
      rw [this] at hc
      exact List.mem_of_mem_drop hc
  have hsemi : ';' ∉ "sessionId=".toList ++ t := by
    intro h
    rcases List.mem_append.mp h with h | h
    · revert h; decide
    · have := hdigits _ h; revert this; decide
  have heq : '=' ∉ t := by
    intro h
    have := hdigits _ h; revert this; decide
  have hlast : isJsWhitespace (t.getLast htoken) = false :=
    not_whitespace_of_base36 _ (hdigits _ (List.getLast_mem htoken))
  have htrim : trim ("sessionId=".toList ++ t) = "sessionId=".toList ++ t := by
    apply trim_eq_self _ 's' (t.getLast htoken) ("essionId=".toList ++ t.dropLast)
    · have := List.dropLast_append_getLast htoken
      conv => lhs; rw [← this]
      simp
    · decide
    · exact hlast
  have hsplit : split ("sessionId=".toList ++ t) ['='] = ["sessionId".toList, t] := by
    have h1 := splitGo_char '=' "sessionId".toList t (by decide)
    have h2 := split_char_none '=' t heq
    unfold split at h2 ⊢
    have e : "sessionId=".toList ++ t = "sessionId".toList ++ '=' :: t := by simp
    rw [e, h1, h2]
  have hcookies : parseCookies ("sessionId=".toList ++ t) = [("sessionId".toList, some t)] := by
    unfold parseCookies
    rw [split_char_none ';' _ hsemi]
    simp only [List.foldl_cons, List.foldl_nil, htrim, hsplit]
    simp [assignProp, protoKey, objSet]
  have hemp : t.isEmpty = false := by
    cases t with
    | nil => exact absurd rfl htoken
    | cons c cs => rfl
  unfold getSession cookieSessionId
  simp only [hcookies]
  simp [objGet, hemp, objGet_objSet]

/-! ## Lemmas: running a `try` block -/

theorem run_pure {α : Type} (a : α) (st : List Effect × Sessions) :
    (pure a : Try α).run.run st = (.ok a, st) := rfl

theorem run_bind {α β : Type} (x : Try α) (f : α → Try β) (st : List Effect × Sessions) :
    (x >>= f).run.run st =
      match x.run.run st with
      | (.ok a, st') => (f a).run.run st'
      | (.error e, st') => (.error e, st') := by
  show (ExceptT.bind x f).run.run st = _
  simp only [ExceptT.bind, ExceptT.run, ExceptT.mk, StateT.run, bind, StateT.bind,
    ExceptT.bindCont]
  cases h : x st with
  | mk r st' =>
    cases r <;> rfl

theorem run_callDb (env : Env) (fn : String) (args : List JsVal) (st : List Effect × Sessions) :
    (callDb env fn args).run.run st =
      (env.db fn.toList args, (st.1 ++ [Effect.db fn.toList args], st.2)) := by
  unfold callDb
  rw [run_bind]
  cases h : env.db fn.toList args <;> rfl

theorem run_readJson (env : Env) (body : Buffer) (st : List Effect × Sessions) :
    (readJson env body).run.run st = (env.parseJson body, st) := by
  unfold readJson
  cases h : env.parseJson body <;> rfl

/-! ## Lemmas: login -/

theorem handle_login (env : Env) (sessions : Sessions) (ql cookie ct : Option Str)
    (body : Buffer) (data : Str → JsVal) (user : JsVal)
    (hjson : env.parseJson body = .ok data)
    (hdb : env.db "getUserByEmail".toList [data "email".toList] = .ok user) :
    handle env sessions ⟨"POST".toList, "/api/login".toList, ql, cookie, ct, body⟩
      = if (!user.truthy || strictNe (user.get "password") (data "password".toList)) = true then
          ⟨sendJSON 401 (Body.message "Invalid email or password".toList),
            [Effect.db "getUserByEmail".toList [data "email".toList]], sessions⟩
        else
          ⟨⟨200, [("Content-Type".toList, "application/json".toList),
              ("Set-Cookie".toList, "sessionId=".toList
                ++ ((createSession sessions env.randomText env.now (user.get "id")).1
                ++ "; HttpOnly; Path=/".toList))],
            Body.loginSuccessful (user.get "id") (user.get "name") (user.get "email")⟩,
            [Effect.db "getUserByEmail".toList [data "email".toList]],
            (createSession sessions env.randomText env.now (user.get "id")).2⟩ := by
  unfold handle
  simp only []
  rw [if_neg (by decide), if_neg (by decide), if_neg (by decide), if_neg (by decide),
    if_neg (by decide), if_neg (by decide), if_neg (by decide), if_pos (by decide)]
  unfold runTry
  rw [run_bind, run_readJson, hjson]
  simp only []
  rw [run_bind, run_callDb, hdb]
  simp only []
  by_cases hbad : (!user.truthy || strictNe (user.get "password") (data "password".toList)) = true
  · simp only [if_pos hbad]
    rfl
  · simp only [if_neg hbad]
    rfl

/-! ## Lemmas: the parameterized endpoints -/

theorem run_callSaveUploadedFile (env : Env) (data : Buffer) (filename subfolder : Str)
    (st : List Effect × Sessions) :
    ∃ r extra, (callSaveUploadedFile env data filename subfolder).run.run st
        = (r, (st.1 ++ extra, st.2))
      ∧ ∀ fn args, Effect.db fn args ∉ extra := by
  unfold callSaveUploadedFile
  simp only []
  cases hd : env.dirExists (uploadDir env.dirname subfolder) <;>
    cases hw : env.writeError (uploadPath env.dirname env.now filename subfolder)
  · refine ⟨.ok (saveUploadedFile env.dirname env.dirExists env.now data filename
        subfolder).publicPath,
      [Effect.fs (FsEffect.mkdir (uploadDir env.dirname subfolder)),
        Effect.fs (FsEffect.write (uploadPath env.dirname env.now filename subfolder) data)],
      ?_, by simp⟩
    have e : st.1 ++ [Effect.fs (FsEffect.mkdir (uploadDir env.dirname subfolder)),
        Effect.fs (FsEffect.write (uploadPath env.dirname env.now filename subfolder) data)]
        = (st.1 ++ [Effect.fs (FsEffect.mkdir (uploadDir env.dirname subfolder))])
          ++ [Effect.fs (FsEffect.write (uploadPath env.dirname env.now filename subfolder)
            data)] := by simp
    rw [e]
    rfl
  · rename_i e
    exact ⟨.error e, [Effect.fs (FsEffect.mkdir (uploadDir env.dirname subfolder))], rfl,
      by simp⟩
  · exact ⟨.ok (saveUploadedFile env.dirname env.dirExists env.now data filename
        subfolder).publicPath,
      [Effect.fs (FsEffect.write (uploadPath env.dirname env.now filename subfolder) data)],
      rfl, by simp⟩
  · rename_i e
    refine ⟨.error e, [], ?_, by simp⟩
    rw [List.append_nil]
    rfl

theorem run_uploadOf (env : Env) (files : List (Str × FileEntry)) (key subfolder : String)
    (st : List Effect × Sessions) :
    ∃ r extra, (uploadOf env files key subfolder).run.run st = (r, (st.1 ++ extra, st.2))
      ∧ ∀ fn args, Effect.db fn args ∉ extra := by
  unfold uploadOf
  cases ho : objGet files key.toList with
  | none => exact ⟨.ok (JsVal.prim Prim.null), [], by simp [run_pure], by simp⟩
  | some entry =>
    simp only []
    by_cases hl : entry.data.length > 0
    · rw [if_pos hl, run_bind]
      obtain ⟨r, extra, hrun, hno⟩ :=
        run_callSaveUploadedFile env entry.data entry.filename subfolder.toList st
      rw [hrun]
      cases r with
      | ok v => exact ⟨_, extra, rfl, hno⟩
      | error e => exact ⟨_, extra, rfl, hno⟩
    · rw [if_neg hl]
      exact ⟨.ok (JsVal.prim Prim.null), [], by simp [run_pure], by simp⟩

theorem run_readBook (env : Env) (req : Request) (st : List Effect × Sessions) :
    ∃ r extra, (readBook env req).run.run st = (r, (st.1 ++ extra, st.2))
      ∧ ∀ fn args, Effect.db fn args ∉ extra := by
  unfold readBook
  by_cases hm : isMultipart req.contentType = true
  · rw [if_pos hm]
    simp only []
    rw [run_bind]
    obtain ⟨r, extra, hrun, hno⟩ := run_uploadOf env
      (parseMultipart req.body (boundaryOf req.contentType)).files "image" "books" st
    rw [hrun]
    cases r with
    | ok v => exact ⟨_, extra, rfl, hno⟩
    | error e => exact ⟨_, extra, rfl, hno⟩
  · rw [if_neg hm, run_bind, run_readJson]
    cases hj : env.parseJson req.body with
    | ok data =>
      exact ⟨.ok [data "title".toList, data "author".toList,
        env.parseFloat (data "price".toList), data "image".toList], [], by simp [run_pure],
        by simp⟩
    | error e => exact ⟨.error e, [], by simp, by simp⟩

theorem dbArgsStartWith_nil (v : JsVal) : dbArgsStartWith [] v := by
  intro fn args h
  cases h

theorem dbArgsStartWith_cons (fn : Str) (v : JsVal) (args : List JsVal) (effects : List Effect) :
    dbArgsStartWith (Effect.db fn (v :: args) :: effects) v ↔ dbArgsStartWith effects v := by
  constructor
  · intro h fn2 args2 hmem
    exact h fn2 args2 (List.mem_cons_of_mem _ hmem)
  · intro h fn2 args2 hmem
    rcases List.mem_cons.mp hmem with heq | hmem2
    · cases heq
      rfl
    · exact h fn2 args2 hmem2

theorem handle_wishlist_delete_session (env : Env) (sessions : Sessions) (rest : Str)
    (ql cookie ct : Option Str) (body : Buffer) (session : Session)
    (hsession : getSession sessions cookie = some session) :
    handle env sessions ⟨"DELETE".toList, "/api/wishlist/".toList ++ rest, ql, cookie, ct, body⟩
      = match env.db "removeFromWishlist".toList
            [JsVal.prim (parseInt (lastPiece ("/api/wishlist/".toList ++ rest)))] with
        | .ok _ => ⟨sendJSON 200 (Body.message "Item removed from wishlist".toList),
            [Effect.db "removeFromWishlist".toList
              [JsVal.prim (parseInt (lastPiece ("/api/wishlist/".toList ++ rest)))]], sessions⟩
        | .error _ => ⟨sendJSON 500 (Body.message "Server error".toList),
            [Effect.db "removeFromWishlist".toList
              [JsVal.prim (parseInt (lastPiece ("/api/wishlist/".toList ++ rest)))]], sessions⟩ := by
  unfold handle
  simp only []
  iterate 17 rw [if_neg (by simp [List.isPrefixOf])]
  rw [if_pos (by simp [List.isPrefixOf]), hsession]
  simp only []
  unfold runTry
  rw [run_bind, run_callDb]
  cases h : env.db "removeFromWishlist".toList
    [JsVal.prim (parseInt (lastPiece ("/api/wishlist/".toList ++ rest)))] <;> rfl

theorem handle_cart_delete_session (env : Env) (sessions : Sessions) (rest : Str)
    (ql cookie ct : Option Str) (body : Buffer) (session : Session)
    (hsession : getSession sessions cookie = some session) :
    handle env sessions ⟨"DELETE".toList, "/api/cart/".toList ++ rest, ql, cookie, ct, body⟩
      = match env.db "removeFromCart".toList
            [JsVal.prim (parseInt (lastPiece ("/api/cart/".toList ++ rest)))] with
        | .ok _ => ⟨sendJSON 200 (Body.message "Item removed from cart".toList),
            [Effect.db "removeFromCart".toList
              [JsVal.prim (parseInt (lastPiece ("/api/cart/".toList ++ rest)))]], sessions⟩
        | .error _ => ⟨sendJSON 500 (Body.message "Server error".toList),
            [Effect.db "removeFromCart".toList
              [JsVal.prim (parseInt (lastPiece ("/api/cart/".toList ++ rest)))]], sessions⟩ := by
  unfold handle
  simp only []
  iterate 14 rw [if_neg (by simp [List.isPrefixOf])]
  rw [if_pos (by simp [List.isPrefixOf]), hsession]
  simp only []
  unfold runTry
  rw [run_bind, run_callDb]
  cases h : env.db "removeFromCart".toList
    [JsVal.prim (parseInt (lastPiece ("/api/cart/".toList ++ rest)))] <;> rfl

theorem handle_cart_patch_session (env : Env) (sessions : Sessions) (rest : Str)
    (ql cookie ct : Option Str) (body : Buffer) (session : Session)
    (hsession : getSession sessions cookie = some session) :
    handle env sessions ⟨"PATCH".toList, "/api/cart/".toList ++ rest, ql, cookie, ct, body⟩
      = match env.parseJson body with
        | .error _ => ⟨sendJSON 500 (Body.message "Server error".toList), [], sessions⟩
        | .ok data =>
          match env.db "updateCartQuantity".toList
              [JsVal.prim (parseInt (lastPiece ("/api/cart/".toList ++ rest))),
                data "quantity".toList] with
          | .ok updated => ⟨sendJSON 200 (Body.value updated),
              [Effect.db "updateCartQuantity".toList
                [JsVal.prim (parseInt (lastPiece ("/api/cart/".toList ++ rest))),
                  data "quantity".toList]], sessions⟩
          | .error _ => ⟨sendJSON 500 (Body.message "Server error".toList),
              [Effect.db "updateCartQuantity".toList
                [JsVal.prim (parseInt (lastPiece ("/api/cart/".toList ++ rest))),
                  data "quantity".toList]], sessions⟩ := by
  unfold handle
  simp only []
  iterate 13 rw [if_neg (by simp [List.isPrefixOf])]
  rw [if_pos (by simp [List.isPrefixOf]), hsession]
  simp only []
  unfold runTry
  rw [run_bind, run_readJson]
  cases hj : env.parseJson body with
  | error e => rfl
  | ok data =>
    simp only []
    rw [run_bind, run_callDb]
    cases h : env.db "updateCartQuantity".toList
      [JsVal.prim (parseInt (lastPiece ("/api/cart/".toList ++ rest))),
        data "quantity".toList] <;> rfl

theorem handle_books_delete (env : Env) (sessions : Sessions) (rest : Str)
    (ql cookie ct : Option Str) (body : Buffer) :
    handle env sessions ⟨"DELETE".toList, "/api/books/".toList ++ rest, ql, cookie, ct, body⟩
      = match env.db "getBookById".toList
            [JsVal.prim (parseInt (lastPiece ("/api/books/".toList ++ rest)))] with
        | .error e => ⟨sendJSON 500 (Body.message ("Failed to delete book: ".toList ++ e)),
            [Effect.db "getBookById".toList
              [JsVal.prim (parseInt (lastPiece ("/api/books/".toList ++ rest)))]], sessions⟩
        | .ok book =>
          if (!book.truthy) = true then
            ⟨sendJSON 404 (Body.message "Book not found".toList),
              [Effect.db "getBookById".toList
                [JsVal.prim (parseInt (lastPiece ("/api/books/".toList ++ rest)))]], sessions⟩
          else
            match env.db "deleteCartByBookId".toList
                [JsVal.prim (parseInt (lastPiece ("/api/books/".toList ++ rest)))] with
            | .error e => ⟨sendJSON 500 (Body.message ("Failed to delete book: ".toList ++ e)),
                [Effect.db "getBookById".toList
                  [JsVal.prim (parseInt (lastPiece ("/api/books/".toList ++ rest)))],
                 Effect.db "deleteCartByBookId".toList
                  [JsVal.prim (parseInt (lastPiece ("/api/books/".toList ++ rest)))]], sessions⟩
            | .ok _ =>
              match env.db "deleteWishlistByBookId".toList
                  [JsVal.prim (parseInt (lastPiece ("/api/books/".toList ++ rest)))] with
              | .error e =>
                ⟨sendJSON 500 (Body.message ("Failed to delete book: ".toList ++ e)),
                  [Effect.db "getBookById".toList
                    [JsVal.prim (parseInt (lastPiece ("/api/books/".toList ++ rest)))],
                   Effect.db "deleteCartByBookId".toList
                    [JsVal.prim (parseInt (lastPiece ("/api/books/".toList ++ rest)))],
                   Effect.db "deleteWishlistByBookId".toList
                    [JsVal.prim (parseInt (lastPiece ("/api/books/".toList ++ rest)))]],
                  sessions⟩
              | .ok _ =>
                match env.db "deleteBook".toList
                    [JsVal.prim (parseInt (lastPiece ("/api/books/".toList ++ rest)))] with
                | .error e =>
                  ⟨sendJSON 500 (Body.message ("Failed to delete book: ".toList ++ e)),
                    [Effect.db "getBookById".toList
                      [JsVal.prim (parseInt (lastPiece ("/api/books/".toList ++ rest)))],
                     Effect.db "deleteCartByBookId".toList
                      [JsVal.prim (parseInt (lastPiece ("/api/books/".toList ++ rest)))],
                     Effect.db "deleteWishlistByBookId".toList
                      [JsVal.prim (parseInt (lastPiece ("/api/books/".toList ++ rest)))],
                     Effect.db "deleteBook".toList
                      [JsVal.prim (parseInt (lastPiece ("/api/books/".toList ++ rest)))]],
                    sessions⟩
                | .ok _ =>
                  ⟨sendJSON 200 (Body.message "Book deleted successfully".toList),
                    [Effect.db "getBookById".toList
                      [JsVal.prim (parseInt (lastPiece ("/api/books/".toList ++ rest)))],
                     Effect.db "deleteCartByBookId".toList
                      [JsVal.prim (parseInt (lastPiece ("/api/books/".toList ++ rest)))],
                     Effect.db "deleteWishlistByBookId".toList
                      [JsVal.prim (parseInt (lastPiece ("/api/books/".toList ++ rest)))],
                     Effect.db "deleteBook".toList
                      [JsVal.prim (parseInt (lastPiece ("/api/books/".toList ++ rest)))]],
                    sessions⟩ := by
  unfold handle
  simp only []
  iterate 5 rw [if_neg (by simp [List.isPrefixOf])]
  rw [if_pos (by simp [List.isPrefixOf])]
  unfold runTry
  rw [run_bind, run_callDb]
  cases h1 : env.db "getBookById".toList
    [JsVal.prim (parseInt (lastPiece ("/api/books/".toList ++ rest)))] with
  | error e => rfl
  | ok book =>
    simp only []
    by_cases hb : (!book.truthy) = true
    · simp only [if_pos hb]
      rfl
    · simp only [if_neg hb]
      rw [run_bind, run_callDb]
      cases h2 : env.db "deleteCartByBookId".toList
        [JsVal.prim (parseInt (lastPiece ("/api/books/".toList ++ rest)))] with
      | error e => rfl
      | ok v2 =>
        simp only []
        rw [run_bind, run_callDb]
        cases h3 : env.db "deleteWishlistByBookId".toList
          [JsVal.prim (parseInt (lastPiece ("/api/books/".toList ++ rest)))] with
        | error e => rfl
        | ok v3 =>
          simp only []
          rw [run_bind, run_callDb]
          cases h4 : env.db "deleteBook".toList
            [JsVal.prim (parseInt (lastPiece ("/api/books/".toList ++ rest)))] <;> rfl

theorem handle_books_put (env : Env) (sessions : Sessions) (rest : Str)
    (ql cookie ct : Option Str) (body : Buffer) :
    ((handle env sessions
        ⟨"PUT".toList, "/api/books/".toList ++ rest, ql, cookie, ct, body⟩).response.status = 200
      ∨ (handle env sessions
        ⟨"PUT".toList, "/api/books/".toList ++ rest, ql, cookie, ct, body⟩).response.status = 500)
    ∧ dbArgsStartWith (handle env sessions
        ⟨"PUT".toList, "/api/books/".toList ++ rest, ql, cookie, ct, body⟩).effects
        (JsVal.prim (parseInt ((split ("/api/books/".toList ++ rest) ['/']).get? 3))) := by
  unfold handle
  simp only []
  iterate 4 rw [if_neg (by simp [List.isPrefixOf])]
  rw [if_pos (by simp [List.isPrefixOf])]
  unfold runTry
  obtain ⟨r, extra, hrun, hno⟩ := run_readBook env
    ⟨"PUT".toList, "/api/books/".toList ++ rest, ql, cookie, ct, body⟩ ([], sessions)
  rw [run_bind, hrun]
  cases r with
  | error e =>
    simp only []
    refine ⟨Or.inr rfl, ?_⟩
    intro fn args hmem
    have hmem2 : Effect.db fn args ∈ extra := hmem
    exact absurd hmem2 (hno fn args)
  | ok bookArgs =>
    simp only []
    rw [run_bind, run_callDb]
    cases hdb : env.db "updateBook".toList
        (JsVal.prim (parseInt ((split ("/api/books/".toList ++ rest) ['/']).get? 3))
          :: bookArgs) with
    | error e =>
      simp only []
      refine ⟨Or.inr rfl, ?_⟩
      intro fn args hmem
      have hmem2 : Effect.db fn args ∈ extra ++ [Effect.db "updateBook".toList
          (JsVal.prim (parseInt ((split ("/api/books/".toList ++ rest) ['/']).get? 3))
            :: bookArgs)] := hmem
      rcases List.mem_append.mp hmem2 with h | h
      · exact absurd h (hno fn args)
      · rw [List.mem_singleton] at h
        cases h
        rfl
    | ok v =>
      simp only []
      refine ⟨Or.inl rfl, ?_⟩
      intro fn args hmem
      have hmem2 : Effect.db fn args ∈ extra ++ [Effect.db "updateBook".toList
          (JsVal.prim (parseInt ((split ("/api/books/".toList ++ rest) ['/']).get? 3))
            :: bookArgs)] := hmem
      rcases List.mem_append.mp hmem2 with h | h
      · exact absurd h (hno fn args)
      · rw [List.mem_singleton] at h
        cases h
        rfl

/-! ## The claims about the dispatcher -/

/-- C11 (as amended). The id of a parameterized endpoint is not validated: for
every request to `PUT`/`DELETE /api/books/{id}`, `PATCH`/`DELETE /api/cart/{id}`
or `DELETE /api/wishlist/{id}` whose id piece `parseInt` reads as `NaN`, the
status is 200, 401, 404 or 500; it is 401 exactly when the route is a cart or
wishlist route and the request has no session; it is 404 exactly on `DELETE
/api/books/{id}` when the lookup of the book with id `NaN` returns nothing; and
every call made to the data store has `NaN` as its first argument. -/
theorem invalid_id_not_rejected (env : Env) (sessions : Sessions) (req : Request)
    (hroute : idRoute req.method req.pathname = true)
    (hid : parseInt (idSegment req.method req.pathname) = Prim.nan) :
    ((handle env sessions req).response.status = 200
        ∨ (handle env sessions req).response.status = 401
        ∨ (handle env sessions req).response.status = 404
        ∨ (handle env sessions req).response.status = 500)
      ∧ ((handle env sessions req).response.status = 401
          ↔ gatedRoute req.method req.pathname = true ∧ getSession sessions req.cookie = none)
      ∧ ((handle env sessions req).response.status = 404
          ↔ "/api/books/".toList.isPrefixOf req.pathname = true ∧ req.method = "DELETE".toList
            ∧ ∃ book, env.db "getBookById".toList [JsVal.prim Prim.nan] = .ok book
                ∧ book.truthy = false)
      ∧ dbArgsStartWith (handle env sessions req).effects (JsVal.prim Prim.nan) := by
  obtain ⟨method, pathname, ql, cookie, ct, body⟩ := req
  simp only at hroute hid ⊢
  simp only [idRoute, Bool.or_eq_true, Bool.and_eq_true, beq_iff_eq] at hroute
  rcases hroute with (⟨hp, hm | hm⟩ | ⟨hp, hm | hm⟩) | ⟨hp, hm⟩
  · obtain ⟨rest, rfl⟩ := eq_append_of_isPrefixOf _ _ hp
    subst hm
    have hseg : idSegment "PUT".toList ("/api/books/".toList ++ rest)
        = (split ("/api/books/".toList ++ rest) ['/']).get? 3 := by
      simp [idSegment, List.isPrefixOf]
    rw [hseg] at hid
    obtain ⟨hst, hdb⟩ := handle_books_put env sessions rest ql cookie ct body
    rw [hid] at hdb
    have hg : gatedRoute "PUT".toList ("/api/books/".toList ++ rest) = false := by
      simp [gatedRoute, List.isPrefixOf]
    refine ⟨?_, ?_, ?_, hdb⟩
    · rcases hst with h | h
      · exact Or.inl h
      · exact Or.inr (Or.inr (Or.inr h))
    · rw [hg]
      constructor
      · intro h401
        rcases hst with h | h <;> omega
      · intro h
        exact absurd h.1 (by simp)
    · constructor
      · intro h404
        rcases hst with h | h <;> omega
      · rintro ⟨_, hm, _⟩
        exact absurd hm (by decide)
  · obtain ⟨rest, rfl⟩ := eq_append_of_isPrefixOf _ _ hp
    subst hm
    have hseg : idSegment "DELETE".toList ("/api/books/".toList ++ rest)
        = lastPiece ("/api/books/".toList ++ rest) := by
      simp [idSegment, List.isPrefixOf]
    rw [hseg] at hid
    rw [handle_books_delete, hid]
    cases h1 : env.db "getBookById".toList [JsVal.prim Prim.nan] with
    | error e => simp [sendJSON, dbArgsStartWith_cons, dbArgsStartWith_nil, gatedRoute, List.isPrefixOf]
    | ok book =>
      by_cases hb : (!book.truthy) = true
      · simp only [if_pos hb]
        simp [sendJSON, dbArgsStartWith_cons, dbArgsStartWith_nil, gatedRoute, List.isPrefixOf]
        simpa using hb
      · simp only [if_neg hb]
        have hb2 : book.truthy = true := by simpa using hb
        cases h2 : env.db "deleteCartByBookId".toList [JsVal.prim Prim.nan] with
        | error e => simp [sendJSON, dbArgsStartWith_cons, dbArgsStartWith_nil, gatedRoute, List.isPrefixOf, hb2]
        | ok v2 =>
          cases h3 : env.db "deleteWishlistByBookId".toList [JsVal.prim Prim.nan] with
          | error e => simp [sendJSON, dbArgsStartWith_cons, dbArgsStartWith_nil, gatedRoute, List.isPrefixOf, hb2]
          | ok v3 =>
            cases h4 : env.db "deleteBook".toList [JsVal.prim Prim.nan] with
            | error e => simp [sendJSON, dbArgsStartWith_cons, dbArgsStartWith_nil, gatedRoute, List.isPrefixOf, hb2]
            | ok v4 => simp [sendJSON, dbArgsStartWith_cons, dbArgsStartWith_nil, gatedRoute, List.isPrefixOf, hb2]
  · obtain ⟨rest, rfl⟩ := eq_append_of_isPrefixOf _ _ hp
    subst hm
    have hseg : idSegment "PATCH".toList ("/api/cart/".toList ++ rest)
        = lastPiece ("/api/cart/".toList ++ rest) := by
      simp [idSegment, List.isPrefixOf]
    rw [hseg] at hid
    have hg : gatedRoute "PATCH".toList ("/api/cart/".toList ++ rest) = true := by
      simp [gatedRoute, List.isPrefixOf]
    cases hs : getSession sessions cookie with
    | none =>
      rw [handle_gated env sessions ⟨"PATCH".toList, "/api/cart/".toList ++ rest, ql, cookie, ct,
        body⟩ hg hs]
      simp [notAuthenticated, sendJSON, dbArgsStartWith_nil, gatedRoute, List.isPrefixOf]
    | some session =>
      rw [handle_cart_patch_session env sessions rest ql cookie ct body session hs, hid]
      cases hj : env.parseJson body with
      | error e => simp [sendJSON, dbArgsStartWith_cons, dbArgsStartWith_nil, List.isPrefixOf]
      | ok data =>
        simp only []
        cases hdb : env.db "updateCartQuantity".toList
            [JsVal.prim Prim.nan, data "quantity".toList] with
        | error e => simp [sendJSON, dbArgsStartWith_cons, dbArgsStartWith_nil, List.isPrefixOf]
        | ok v => simp [sendJSON, dbArgsStartWith_cons, dbArgsStartWith_nil, List.isPrefixOf]
  · obtain ⟨rest, rfl⟩ := eq_append_of_isPrefixOf _ _ hp
    subst hm
    have hseg : idSegment "DELETE".toList ("/api/cart/".toList ++ rest)
        = lastPiece ("/api/cart/".toList ++ rest) := by
      simp [idSegment, List.isPrefixOf]
    rw [hseg] at hid
    have hg : gatedRoute "DELETE".toList ("/api/cart/".toList ++ rest) = true := by
      simp [gatedRoute, List.isPrefixOf]
    cases hs : getSession sessions cookie with
    | none =>
      rw [handle_gated env sessions ⟨"DELETE".toList, "/api/cart/".toList ++ rest, ql, cookie,
        ct, body⟩ hg hs]
      simp [notAuthenticated, sendJSON, dbArgsStartWith_nil, gatedRoute, List.isPrefixOf]
    | some session =>
      rw [handle_cart_delete_session env sessions rest ql cookie ct body session hs, hid]
      cases hdb : env.db "removeFromCart".toList [JsVal.prim Prim.nan] with
      | error e => simp [sendJSON, dbArgsStartWith_cons, dbArgsStartWith_nil, List.isPrefixOf]
      | ok v => simp [sendJSON, dbArgsStartWith_cons, dbArgsStartWith_nil, List.isPrefixOf]
  · obtain ⟨rest, rfl⟩ := eq_append_of_isPrefixOf _ _ hp
    subst hm
    have hseg : idSegment "DELETE".toList ("/api/wishlist/".toList ++ rest)
        = lastPiece ("/api/wishlist/".toList ++ rest) := by
      simp [idSegment, List.isPrefixOf]
    rw [hseg] at hid
    have hg : gatedRoute "DELETE".toList ("/api/wishlist/".toList ++ rest) = true := by
      simp [gatedRoute, List.isPrefixOf]
    cases hs : getSession sessions cookie with
    | none =>
      rw [handle_gated env sessions ⟨"DELETE".toList, "/api/wishlist/".toList ++ rest, ql,
        cookie, ct, body⟩ hg hs]
      simp [notAuthenticated, sendJSON, dbArgsStartWith_nil, gatedRoute, List.isPrefixOf]
    | some session =>
      rw [handle_wishlist_delete_session env sessions rest ql cookie ct body session hs, hid]
      cases hdb : env.db "removeFromWishlist".toList [JsVal.prim Prim.nan] with
      | error e => simp [sendJSON, dbArgsStartWith_cons, dbArgsStartWith_nil, List.isPrefixOf]
      | ok v => simp [sendJSON, dbArgsStartWith_cons, dbArgsStartWith_nil, List.isPrefixOf]

/-- C11, witness: `DELETE /api/cart/abc` with a session, the data store
answering every call. -/
theorem invalid_id_not_rejected_witness :
    idRoute "DELETE".toList "/api/cart/abc".toList = true
      ∧ parseInt (idSegment "DELETE".toList "/api/cart/abc".toList) = Prim.nan
      ∧ dbArgsStartWith (handle answeringEnv twoSessions
          ⟨"DELETE".toList, "/api/cart/abc".toList, none, some "sessionId=abc".toList, none,
            []⟩).effects (JsVal.prim Prim.nan) :=
  ⟨by decide, by decide,
    (invalid_id_not_rejected answeringEnv twoSessions
      ⟨"DELETE".toList, "/api/cart/abc".toList, none, some "sessionId=abc".toList, none, []⟩
      (by decide) (by decide)).2.2.2⟩

/-- C11, counterexample: `DELETE /api/wishlist/abc` (an id that is not numeric)
and `DELETE /api/wishlist/` (no id), sent with a session to a data store that
answers, are both answered with status 200, and the data store is called with
`NaN`. -/
theorem invalid_id_counterexample :
    idRoute "DELETE".toList "/api/wishlist/abc".toList = true
      ∧ parseInt (idSegment "DELETE".toList "/api/wishlist/abc".toList) = Prim.nan
      ∧ handle answeringEnv twoSessions
          ⟨"DELETE".toList, "/api/wishlist/abc".toList, none, some "sessionId=abc".toList, none,
            []⟩
          = ⟨sendJSON 200 (Body.message "Item removed from wishlist".toList),
              [Effect.db "removeFromWishlist".toList [JsVal.prim Prim.nan]], twoSessions⟩
      ∧ idRoute "DELETE".toList "/api/wishlist/".toList = true
      ∧ parseInt (idSegment "DELETE".toList "/api/wishlist/".toList) = Prim.nan
      ∧ (handle answeringEnv twoSessions
          ⟨"DELETE".toList, "/api/wishlist/".toList, none, some "sessionId=abc".toList, none,
            []⟩).response.status = 200 := by
  decide

/-- C12, the failing input. `POST /api/books` with a JSON body, sent twice to
a data store whose `createBook` throws, the two runs differing only in the
text of the error message: both responses have status 500, but each body
carries the message of its error, so the two bodies differ.  The same two
data stores behind `DELETE /api/cart/7` give the same body `Server error`. -/
theorem book_error_message_leaks :
    (handle (failingEnv "connect ECONNREFUSED 10.0.0.5:5432") []
        ⟨"POST".toList, "/api/books".toList, none, none, some "application/json".toList,
          []⟩).response
        = sendJSON 500 (Body.message
            "Failed to create book: connect ECONNREFUSED 10.0.0.5:5432".toList)
      ∧ (handle (failingEnv "relation \"books\" does not exist") []
        ⟨"POST".toList, "/api/books".toList, none, none, some "application/json".toList,
          []⟩).response
        = sendJSON 500 (Body.message
            "Failed to create book: relation \"books\" does not exist".toList)
      ∧ (handle (failingEnv "connect ECONNREFUSED 10.0.0.5:5432") []
        ⟨"POST".toList, "/api/books".toList, none, none, some "application/json".toList,
          []⟩).response.body
        ≠ (handle (failingEnv "relation \"books\" does not exist") []
        ⟨"POST".toList, "/api/books".toList, none, none, some "application/json".toList,
          []⟩).response.body
      ∧ (handle (failingEnv "connect ECONNREFUSED 10.0.0.5:5432") twoSessions
        ⟨"DELETE".toList, "/api/cart/7".toList, none, some "sessionId=abc".toList, none,
          []⟩).response
        = sendJSON 500 (Body.message "Server error".toList)
      ∧ (handle (failingEnv "relation \"books\" does not exist") twoSessions
        ⟨"DELETE".toList, "/api/cart/7".toList, none, some "sessionId=abc".toList, none,
          []⟩).response
        = sendJSON 500 (Body.message "Server error".toList) := by
  decide

/-- C13. Login: for a `POST /api/login` whose body reads as JSON and whose
lookup by email returns.  When the lookup finds no user (it returns
`undefined`) or the stored password is not the value sent as `password`, the
response is 401 with the JSON message `Invalid email or password`, carries no
`Set-Cookie` header and the session store is unchanged.  When the lookup
returns a row whose `password` is the value sent (a JSON body never holds
`NaN`), the response is 200 with the header `Set-Cookie: sessionId=<t>;
HttpOnly; Path=/` and the store maps `t` to the user's id. -/
theorem login_outcome (env : Env) (sessions : Sessions) (ql cookie ct : Option Str)
    (body : Buffer) (data : Str → JsVal) (user : JsVal)
    (hjson : env.parseJson body = .ok data)
    (hdb : env.db "getUserByEmail".toList [data "email".toList] = .ok user) :
    ((user = JsVal.prim Prim.undefined
          ∨ JsVal.prim (user.get "password") ≠ data "password".toList) →
        (handle env sessions
          ⟨"POST".toList, "/api/login".toList, ql, cookie, ct, body⟩).response
            = sendJSON 401 (Body.message "Invalid email or password".toList)
        ∧ objGet (handle env sessions
          ⟨"POST".toList, "/api/login".toList, ql, cookie, ct, body⟩).response.headers
            "Set-Cookie".toList = none
        ∧ (handle env sessions
          ⟨"POST".toList, "/api/login".toList, ql, cookie, ct, body⟩).sessions = sessions)
      ∧ ((∃ cols, user = JsVal.row cols) →
        data "password".toList = JsVal.prim (user.get "password") →
        data "password".toList ≠ JsVal.prim Prim.nan →
        (handle env sessions
          ⟨"POST".toList, "/api/login".toList, ql, cookie, ct, body⟩).response.status = 200
        ∧ objGet (handle env sessions
          ⟨"POST".toList, "/api/login".toList, ql, cookie, ct, body⟩).response.headers
            "Set-Cookie".toList
            = some ("sessionId=".toList ++ (env.randomText.drop 7 ++ "; HttpOnly; Path=/".toList))
        ∧ (objGet (handle env sessions
          ⟨"POST".toList, "/api/login".toList, ql, cookie, ct, body⟩).sessions
            (env.randomText.drop 7)).map Session.userId = some (user.get "id")) := by
  rw [handle_login env sessions ql cookie ct body data user hjson hdb]
  constructor
  · intro h
    have hbad : (!user.truthy || strictNe (user.get "password") (data "password".toList))
        = true := by
      rcases h with h | h
      · subst h
        rfl
      · have hne : strictNe (user.get "password") (data "password".toList) = true := by
          cases hp : data "password".toList with
          | prim p =>
            rw [hp] at h
            have hne2 : user.get "password" ≠ p := fun e => h (by rw [e])
            simp [strictNe, hne2]
          | row cols => rfl
          | doc text => rfl
        rw [hne]
        simp
    rw [if_pos hbad]
    refine ⟨rfl, ?_, rfl⟩
    simp [sendJSON, objGet]
  · rintro ⟨cols, hrow⟩ hsame hnan
    have hne : ¬ (!user.truthy || strictNe (user.get "password") (data "password".toList))
        = true := by
      have ht : user.truthy = true := by
        rw [hrow]
        rfl
      have hp : user.get "password" ≠ Prim.nan := fun e => hnan (by rw [hsame, e])
      rw [hsame, ht]
      simp [strictNe, hp]
    rw [if_neg hne]
    refine ⟨rfl, ?_, ?_⟩
    · simp [objGet, createSession]
    · simp [createSession, objGet_objSet]

/-- C13, witness: for a known user whose stored password is `secret`, a login
with the password `wrong` is refused and a login with the password `secret`
succeeds. -/
theorem login_outcome_witness :
    ((handle (loginEnv "wrong") twoSessions
        ⟨"POST".toList, "/api/login".toList, none, none, none, []⟩).response
          = sendJSON 401 (Body.message "Invalid email or password".toList)
      ∧ objGet (handle (loginEnv "wrong") twoSessions
        ⟨"POST".toList, "/api/login".toList, none, none, none, []⟩).response.headers
          "Set-Cookie".toList = none
      ∧ (handle (loginEnv "wrong") twoSessions
        ⟨"POST".toList, "/api/login".toList, none, none, none, []⟩).sessions = twoSessions)
    ∧ ((handle (loginEnv "secret") twoSessions
        ⟨"POST".toList, "/api/login".toList, none, none, none, []⟩).response.status = 200
      ∧ objGet (handle (loginEnv "secret") twoSessions
        ⟨"POST".toList, "/api/login".toList, none, none, none, []⟩).response.headers
          "Set-Cookie".toList = some "sessionId=82mvyr; HttpOnly; Path=/".toList
      ∧ (objGet (handle (loginEnv "secret") twoSessions
        ⟨"POST".toList, "/api/login".toList, none, none, none, []⟩).sessions
          "82mvyr".toList).map Session.userId = some (Prim.num 7)) :=
  ⟨(login_outcome (loginEnv "wrong") twoSessions none none none []
      (fun key =>
        if key = "email".toList then JsVal.prim (Prim.str "a@b".toList)
        else if key = "password".toList then JsVal.prim (Prim.str "wrong".toList)
        else JsVal.prim Prim.undefined)
      (JsVal.row [("id".toList, Prim.num 7), ("name".toList, Prim.str "Ann".toList),
        ("email".toList, Prim.str "a@b".toList), ("password".toList, Prim.str "secret".toList)])
      rfl rfl).1 (Or.inr (by decide)),
    (login_outcome (loginEnv "secret") twoSessions none none none []
      (fun key =>
        if key = "email".toList then JsVal.prim (Prim.str "a@b".toList)
        else if key = "password".toList then JsVal.prim (Prim.str "secret".toList)
        else JsVal.prim Prim.undefined)
      (JsVal.row [("id".toList, Prim.num 7), ("name".toList, Prim.str "Ann".toList),
        ("email".toList, Prim.str "a@b".toList), ("password".toList, Prim.str "secret".toList)])
      rfl rfl).2 ⟨_, rfl⟩ (by decide) (by decide)⟩

/-- C14, the failing input. For the request path `/uploads/../../.env` the
path handed to `serveStaticFile` is `.env` in the program directory, which is
not under `public`, and the content of that file is served. -/
theorem static_path_escapes_public :
    "/uploads/".toList.isPrefixOf "/uploads/../../.env".toList = true
      ∧ pathJoin [dotEnvEnv.dirname, "public".toList, "/uploads/../../.env".toList]
          = "/srv/app/.env".toList
      ∧ "/srv/app/public/".toList.isPrefixOf
          (pathJoin [dotEnvEnv.dirname, "public".toList, "/uploads/../../.env".toList]) = false
      ∧ (handle dotEnvEnv [] ⟨"GET".toList, "/uploads/../../.env".toList, none, none, none,
          []⟩).response
          = ⟨200, [("Content-Type".toList, "text/plain".toList)], Body.file [83, 61, 49]⟩ := by
  decide

end Storebook
